import Mathlib

/-!
# FDCLabel barcode engine: validation, Code128 encoding and EAN-13 / UPC-A drawing

A shallow embedding of `libs/Barcodes/barcodes.c`.

* A C string is the list of its bytes before the terminating NUL.
* `int` values are integers and `%` is C's truncating remainder (`Int.tmod`). The one
  accumulator that grows with the input, `sum` in `code128_checksum`, is a 32-bit
  `int`: its arithmetic wraps around (`wrap_int`). Every other `int` stays far below
  `INT_MAX` and is computed exactly.
* An array has its declared size: a write past the end of `codes[256]` is undefined
  behaviour, and a routine that performs one has no result (`none`).
* `float` coordinates are taken as exact rationals.
* The HPDF page is append-only for this code: every drawing routine is modelled
  by the ordered list of page operations it issues.
-/

namespace FDCLabel

/-! ## C strings -/

/-- The bytes of a C string, terminator excluded. -/
abbrev CString := List (Fin 256)

/-- The C string of an ASCII literal. -/
def cstr (s : String) : CString := s.data.map (fun c => Fin.ofNat c.toNat)

/-- The library call `strlen`. -/
def strlen (s : CString) : Nat := s.length

/-- The byte `s[i]`; the terminating NUL is read at `i = strlen s`. -/
def byte_at (s : CString) (i : Nat) : Nat := (s.getD i 0).val

/-- The expression `s[i]` of type `char` promoted to `int` (plain `char` is signed). -/
def char_at (s : CString) (i : Nat) : Int :=
  if byte_at s i < 128 then (byte_at s i : Int) else (byte_at s i : Int) - 256

/-! ## Barcode types -/

/-- The enum `BarcodeType`; a C enum is an integer, the three enumerators are 0, 1, 2. -/
abbrev BarcodeType := Int

def BARCODE_CODE128 : BarcodeType := 0
def BARCODE_EAN13 : BarcodeType := 1
def BARCODE_UPCA : BarcodeType := 2

/-! ## EAN-13 / UPC-A checksums -/

/-- The function `ean13_verify_checksum`. -/
def ean13_verify_checksum (ean : CString) : Bool :=
  if strlen ean ≠ 13 then false
  else
    let sum : Int := (List.range 12).foldl
      (fun sum i =>
        let digit := char_at ean i - 48
        sum + (if i % 2 = 0 then digit else digit * 3)) 0
    let checksum := Int.tmod (10 - Int.tmod sum 10) 10
    decide (checksum = char_at ean 12 - 48)

/-- The function `upca_verify_checksum`. -/
def upca_verify_checksum (upc : CString) : Bool :=
  if strlen upc ≠ 12 then false
  else
    let sum : Int := (List.range 11).foldl
      (fun sum i =>
        let digit := char_at upc i - 48
        sum + (if i % 2 = 0 then digit * 3 else digit)) 0
    let checksum := Int.tmod (10 - Int.tmod sum 10) 10
    decide (checksum = char_at upc 11 - 48)

/-! ## Validation -/

/-- The function `validate_barcode_data`; `none` is the null pointer. -/
def validate_barcode_data (type : BarcodeType) (data : Option CString) : Bool :=
  match data with
  | none => false
  | some data =>
    if type = BARCODE_CODE128 then
      decide (strlen data > 0)
    else if type = BARCODE_EAN13 then
      if strlen data ≠ 13 then false
      else if (List.range 13).any (fun i => decide (char_at data i < 48) || decide (char_at data i > 57))
      then false
      else ean13_verify_checksum data
    else if type = BARCODE_UPCA then
      if strlen data ≠ 12 then false
      else if (List.range 12).any (fun i => decide (char_at data i < 48) || decide (char_at data i > 57))
      then false
      else upca_verify_checksum data
    else false

/-! ## Code128 tables and encoder -/

/-- The table `code128_encoding[107]`. -/
def code128_encoding : List CString := [
  cstr "11011001100", cstr "11001101100", cstr "11001100110", cstr "10010011000", cstr "10010001100",
  cstr "10001001100", cstr "10011001000", cstr "10011000100", cstr "10001100100", cstr "11001001000",
  cstr "11001000100", cstr "11000100100", cstr "10110011100", cstr "10011011100", cstr "10011001110",
  cstr "10111001100", cstr "10011101100", cstr "10011100110", cstr "11001110010", cstr "11001011100",
  cstr "11001001110", cstr "11011100100", cstr "11001110100", cstr "11101101110", cstr "11101001100",
  cstr "11100101100", cstr "11100100110", cstr "11101100100", cstr "11100110100", cstr "11100110010",
  cstr "11011011000", cstr "11011000110", cstr "11000110110", cstr "10100011000", cstr "10001011000",
  cstr "10001000110", cstr "10110001000", cstr "10001101000", cstr "10001100010", cstr "11010001000",
  cstr "11000101000", cstr "11000100010", cstr "10110111000", cstr "10110001110", cstr "10001101110",
  cstr "10111011000", cstr "10111000110", cstr "10001110110", cstr "11101110110", cstr "11010001110",
  cstr "11000101110", cstr "11011101000", cstr "11011100010", cstr "11011101110", cstr "11101011000",
  cstr "11101000110", cstr "11100010110", cstr "11101101000", cstr "11101100010", cstr "11100011010",
  cstr "11101111010", cstr "11001000010", cstr "11110001010", cstr "10100110000", cstr "10100001100",
  cstr "10010110000", cstr "10010000110", cstr "10000101100", cstr "10000100110", cstr "10110010000",
  cstr "10110000100", cstr "10011010000", cstr "10011000010", cstr "10000110100", cstr "10000110010",
  cstr "11000010010", cstr "11001010000", cstr "11110111010", cstr "11000010100", cstr "10001111010",
  cstr "10100111100", cstr "10010111100", cstr "10010011110", cstr "10111100100", cstr "10011110100",
  cstr "10011110010", cstr "11110100100", cstr "11110010100", cstr "11110010010", cstr "11011011110",
  cstr "11011110110", cstr "11110110110", cstr "10101111000", cstr "10100011110", cstr "10001011110",
  cstr "10111101000", cstr "10111100010", cstr "11110101000", cstr "11110100010", cstr "10111011110",
  cstr "10111101110", cstr "11101011110", cstr "11110101110", cstr "11010000100", cstr "11010010000",
  cstr "11010011100", cstr "11000111010"]

def CODE128_START_A : Int := 103
def CODE128_START_B : Int := 104
def CODE128_START_C : Int := 105
def CODE128_STOP : Int := 106

/-- The read `table[i]` of a pattern table with an `int` index. -/
def table_at (table : List CString) (i : Int) : CString :=
  if 0 ≤ i then table.getD i.toNat [] else []

/-- The read `codes[i]` of the `int` array. -/
def code_at (codes : List Int) (i : Nat) : Int := codes.getD i 0

/-- The assignment `codes[i] = v`; the array is kept as the list of the entries
written so far, so a store at the first free index extends it. -/
def store (codes : List Int) (i : Nat) (v : Int) : List Int :=
  codes.take i ++ [v] ++ codes.drop (i + 1)

/-- The largest value of a 32-bit `int`. -/
def INT_MAX : Int := 2147483647

/-- The value a 32-bit `int` holds after an arithmetic result `x`: two's complement
wrap-around into `[-2^31, 2^31 - 1]`. -/
def wrap_int (x : Int) : Int := (x + 2147483648) % 4294967296 - 2147483648

/-- The function `code128_checksum`; `sum` is a 32-bit `int`. -/
def code128_checksum (codes : List Int) (length : Nat) : Int :=
  let sum : Int := (List.range' 1 (length - 1)).foldl
    (fun (sum : Int) (i : Nat) => wrap_int (sum + wrap_int ((i : Int) * code_at codes i)))
    (code_at codes 0)
  Int.tmod sum 103

/-- The function `code128_encode_string`: the returned count together with the
entries written to `codes[0 ..]`. The caller's array is non-null and taken large
enough. -/
def code128_encode_string (text : Option CString) : Nat × List Int :=
  match text with
  | none => (0, [])
  | some text =>
    let len := strlen text
    if len = 0 then (0, [])
    else
      let codes := store [] 0 CODE128_START_B
      let code_count := 1
      let (codes, code_count) := (List.range len).foldl
        (fun (st : List Int × Nat) i =>
          let c := byte_at text i
          if c ≥ 32 ∧ c ≤ 126 then (store st.1 st.2 ((c : Int) - 32), st.2 + 1)
          else (store st.1 st.2 0, st.2 + 1)) (codes, code_count)
      let checksum := code128_checksum codes code_count
      let codes := store codes code_count checksum
      let code_count := code_count + 1
      let codes := store codes code_count CODE128_STOP
      let code_count := code_count + 1
      (code_count, codes)

/-! ## The code array -/

/-- The size of the local array `int codes[256]` of `draw_code128`. -/
def CODES_SIZE : Nat := 256

/-- The size of the text buffer of a `BarcodeEntry`, `MAX_TEXT_LEN` in `utils.h`. -/
def MAX_TEXT_LEN : Nat := 1024

/-- The indices `k` of the assignments `codes[k] = ...` that `code128_encode_string`
performs, in order. -/
def code128_encode_writes (text : Option CString) : List Nat :=
  match text with
  | none => []
  | some text =>
    let len := strlen text
    if len = 0 then []
    else
      let writes := [0]
      let code_count := 1
      let (writes, code_count) := (List.range len).foldl
        (fun (st : List Nat × Nat) i =>
          let c := byte_at text i
          if c ≥ 32 ∧ c ≤ 126 then (st.1 ++ [st.2], st.2 + 1)
          else (st.1 ++ [st.2], st.2 + 1)) (writes, code_count)
      let writes := writes ++ [code_count]
      let code_count := code_count + 1
      let writes := writes ++ [code_count]
      writes

/-! ## EAN tables -/

/-- The table `ean_left_patterns[10][2]`. -/
def ean_left_patterns : List (List CString) := [
  [cstr "0001101", cstr "0100111"], [cstr "0011001", cstr "0110011"], [cstr "0010011", cstr "0011011"],
  [cstr "0111101", cstr "0100001"], [cstr "0100011", cstr "0011101"], [cstr "0110001", cstr "0111001"],
  [cstr "0101111", cstr "0000101"], [cstr "0111011", cstr "0010001"], [cstr "0110111", cstr "0001001"],
  [cstr "0001011", cstr "0010111"]]

/-- The table `ean_right_patterns[10]`. -/
def ean_right_patterns : List CString := [
  cstr "1110010", cstr "1100110", cstr "1101100", cstr "1000010", cstr "1011100",
  cstr "1001110", cstr "1010000", cstr "1000100", cstr "1001000", cstr "1110100"]

/-- The table `ean_first_digit_patterns[10]`. -/
def ean_first_digit_patterns : List CString := [
  cstr "AAAAAA", cstr "AABABB", cstr "AABBAB", cstr "AABBBA", cstr "ABAABB",
  cstr "ABBAAB", cstr "ABBBAA", cstr "ABABAB", cstr "ABABBA", cstr "ABBABA"]

/-- The read `ean_left_patterns[digit][k]`. -/
def left_pattern_at (digit : Int) (k : Nat) : CString :=
  if 0 ≤ digit then (ean_left_patterns.getD digit.toNat []).getD k [] else []

/-! ## Page operations -/

/-- A non-null `HPDF_Page` handle. -/
structure HPDF_Page where
  id : Nat
deriving DecidableEq

/-- The libharu calls the barcode code issues on its page. -/
inductive PageOp where
  | GSave
  | GRestore
  | Rectangle (x y width height : ℚ)
  | Fill
deriving DecidableEq

/-- The rectangles among a list of page operations, in order, as `(x, y, width, height)`. -/
def rectangles : List PageOp → List (ℚ × ℚ × ℚ × ℚ)
  | [] => []
  | PageOp.Rectangle x y w h :: ops => (x, y, w, h) :: rectangles ops
  | _ :: ops => rectangles ops

/-! ## Drawing -/

/-- The inner loop `while (j < pattern_len && pattern[j] == '1') j++`; returns the
final `j`. At most `pattern_len - j` iterations run, which is the fuel passed. -/
def skip_ones (pattern : CString) (pattern_len : Nat) : Nat → Nat → Nat
  | 0, j => j
  | fuel + 1, j =>
    if j < pattern_len ∧ char_at pattern j = 49 then skip_ones pattern pattern_len fuel (j + 1)
    else j

/-- The run-grouping loop `while (j < pattern_len) { ... }`, which occurs with the same
body in `draw_code128` and twice in `draw_ean13` (there with the bound 7). Every
iteration advances `j`, so `pattern_len - j` is enough fuel. -/
def draw_runs (pattern : CString) (pattern_len : Nat) (current_x y module_width height : ℚ) :
    Nat → Nat → List PageOp
  | 0, _ => []
  | fuel + 1, j =>
    if j < pattern_len then
      if char_at pattern j = 49 then
        let start := j
        let j := skip_ones pattern pattern_len (pattern_len - j) j
        let consecutive_ones := j - start
        PageOp.Rectangle (current_x + (start : ℚ) * module_width) y
            ((consecutive_ones : ℚ) * module_width) height
          :: PageOp.Fill
          :: draw_runs pattern pattern_len current_x y module_width height fuel j
      else
        draw_runs pattern pattern_len current_x y module_width height fuel (j + 1)
    else []

/-- The function `draw_code128`: the page operations it issues, or `none` when the
encoder writes past the end of the local array `codes[256]` (undefined behaviour). -/
def draw_code128 (x y width height : ℚ) (data : Option CString) : Option (List PageOp) :=
  if !validate_barcode_data BARCODE_CODE128 data then some []
  else if (code128_encode_writes data).any (fun k => decide (CODES_SIZE ≤ k)) then none
  else
    let (code_count, codes) := code128_encode_string data
    if code_count = 0 then some []
    else
      let total_modules : Nat := (List.range code_count).foldl
        (fun total_modules i => total_modules + strlen (table_at code128_encoding (code_at codes i))) 0
      let total_modules := total_modules + 11
      let module_width := width / (total_modules : ℚ)
      let current_x := x
      let current_x := current_x + module_width * 10
      some ((List.range code_count).foldl
        (fun (st : List PageOp × ℚ) i =>
          let pattern := table_at code128_encoding (code_at codes i)
          let pattern_len := strlen pattern
          (st.1 ++ draw_runs pattern pattern_len st.2 y module_width height pattern_len 0,
            st.2 + (pattern_len : ℚ) * module_width)) ([], current_x)).1

/-- The function `draw_ean13`: the page operations it issues. -/
def draw_ean13 (x y width height : ℚ) (data : Option CString) : List PageOp :=
  if !validate_barcode_data BARCODE_EAN13 data then []
  else
    match data with
    | none => []
    | some data =>
      let module_width := width / 95
      let current_x := x
      -- left guard bars
      let ops := [PageOp.Rectangle current_x y module_width height, PageOp.Fill]
      let current_x := current_x + module_width
      let ops := ops ++ [PageOp.Rectangle current_x y module_width height, PageOp.Fill]
      let current_x := current_x + module_width
      let current_x := current_x + module_width
      let first_digit := char_at data 0 - 48
      let pattern_set := table_at ean_first_digit_patterns first_digit
      -- left-hand digits
      let (ops, current_x) := (List.range' 1 6).foldl
        (fun (st : List PageOp × ℚ) i =>
          let digit := char_at data i - 48
          let pattern :=
            if char_at pattern_set (i - 1) = 65 then left_pattern_at digit 0
            else left_pattern_at digit 1
          (st.1 ++ draw_runs pattern 7 st.2 y module_width height 7 0,
            st.2 + 7 * module_width)) (ops, current_x)
      -- center guard bars
      let current_x := current_x + module_width
      let ops := ops ++ [PageOp.Rectangle current_x y module_width height, PageOp.Fill]
      let current_x := current_x + module_width
      let current_x := current_x + module_width
      let ops := ops ++ [PageOp.Rectangle current_x y module_width height, PageOp.Fill]
      let current_x := current_x + module_width
      let current_x := current_x + module_width
      -- right-hand digits
      let (ops, current_x) := (List.range' 7 6).foldl
        (fun (st : List PageOp × ℚ) i =>
          let digit := char_at data i - 48
          let pattern := table_at ean_right_patterns digit
          (st.1 ++ draw_runs pattern 7 st.2 y module_width height 7 0,
            st.2 + 7 * module_width)) (ops, current_x)
      -- right guard bars
      let current_x := current_x + module_width
      let ops := ops ++ [PageOp.Rectangle current_x y module_width height, PageOp.Fill]
      let current_x := current_x + module_width
      let current_x := current_x + module_width
      let ops := ops ++ [PageOp.Rectangle current_x y module_width height, PageOp.Fill]
      ops

/-- The call `snprintf(buf, size, "0%s", data)`: the string left in `buf`, cut to
`size - 1` characters. -/
def snprintf_0s (size : Nat) (data : CString) : CString :=
  ((48 : Fin 256) :: data).take (size - 1)

/-- The function `draw_upca`: the page operations it issues. -/
def draw_upca (x y width height : ℚ) (data : Option CString) : List PageOp :=
  if !validate_barcode_data BARCODE_UPCA data then []
  else
    match data with
    | none => []
    | some data =>
      let ean13_data := snprintf_0s 14 data
      draw_ean13 x y width height (some ean13_data)

/-- The function `draw_barcode`: the page operations it issues, or `none` when the
routine it calls has undefined behaviour; in the arguments `none` is a null page or a
null text. -/
def draw_barcode (page : Option HPDF_Page) (x y width height : ℚ) (type : BarcodeType)
    (data : Option CString) : Option (List PageOp) :=
  if page.isNone ∨ data.isNone ∨ width ≤ 0 ∨ height ≤ 0 then some []
  else
    (if type = BARCODE_CODE128 then draw_code128 x y width height data
      else if type = BARCODE_EAN13 then some (draw_ean13 x y width height data)
      else if type = BARCODE_UPCA then some (draw_upca x y width height data)
      else some []).map (fun ops => [PageOp.GSave] ++ ops ++ [PageOp.GRestore])

/-! ## Specification-side vocabulary -/

/-- The value of the `i`-th digit of a digit string. -/
def digit_value (s : CString) (i : Nat) : Nat := byte_at s i - 48

/-- EAN-13 weights: 1 at even index, 3 at odd index. -/
def ean13_weight (i : Nat) : Nat := if i % 2 = 0 then 1 else 3

/-- UPC-A weights: 3 at even index, 1 at odd index. -/
def upca_weight (i : Nat) : Nat := if i % 2 = 0 then 3 else 1

/-! ## Module-level views -/

/-- The pairs `(start, consecutive_ones)` of the rectangles the run-grouping loop
issues: the loop of `draw_runs` with the page coordinates left out. -/
def run_list (pattern : CString) (pattern_len : Nat) : Nat → Nat → List (Nat × Nat)
  | 0, _ => []
  | fuel + 1, j =>
    if j < pattern_len then
      if char_at pattern j = 49 then
        let start := j
        let j := skip_ones pattern pattern_len (pattern_len - j) j
        let consecutive_ones := j - start
        (start, consecutive_ones) :: run_list pattern pattern_len fuel j
      else
        run_list pattern pattern_len fuel (j + 1)
    else []

/-- The rectangle of a bar that starts `r.1` modules after `x` and is `r.2` modules wide. -/
def to_rect (x y module_width height : ℚ) (r : Nat × Nat) : ℚ × ℚ × ℚ × ℚ :=
  (x + (r.1 : ℚ) * module_width, y, (r.2 : ℚ) * module_width, height)

/-- The bars of consecutive glyphs of `glyph_len` modules each, the first glyph
starting at module `c`, as `(start, width)` in modules. -/
def glyph_modules (pattern_of : Nat → CString) (glyph_len : Nat) : List Nat → Nat → List (Nat × Nat)
  | [], _ => []
  | i :: l, c =>
    (run_list (pattern_of i) glyph_len glyph_len 0).map (fun r => (c + r.1, r.2))
      ++ glyph_modules pattern_of glyph_len l (c + glyph_len)

/-- A module `m` lies under one of the bars `(start, width)`. -/
def covers (runs : List (Nat × Nat)) (m : Nat) : Prop :=
  ∃ r ∈ runs, r.1 ≤ m ∧ m < r.1 + r.2

/-- The cells `s .. s + n - 1` of the pattern form a maximal run of consecutive '1'
characters. -/
def is_maximal_run (pattern : CString) (pattern_len s n : Nat) : Prop :=
  0 < n ∧ s + n ≤ pattern_len ∧ (∀ i, s ≤ i → i < s + n → char_at pattern i = 49) ∧
    (s = 0 ∨ char_at pattern (s - 1) ≠ 49) ∧
    (s + n = pattern_len ∨ char_at pattern (s + n) ≠ 49)

/-- The pattern `draw_ean13` selects for the left-hand digit at index `i` (1 to 6). -/
def ean13_left_pattern (data : CString) (i : Nat) : CString :=
  if char_at (table_at ean_first_digit_patterns (char_at data 0 - 48)) (i - 1) = 65
  then left_pattern_at (char_at data i - 48) 0
  else left_pattern_at (char_at data i - 48) 1

/-- The pattern `draw_ean13` selects for the right-hand digit at index `i` (7 to 12). -/
def ean13_right_pattern (data : CString) (i : Nat) : CString :=
  table_at ean_right_patterns (char_at data i - 48)

/-- The bars of an EAN-13 drawing as `(start, width)` in modules from the left edge
of the box, in the order `draw_ean13` issues them. -/
def ean13_modules (data : CString) : List (Nat × Nat) :=
  [(0, 1), (1, 1)]
    ++ glyph_modules (ean13_left_pattern data) 7 (List.range' 1 6) 3
    ++ [(46, 1), (48, 1)]
    ++ glyph_modules (ean13_right_pattern data) 7 (List.range' 7 6) 50
    ++ [(93, 1), (95, 1)]

/-- Module `m` of the symbol, counted from `x` in units of `module_width`, lies under
one of the rectangles. -/
def module_covered (x module_width : ℚ) (rects : List (ℚ × ℚ × ℚ × ℚ)) (m : Nat) : Prop :=
  ∃ r ∈ rects, r.1 ≤ x + (m : ℚ) * module_width ∧
    x + ((m : ℚ) + 1) * module_width ≤ r.1 + r.2.2.1

/-- The complement of a pattern character: '0' for '1' and '1' for '0'. -/
def flip_bit (b : Fin 256) : Fin 256 := if b.val = 49 then 48 else 49

/-! ## Table accesses -/

/-- The indices `j` at which the inner loop `while (j < pattern_len && pattern[j] == '1')`
evaluates `pattern[j]`. -/
def skip_ones_reads (pattern : CString) (pattern_len : Nat) : Nat → Nat → List Nat
  | 0, _ => []
  | fuel + 1, j =>
    if j < pattern_len then
      j :: (if char_at pattern j = 49 then skip_ones_reads pattern pattern_len fuel (j + 1)
            else [])
    else []

/-- The indices `j` at which the run-grouping loop evaluates `pattern[j]`, in order. -/
def draw_runs_reads (pattern : CString) (pattern_len : Nat) : Nat → Nat → List Nat
  | 0, _ => []
  | fuel + 1, j =>
    if j < pattern_len then
      j :: (if char_at pattern j = 49 then
              skip_ones_reads pattern pattern_len (pattern_len - j) j
                ++ draw_runs_reads pattern pattern_len fuel
                    (skip_ones pattern pattern_len (pattern_len - j) j)
            else draw_runs_reads pattern pattern_len fuel (j + 1))
    else []

/-! ## Loop and byte lemmas -/

theorem foldl_add_range (f : Nat → Int) (n : Nat) :
    (List.range n).foldl (fun sum i => sum + f i) 0 = ∑ i in Finset.range n, f i := by
  induction n with
  | zero => simp
  | succ n ih => rw [List.range_succ, List.foldl_append, ih, Finset.sum_range_succ]; rfl

theorem byte_at_lt (s : CString) (i : Nat) : byte_at s i < 256 := (s.getD i 0).isLt

theorem char_at_digit_range (s : CString) (i : Nat) :
    (¬ (char_at s i < 48) ∧ ¬ (char_at s i > 57)) ↔ (48 ≤ byte_at s i ∧ byte_at s i ≤ 57) := by
  have := byte_at_lt s i
  unfold char_at
  split_ifs <;> omega

theorem char_at_of_digit (s : CString) (i : Nat) (h : 48 ≤ byte_at s i ∧ byte_at s i ≤ 57) :
    char_at s i - 48 = (digit_value s i : Int) := by
  unfold char_at digit_value
  split_ifs <;> omega

theorem digits_any_false (s : CString) (n : Nat) :
    (List.range n).any (fun i => decide (char_at s i < 48) || decide (char_at s i > 57)) = false
      ↔ ∀ i, i < n → 48 ≤ byte_at s i ∧ byte_at s i ≤ 57 := by
  rw [Bool.eq_false_iff]
  simp only [ne_eq, List.any_eq_true, List.mem_range, Bool.or_eq_true, decide_eq_true_eq,
    not_exists, not_and, not_or]
  constructor
  · intro h i hi
    exact (char_at_digit_range s i).1 (h i hi)
  · intro h i hi
    exact (char_at_digit_range s i).2 (h i hi)

theorem all_bytes_iff (s : CString) (P : Nat → Prop) :
    (∀ i, i < s.length → P (byte_at s i)) ↔ ∀ c ∈ s, P c.val := by
  constructor
  · intro h c hc
    obtain ⟨i, hi, rfl⟩ := List.getElem_of_mem hc
    have := h i hi
    simpa [byte_at, List.getD_eq_getElem?_getD, List.getElem?_eq_getElem hi] using this
  · intro h i hi
    have := h s[i] (List.getElem_mem hi)
    simpa [byte_at, List.getD_eq_getElem?_getD, List.getElem?_eq_getElem hi] using this

theorem check_digit_cast (S d : Nat) (c : Int) (hc : c = (d : Int)) :
    (Int.tmod (10 - Int.tmod (S : Int) 10) 10 = c) ↔ (10 - S % 10) % 10 = d := by
  subst hc
  have h1 : Int.tmod (S : Int) 10 = ((S % 10 : Nat) : Int) := by
    rw [Int.tmod_eq_emod (by omega) (by omega)]; omega
  rw [h1]
  have h2 : (10 : Int) - ((S % 10 : Nat) : Int) = (((10 - S % 10 : Nat)) : Int) := by omega
  rw [h2, Int.tmod_eq_emod (by omega) (by omega)]
  omega

theorem ean13_verify_checksum_eq (s : CString) (hlen : s.length = 13)
    (hd : ∀ i, i < 13 → 48 ≤ byte_at s i ∧ byte_at s i ≤ 57) :
    ean13_verify_checksum s = decide
      ((10 - (∑ i in Finset.range 12, ean13_weight i * digit_value s i) % 10) % 10
        = digit_value s 12) := by
  have hsum : (List.range 12).foldl
      (fun sum i => sum + (if i % 2 = 0 then char_at s i - 48 else (char_at s i - 48) * 3)) 0
      = ((∑ i in Finset.range 12, ean13_weight i * digit_value s i : Nat) : Int) := by
    rw [foldl_add_range]
    push_cast
    apply Finset.sum_congr rfl
    intro i hi
    have hi' : i < 13 := by have := Finset.mem_range.1 hi; omega
    rw [char_at_of_digit s i (hd i hi')]
    unfold ean13_weight
    split_ifs <;> simp
    ring
  unfold ean13_verify_checksum
  simp only [strlen, hlen, ne_eq, not_true_eq_false, if_false]
  rw [hsum]
  exact decide_eq_decide.2 (check_digit_cast _ _ _ (char_at_of_digit s 12 (hd 12 (by omega))))

/-- The EAN-13 branch of `validate_barcode_data`, characterised. -/
theorem validate_ean13_spec (s : CString) :
    validate_barcode_data BARCODE_EAN13 (some s) = true ↔
      (s.length = 13 ∧ (∀ c ∈ s, 48 ≤ c.val ∧ c.val ≤ 57) ∧
        (10 - (∑ i in Finset.range 12, ean13_weight i * digit_value s i) % 10) % 10
          = digit_value s 12) := by
  by_cases hlen : s.length = 13
  · by_cases hd : ∀ i, i < 13 → 48 ≤ byte_at s i ∧ byte_at s i ≤ 57
    · have hd' : ∀ c ∈ s, 48 ≤ c.val ∧ c.val ≤ 57 :=
        (all_bytes_iff s (fun b => 48 ≤ b ∧ b ≤ 57)).1 (by rw [hlen]; exact hd)
      simp [validate_barcode_data, BARCODE_EAN13, BARCODE_CODE128, strlen, hlen,
        (digits_any_false s 13).2 hd, ean13_verify_checksum_eq s hlen hd]
      intro _; exact hd'
    · have hd' : ¬ ∀ c ∈ s, 48 ≤ c.val ∧ c.val ≤ 57 := fun h =>
        hd (by rw [← hlen]; exact (all_bytes_iff s (fun b => 48 ≤ b ∧ b ≤ 57)).2 h)
      have hany : (List.range 13).any
          (fun i => decide (char_at s i < 48) || decide (char_at s i > 57)) = true := by
        rw [← Bool.not_eq_false]; exact fun h => hd ((digits_any_false s 13).1 h)
      simp only [validate_barcode_data, BARCODE_EAN13, BARCODE_CODE128, strlen, hlen, hany]
      simp [hd']
  · simp [validate_barcode_data, BARCODE_EAN13, BARCODE_CODE128, strlen, hlen]

theorem upca_verify_checksum_eq (s : CString) (hlen : s.length = 12)
    (hd : ∀ i, i < 12 → 48 ≤ byte_at s i ∧ byte_at s i ≤ 57) :
    upca_verify_checksum s = decide
      ((10 - (∑ i in Finset.range 11, upca_weight i * digit_value s i) % 10) % 10
        = digit_value s 11) := by
  have hsum : (List.range 11).foldl
      (fun sum i => sum + (if i % 2 = 0 then (char_at s i - 48) * 3 else char_at s i - 48)) 0
      = ((∑ i in Finset.range 11, upca_weight i * digit_value s i : Nat) : Int) := by
    rw [foldl_add_range]
    push_cast
    apply Finset.sum_congr rfl
    intro i hi
    have hi' : i < 12 := by have := Finset.mem_range.1 hi; omega
    rw [char_at_of_digit s i (hd i hi')]
    unfold upca_weight
    split_ifs <;> simp
    ring
  unfold upca_verify_checksum
  simp only [strlen, hlen, ne_eq, not_true_eq_false, if_false]
  rw [hsum]
  exact decide_eq_decide.2 (check_digit_cast _ _ _ (char_at_of_digit s 11 (hd 11 (by omega))))

/-- The UPC-A branch of `validate_barcode_data`, characterised. -/
theorem validate_upca_spec (s : CString) :
    validate_barcode_data BARCODE_UPCA (some s) = true ↔
      (s.length = 12 ∧ (∀ c ∈ s, 48 ≤ c.val ∧ c.val ≤ 57) ∧
        (10 - (∑ i in Finset.range 11, upca_weight i * digit_value s i) % 10) % 10
          = digit_value s 11) := by
  by_cases hlen : s.length = 12
  · by_cases hd : ∀ i, i < 12 → 48 ≤ byte_at s i ∧ byte_at s i ≤ 57
    · have hd' : ∀ c ∈ s, 48 ≤ c.val ∧ c.val ≤ 57 :=
        (all_bytes_iff s (fun b => 48 ≤ b ∧ b ≤ 57)).1 (by rw [hlen]; exact hd)
      simp [validate_barcode_data, BARCODE_EAN13, BARCODE_CODE128, BARCODE_UPCA, strlen, hlen,
        (digits_any_false s 12).2 hd, upca_verify_checksum_eq s hlen hd]
      intro _; exact hd'
    · have hd' : ¬ ∀ c ∈ s, 48 ≤ c.val ∧ c.val ≤ 57 := fun h =>
        hd (by rw [← hlen]; exact (all_bytes_iff s (fun b => 48 ≤ b ∧ b ≤ 57)).2 h)
      have hany : (List.range 12).any
          (fun i => decide (char_at s i < 48) || decide (char_at s i > 57)) = true := by
        rw [← Bool.not_eq_false]; exact fun h => hd ((digits_any_false s 12).1 h)
      simp only [validate_barcode_data, BARCODE_EAN13, BARCODE_CODE128, BARCODE_UPCA, strlen,
        hlen, hany]
      simp [hd']
  · simp [validate_barcode_data, BARCODE_EAN13, BARCODE_CODE128, BARCODE_UPCA, strlen, hlen]

/-! ## Validation claims -/

/-- C1: `validate_barcode_data(BARCODE_EAN13, s)` is true exactly when `s` has 13
characters, all of them ASCII digits, and the weighted check digit formula over the
first twelve digits gives the thirteenth; every string of another length, such as
"123", is rejected. -/
theorem ean13_validate_iff :
    (∀ s : CString, validate_barcode_data BARCODE_EAN13 (some s) = true ↔
      (s.length = 13 ∧ (∀ c ∈ s, 48 ≤ c.val ∧ c.val ≤ 57) ∧
        (10 - (∑ i in Finset.range 12, ean13_weight i * digit_value s i) % 10) % 10
          = digit_value s 12)) ∧
    (∀ s : CString, s.length ≠ 13 → validate_barcode_data BARCODE_EAN13 (some s) = false) ∧
    validate_barcode_data BARCODE_EAN13 (some (cstr "123")) = false := by
  refine ⟨validate_ean13_spec, ?_, by decide⟩
  intro s hlen
  simp [validate_barcode_data, BARCODE_EAN13, BARCODE_CODE128, strlen, hlen]

/-- The string "123" has length 3, not 13, and C1 rejects it. -/
theorem ean13_validate_iff_witness :
    (cstr "123").length ≠ 13 ∧
      validate_barcode_data BARCODE_EAN13 (some (cstr "123")) = false :=
  ⟨by decide, ean13_validate_iff.2.1 (cstr "123") (by decide)⟩

/-- C2: `validate_barcode_data(BARCODE_UPCA, s)` is true exactly when `s` has 12
characters, all of them ASCII digits, and the check digit formula over the first
eleven digits (weight 3 at even index, 1 at odd index) gives the twelfth. -/
theorem upca_validate_iff (s : CString) :
    validate_barcode_data BARCODE_UPCA (some s) = true ↔
      (s.length = 12 ∧ (∀ c ∈ s, 48 ≤ c.val ∧ c.val ≤ 57) ∧
        (10 - (∑ i in Finset.range 11, upca_weight i * digit_value s i) % 10) % 10
          = digit_value s 11) :=
  validate_upca_spec s

/-- C5: the published test numbers validate: EAN-13 "4006381333931" with computed
check digit 1 and UPC-A "036000291452" with computed check digit 2. -/
theorem published_numbers_validate :
    validate_barcode_data BARCODE_EAN13 (some (cstr "4006381333931")) = true ∧
    (10 - (∑ i in Finset.range 12,
        ean13_weight i * digit_value (cstr "4006381333931") i) % 10) % 10 = 1 ∧
    validate_barcode_data BARCODE_UPCA (some (cstr "036000291452")) = true ∧
    (10 - (∑ i in Finset.range 11,
        upca_weight i * digit_value (cstr "036000291452") i) % 10) % 10 = 2 := by
  refine ⟨by decide, by decide, by decide, by decide⟩


/-! ## Check digits -/

theorem byte_at_append_left (p : CString) (c : Fin 256) (i : Nat) (h : i < p.length) :
    byte_at (p ++ [c]) i = byte_at p i := by
  simp [byte_at, List.getD_eq_getElem?_getD, List.getElem?_append_left h]

theorem byte_at_append_last (p : CString) (c : Fin 256) :
    byte_at (p ++ [c]) p.length = c.val := by
  simp [byte_at, List.getD_eq_getElem?_getD]

theorem byte_at_cons_succ (b : Fin 256) (u : CString) (i : Nat) :
    byte_at (b :: u) (i + 1) = byte_at u i := by
  simp [byte_at, List.getD_eq_getElem?_getD]

/-- The UPC-A weighted sum over the first eleven digits does not depend on the twelfth. -/
theorem upca_sum_append (p : CString) (c : Fin 256) (h : p.length = 11) :
    (∑ i in Finset.range 11, upca_weight i * digit_value (p ++ [c]) i)
      = ∑ i in Finset.range 11, upca_weight i * digit_value p i := by
  apply Finset.sum_congr rfl
  intro i hi
  have hi' : i < p.length := by have := Finset.mem_range.1 hi; omega
  simp [digit_value, byte_at_append_left p c i hi']

/-- For an 11-digit prefix, the digits that complete it to an accepted UPC-A string. -/
theorem upca_accepts_append (p : CString) (c : Fin 256) (hlen : p.length = 11)
    (hp : ∀ b ∈ p, 48 ≤ b.val ∧ b.val ≤ 57) :
    validate_barcode_data BARCODE_UPCA (some (p ++ [c])) = true ↔
      c.val = 48 + (10 - (∑ i in Finset.range 11, upca_weight i * digit_value p i) % 10) % 10 := by
  rw [validate_upca_spec, upca_sum_append p c hlen]
  have h11 : digit_value (p ++ [c]) 11 = c.val - 48 := by
    unfold digit_value; rw [← hlen, byte_at_append_last]
  rw [h11]
  constructor
  · rintro ⟨_, hd, hc⟩
    have := hd c (by simp)
    omega
  · intro hc
    refine ⟨by simp [hlen], ?_, by omega⟩
    intro b hb
    rcases List.mem_append.1 hb with hb | hb
    · exact hp b hb
    · have : b = c := by simpa using hb
      subst this
      omega

/-- C6: a wrong UPC-A check digit is always rejected: every 11-digit prefix has exactly
one digit completing it to an accepted string, so replacing the last digit of an
accepted string by any other digit gives a rejected string; "036000291452" is accepted
and "036000291450" is rejected. -/
theorem upca_check_digit_unique :
    (∀ p : CString, p.length = 11 → (∀ b ∈ p, 48 ≤ b.val ∧ b.val ≤ 57) →
      ∃! c : Fin 256, (48 ≤ c.val ∧ c.val ≤ 57) ∧
        validate_barcode_data BARCODE_UPCA (some (p ++ [c])) = true) ∧
    (∀ s : CString, validate_barcode_data BARCODE_UPCA (some s) = true →
      ∀ c : Fin 256, (48 ≤ c.val ∧ c.val ≤ 57) → s.getLast? ≠ some c →
        validate_barcode_data BARCODE_UPCA (some (s.dropLast ++ [c])) = false) ∧
    validate_barcode_data BARCODE_UPCA (some (cstr "036000291452")) = true ∧
    validate_barcode_data BARCODE_UPCA (some (cstr "036000291450")) = false := by
  refine ⟨?_, ?_, by decide, by decide⟩
  · intro p hlen hp
    have hlt : 48 + (10 - (∑ i in Finset.range 11, upca_weight i * digit_value p i) % 10) % 10
        < 256 := by omega
    refine ⟨⟨_, hlt⟩, ⟨⟨by simp, by simp; omega⟩, (upca_accepts_append p _ hlen hp).2 rfl⟩, ?_⟩
    rintro c ⟨_, hc⟩
    exact Fin.ext ((upca_accepts_append p c hlen hp).1 hc)
  · intro s hs c _ hne
    obtain ⟨hlen, hd, _⟩ := (validate_upca_spec s).1 hs
    have hnil : s ≠ [] := by intro h; simp [h] at hlen
    have hsplit : s.dropLast ++ [s.getLast hnil] = s := List.dropLast_append_getLast hnil
    have hplen : s.dropLast.length = 11 := by simp [hlen]
    have hp : ∀ b ∈ s.dropLast, 48 ≤ b.val ∧ b.val ≤ 57 :=
      fun b hb => hd b (List.mem_of_mem_dropLast hb)
    have hlast := (upca_accepts_append s.dropLast (s.getLast hnil) hplen hp).1
      (by rw [hsplit]; exact hs)
    rw [← Bool.not_eq_true]
    intro hc
    have hc' := (upca_accepts_append s.dropLast c hplen hp).1 hc
    apply hne
    rw [List.getLast?_eq_getLast _ hnil]
    exact congrArg some (Fin.ext (by omega))

/-- The accepted string "036000291452": its last digit 2 replaced by 0 is rejected. -/
theorem upca_check_digit_unique_witness :
    validate_barcode_data BARCODE_UPCA (some (cstr "036000291452")) = true ∧
    validate_barcode_data BARCODE_UPCA
      (some ((cstr "036000291452").dropLast ++ [(48 : Fin 256)])) = false :=
  ⟨by decide, upca_check_digit_unique.2.1 (cstr "036000291452") (by decide) 48
    (by decide) (by decide)⟩

/-- The EAN-13 weighted sum of a zero-prefixed string is the UPC-A weighted sum. -/
theorem ean13_sum_zero_cons (u : CString) :
    (∑ i in Finset.range 12, ean13_weight i * digit_value ((48 : Fin 256) :: u) i)
      = ∑ i in Finset.range 11, upca_weight i * digit_value u i := by
  rw [Finset.sum_range_succ']
  have h0 : digit_value ((48 : Fin 256) :: u) 0 = 0 := rfl
  rw [h0, Nat.mul_zero, Nat.add_zero]
  apply Finset.sum_congr rfl
  intro i _
  have hw : ean13_weight (i + 1) = upca_weight i := by
    unfold ean13_weight upca_weight
    split_ifs <;> omega
  rw [hw]
  simp [digit_value, byte_at_cons_succ]

/-- Validation of a UPC-A string and of its zero-prefixed EAN-13 form agree. -/
theorem validate_upca_eq_ean13 (u : CString) :
    validate_barcode_data BARCODE_UPCA (some u)
      = validate_barcode_data BARCODE_EAN13 (some ((48 : Fin 256) :: u)) := by
  rw [Bool.eq_iff_iff, validate_upca_spec, validate_ean13_spec, ean13_sum_zero_cons]
  have h12 : digit_value ((48 : Fin 256) :: u) 12 = digit_value u 11 := by
    simp [digit_value, byte_at_cons_succ]
  rw [h12]
  constructor
  · rintro ⟨hl, hd, hc⟩
    refine ⟨by simp [hl], ?_, hc⟩
    intro c hc'
    rcases List.mem_cons.1 hc' with h | h
    · subst h; decide
    · exact hd c h
  · rintro ⟨hl, hd, hc⟩
    refine ⟨by simpa using hl, fun c hc' => hd c (List.mem_cons_of_mem _ hc'), hc⟩

/-- C7: UPC-A validation of `u` agrees with EAN-13 validation of "0" followed by `u`. -/
theorem upca_validate_eq_ean13_leading_zero (u : CString) :
    validate_barcode_data BARCODE_UPCA (some u)
      = validate_barcode_data BARCODE_EAN13 (some (cstr "0" ++ u)) :=
  validate_upca_eq_ean13 u


/-! ## Code128 encoder -/

theorem store_length (codes : List Int) (v : Int) : store codes codes.length v = codes ++ [v] := by
  simp [store]

/-- The byte loop of `code128_encode_string` extends the array by one data symbol per
byte and counts it. -/
theorem encode_loop_eq (text : CString) (n : Nat) (codes : List Int) :
    (List.range n).foldl
      (fun (st : List Int × Nat) i =>
        let c := byte_at text i
        if c ≥ 32 ∧ c ≤ 126 then (store st.1 st.2 ((c : Int) - 32), st.2 + 1)
        else (store st.1 st.2 0, st.2 + 1)) (codes, codes.length)
      = (codes ++ (List.range n).map (fun i =>
          if byte_at text i ≥ 32 ∧ byte_at text i ≤ 126 then (byte_at text i : Int) - 32 else 0),
        codes.length + n) := by
  induction n with
  | zero => simp
  | succ n ih =>
    rw [List.range_succ, List.foldl_append, ih]
    simp only [List.foldl_cons, List.foldl_nil, List.map_append, List.map_cons, List.map_nil]
    have hl : codes.length + n = (codes ++ (List.range n).map (fun i =>
          if byte_at text i ≥ 32 ∧ byte_at text i ≤ 126 then (byte_at text i : Int) - 32 else 0)).length := by
      simp
    split_ifs with h
    · rw [hl, store_length]; simp [Nat.add_assoc]
    · rw [hl, store_length]; simp [Nat.add_assoc]

theorem map_range_byte_at (text : CString) (g : Nat → Int) :
    (List.range text.length).map (fun i => g (byte_at text i)) = text.map (fun b => g b.val) := by
  apply List.ext_getElem
  · simp
  · intro i h1 h2
    simp only [List.length_map, List.length_range] at h1
    simp [byte_at, List.getD_eq_getElem?_getD, List.getElem?_eq_getElem h1]


/-- An `int` result within range is held as it is. -/
theorem wrap_int_of_range (x : Int) (h0 : -2147483648 ≤ x) (h1 : x ≤ INT_MAX) :
    wrap_int x = x := by
  unfold wrap_int
  unfold INT_MAX at h1
  omega

theorem tmod_103_range (a : Int) (h : 0 ≤ a) : 0 ≤ a.tmod 103 ∧ a.tmod 103 ≤ 102 := by
  have := Int.tmod_lt_of_pos a (show (0 : Int) < 103 by decide)
  have := Int.tmod_nonneg 103 h
  omega

theorem code_at_nonneg (codes : List Int) (hnn : ∀ c ∈ codes, 0 ≤ c) (i : Nat) :
    0 ≤ code_at codes i := by
  unfold code_at
  rw [List.getD_eq_getElem?_getD]
  by_cases h : i < codes.length
  · rw [List.getElem?_eq_getElem h]
    exact hnn _ (List.getElem_mem h)
  · rw [List.getElem?_eq_none (by omega)]
    exact Int.le_refl 0

theorem weighted_sum_nonneg (codes : List Int) (hnn : ∀ c ∈ codes, 0 ≤ c) (a b : Nat) :
    0 ≤ ∑ i in Finset.Ico a b, (i : Int) * code_at codes i :=
  Finset.sum_nonneg (fun i _ => mul_nonneg (Int.ofNat_nonneg i) (code_at_nonneg codes hnn i))

/-- While the weighted sum of non-negative codes does not exceed `INT_MAX`, the 32-bit
accumulator of `code128_checksum` holds it exactly. -/
theorem checksum_fold_exact (codes : List Int) (hnn : ∀ c ∈ codes, 0 ≤ c) (n : Nat)
    (hfit : code_at codes 0 + ∑ i in Finset.Ico 1 (n + 1), (i : Int) * code_at codes i
      ≤ INT_MAX) :
    (List.range' 1 n).foldl
        (fun (sum : Int) (i : Nat) => wrap_int (sum + wrap_int ((i : Int) * code_at codes i)))
        (code_at codes 0)
      = code_at codes 0 + ∑ i in Finset.Ico 1 (n + 1), (i : Int) * code_at codes i := by
  induction n with
  | zero => simp
  | succ n ih =>
    rw [Finset.sum_Ico_succ_top (show 1 ≤ n + 1 by omega)] at hfit ⊢
    have h0 := code_at_nonneg codes hnn 0
    have hs := weighted_sum_nonneg codes hnn 1 (n + 1)
    have ht : 0 ≤ ((n + 1 : Nat) : Int) * code_at codes (n + 1) :=
      mul_nonneg (Int.ofNat_nonneg _) (code_at_nonneg codes hnn (n + 1))
    rw [List.range'_1_concat, List.foldl_append, ih (by omega)]
    simp only [List.foldl_cons, List.foldl_nil]
    rw [Nat.add_comm 1 n]
    rw [wrap_int_of_range (((n + 1 : Nat) : Int) * code_at codes (n + 1)) (by omega) (by omega)]
    rw [wrap_int_of_range _ (by omega) (by omega)]
    ring

/-- Twice the weighted sum of codes that are at most `c` from position 1 on is at most
`c * n * (n + 1)`. -/
theorem weighted_sum_le (codes : List Int) (c : Int)
    (hc : ∀ i, 1 ≤ i → code_at codes i ≤ c) (n : Nat) :
    2 * ∑ i in Finset.Ico 1 (n + 1), (i : Int) * code_at codes i
      ≤ c * (n : Int) * ((n : Int) + 1) := by
  induction n with
  | zero => simp
  | succ n ih =>
    rw [Finset.sum_Ico_succ_top (show 1 ≤ n + 1 by omega)]
    have h1 : ((n + 1 : Nat) : Int) * code_at codes (n + 1) ≤ ((n + 1 : Nat) : Int) * c :=
      mul_le_mul_of_nonneg_left (hc (n + 1) (by omega)) (Int.ofNat_nonneg _)
    push_cast at h1 ⊢
    nlinarith

/-- The checksum of non-negative codes whose weighted sum fits an `int` is that sum
modulo 103. -/
theorem code128_checksum_exact (codes : List Int) (hnn : ∀ c ∈ codes, 0 ≤ c) (n : Nat)
    (hfit : code_at codes 0 + ∑ i in Finset.Ico 1 (n + 1), (i : Int) * code_at codes i
      ≤ INT_MAX) :
    code128_checksum codes (n + 1)
      = (code_at codes 0 + ∑ i in Finset.Ico 1 (n + 1), (i : Int) * code_at codes i) % 103 ∧
    0 ≤ code128_checksum codes (n + 1) ∧ code128_checksum codes (n + 1) ≤ 102 := by
  have hsum : 0 ≤ code_at codes 0
      + ∑ i in Finset.Ico 1 (n + 1), (i : Int) * code_at codes i := by
    have h0 := code_at_nonneg codes hnn 0
    have hs := weighted_sum_nonneg codes hnn 1 (n + 1)
    omega
  have heq : code128_checksum codes (n + 1)
      = Int.tmod (code_at codes 0
          + ∑ i in Finset.Ico 1 (n + 1), (i : Int) * code_at codes i) 103 := by
    unfold code128_checksum
    rw [Nat.add_sub_cancel, checksum_fold_exact codes hnn n hfit]
  rw [heq]
  exact ⟨Int.tmod_eq_emod hsum (by decide), tmod_103_range _ hsum⟩

theorem code_at_cons_succ (a : Int) (l : List Int) (i : Nat) :
    code_at (a :: l) (i + 1) = code_at l i := by
  simp [code_at, List.getD_eq_getElem?_getD]

/-- The checksum of start B followed by at most 6759 data symbols lies in `[0, 102]`:
the weighted sum is at most `104 + 47 * 6759 * 6760 = 2147469584`, below `INT_MAX`. -/
theorem encoded_checksum_range (syms : List Int) (hs : ∀ c ∈ syms, 0 ≤ c ∧ c ≤ 94)
    (hn : syms.length ≤ 6759) :
    0 ≤ code128_checksum ([104] ++ syms) (syms.length + 1) ∧
    code128_checksum ([104] ++ syms) (syms.length + 1) ≤ 102 := by
  have hnn : ∀ c ∈ [104] ++ syms, 0 ≤ c := by
    intro c hc
    rcases List.mem_append.1 hc with h | h
    · have : c = 104 := by simpa using h
      omega
    · exact (hs c h).1
  have hle : ∀ i, 1 ≤ i → code_at ([104] ++ syms) i ≤ 94 := by
    intro i hi
    obtain ⟨j, rfl⟩ : ∃ j, i = j + 1 := ⟨i - 1, by omega⟩
    rw [List.singleton_append, code_at_cons_succ]
    unfold code_at
    rw [List.getD_eq_getElem?_getD]
    by_cases h : j < syms.length
    · rw [List.getElem?_eq_getElem h]
      exact (hs _ (List.getElem_mem h)).2
    · rw [List.getElem?_eq_none (by omega)]
      decide
  have hw := weighted_sum_le ([104] ++ syms) 94 hle syms.length
  have h0 : code_at ([104] ++ syms) 0 = 104 := rfl
  have hn' : (syms.length : Int) ≤ 6759 := by exact_mod_cast hn
  have hn0 : (0 : Int) ≤ (syms.length : Int) := Int.ofNat_nonneg _
  have hfit : code_at ([104] ++ syms) 0
      + ∑ i in Finset.Ico 1 (syms.length + 1), (i : Int) * code_at ([104] ++ syms) i
      ≤ INT_MAX := by
    rw [h0]
    unfold INT_MAX
    nlinarith
  exact (code128_checksum_exact _ hnn syms.length hfit).2

theorem store_at_length (codes : List Int) (i : Nat) (v : Int) (h : i = codes.length) :
    store codes i v = codes ++ [v] := by
  subst h; exact store_length codes v

/-- What `code128_encode_string` returns for a non-empty text: start B, one data
symbol per byte, the checksum of what precedes it, stop. -/
theorem code128_encode_string_eq (text : CString) (hne : text ≠ []) :
    code128_encode_string (some text)
      = (text.length + 3,
          [104] ++ text.map (fun b =>
              if b.val ≥ 32 ∧ b.val ≤ 126 then (b.val : Int) - 32 else 0)
            ++ [code128_checksum ([104] ++ text.map (fun b =>
              if b.val ≥ 32 ∧ b.val ≤ 126 then (b.val : Int) - 32 else 0)) (text.length + 1),
              106]) := by
  have hlen : text.length ≠ 0 := by simpa using hne
  have hloop := encode_loop_eq text text.length [CODE128_START_B]
  rw [map_range_byte_at text (fun c => if c ≥ 32 ∧ c ≤ 126 then (c : Int) - 32 else 0)] at hloop
  unfold code128_encode_string
  simp only [strlen, hlen, if_false]
  have hs0 : store [] 0 CODE128_START_B = [CODE128_START_B] := rfl
  rw [hs0]
  simp only [List.length_singleton] at hloop
  rw [hloop]
  simp only []
  rw [store_at_length _ (1 + text.length) _ (by simp; omega)]
  rw [store_at_length _ (1 + text.length + 1) _ (by simp; omega)]
  simp [CODE128_START_B, CODE128_STOP, Nat.add_comm, Nat.add_left_comm]
  omega

/-- The entries of the array start B, then `n` times the symbol `c`. -/
theorem code_at_start_replicate (n : Nat) (c : Int) (i : Nat) (h1 : 1 ≤ i) (hi : i ≤ n) :
    code_at ([104] ++ List.replicate n c) i = c := by
  obtain ⟨j, rfl⟩ : ∃ j, i = j + 1 := ⟨i - 1, by omega⟩
  rw [List.singleton_append, code_at_cons_succ]
  unfold code_at
  rw [List.getD_eq_getElem?_getD, List.getElem?_replicate, if_pos (by omega)]
  rfl

/-- Twice the weighted sum of `n` equal symbols `c` is `c * n * (n + 1)`. -/
theorem weighted_sum_const (codes : List Int) (c : Int) (n : Nat)
    (hc : ∀ i, 1 ≤ i → i ≤ n → code_at codes i = c) :
    2 * ∑ i in Finset.Ico 1 (n + 1), (i : Int) * code_at codes i
      = c * (n : Int) * ((n : Int) + 1) := by
  induction n with
  | zero => simp
  | succ n ih =>
    rw [Finset.sum_Ico_succ_top (show 1 ≤ n + 1 by omega), mul_add,
      ih (fun i h1 hi => hc i h1 (by omega)), hc (n + 1) (by omega) (le_refl _)]
    push_cast
    ring

/-- The checksum of start B followed by 6760 symbols 94: the accumulator holds
`104 + 94 * (1 + ... + 6759) = 2147469584` before the last step, and adding
`6760 * 94 = 635440` passes `INT_MAX`. -/
theorem checksum_overflow_6760 :
    code128_checksum ([104] ++ List.replicate 6760 94) (6760 + 1) = -3 := by
  have hnn : ∀ c ∈ [104] ++ List.replicate 6760 (94 : Int), 0 ≤ c := by
    intro c hc
    rcases List.mem_append.1 hc with h | h
    · have : c = 104 := by simpa using h
      omega
    · have : c = 94 := (List.mem_replicate.1 h).2
      omega
  have h0 : code_at ([104] ++ List.replicate 6760 (94 : Int)) 0 = 104 := rfl
  have hsum := weighted_sum_const ([104] ++ List.replicate 6760 (94 : Int)) 94 6759
    (fun i h1 hi => code_at_start_replicate 6760 94 i h1 (by omega))
  have hlast := code_at_start_replicate 6760 94 6760 (by omega) (le_refl _)
  generalize [104] ++ List.replicate 6760 (94 : Int) = codes at hnn h0 hsum hlast ⊢
  have hS : code_at codes 0
      + ∑ i in Finset.Ico (1 : Nat) (6759 + 1), (i : Int) * code_at codes i
      = 2147469584 := by
    rw [h0]
    push_cast at hsum
    linarith
  have hfold := checksum_fold_exact codes hnn 6759 (by rw [hS]; decide)
  unfold code128_checksum
  rw [Nat.add_sub_cancel, show (6760 : Nat) = 6759 + 1 from rfl, List.range'_1_concat,
    List.foldl_append, hfold, hS]
  simp only [List.foldl_cons, List.foldl_nil]
  rw [show 1 + 6759 = 6759 + 1 from rfl, hlast]
  decide

/-- The entry after the data symbols is the checksum of start B and the data symbols. -/
theorem code128_encode_checksum_entry (text : CString) (hne : text ≠ []) :
    code_at (code128_encode_string (some text)).2 (text.length + 1)
      = code128_checksum ([104] ++ text.map (fun b =>
          if b.val ≥ 32 ∧ b.val ≤ 126 then (b.val : Int) - 32 else 0)) (text.length + 1) := by
  rw [code128_encode_string_eq text hne]
  simp only [code_at]
  rw [List.getD_eq_getElem?_getD, List.getElem?_append_right (by simp)]
  simp only [List.length_append, List.length_singleton, List.length_map]
  rw [show text.length + 1 - (1 + text.length) = 0 by omega]
  rfl

/-- C3, as the code has it: for a non-empty text of `n` bytes, all in `[32, 126]`,
`code128_encode_string` returns `n + 3` and writes start B (104), each byte minus 32, the
checksum `cs` of these `n + 1` entries, and stop (106); `cs` lies in `[0, 102]` when
`n <= 6759`. -/
theorem code128_encode_printable (text : CString) (hne : text ≠ [])
    (hb : ∀ b ∈ text, 32 ≤ b.val ∧ b.val ≤ 126) :
    code128_encode_string (some text)
      = (text.length + 3,
          [104] ++ text.map (fun b => (b.val : Int) - 32)
            ++ [code128_checksum ([104] ++ text.map (fun b => (b.val : Int) - 32))
                  (text.length + 1), 106]) ∧
    (text.length ≤ 6759 →
      0 ≤ code128_checksum ([104] ++ text.map (fun b => (b.val : Int) - 32)) (text.length + 1) ∧
      code128_checksum ([104] ++ text.map (fun b => (b.val : Int) - 32)) (text.length + 1)
        ≤ 102) := by
  have hmap : text.map (fun b => if b.val ≥ 32 ∧ b.val ≤ 126 then (b.val : Int) - 32 else 0)
      = text.map (fun b => (b.val : Int) - 32) := by
    apply List.map_congr_left
    intro b hb'
    have := hb b hb'
    simp [this.1, this.2]
  have hrange : ∀ c ∈ text.map (fun b => (b.val : Int) - 32), 0 ≤ c ∧ c ≤ 94 := by
    intro c hc
    obtain ⟨b, hb', rfl⟩ := List.mem_map.1 hc
    have := hb b hb'
    omega
  refine ⟨?_, ?_⟩
  · rw [code128_encode_string_eq text hne, hmap]
  · intro hlen
    have h := encoded_checksum_range (text.map (fun b => (b.val : Int) - 32)) hrange
      (by rw [List.length_map]; exact hlen)
    rw [List.length_map] at h
    exact h

/-- The text "AB12" is non-empty, printable and of 4 bytes: C3 gives its seven symbols,
with the checksum in `[0, 102]`. -/
theorem code128_encode_printable_witness :
    code128_encode_string (some (cstr "AB12"))
      = (4 + 3,
          [104] ++ (cstr "AB12").map (fun b => (b.val : Int) - 32)
            ++ [code128_checksum ([104] ++ (cstr "AB12").map (fun b => (b.val : Int) - 32))
                  (4 + 1), 106]) ∧
    0 ≤ code128_checksum ([104] ++ (cstr "AB12").map (fun b => (b.val : Int) - 32)) (4 + 1) :=
  ⟨(code128_encode_printable (cstr "AB12") (by decide) (by simp [cstr]; decide)).1,
    ((code128_encode_printable (cstr "AB12") (by decide) (by simp [cstr]; decide)).2
      (by decide)).1⟩

/-- C3, as stated, fails: the text of 6760 bytes '~' is non-empty with every byte in
`[32, 126]`, yet the weighted sum `104 + 94 * (1 + ... + 6760) = 2148105024` exceeds
`INT_MAX`, the 32-bit accumulator wraps around, and the checksum symbol that
`code128_encode_string` writes at index 6761 is -3. -/
theorem code128_encode_checksum_overflow :
    List.replicate 6760 (126 : Fin 256) ≠ [] ∧
    (∀ b ∈ List.replicate 6760 (126 : Fin 256), 32 ≤ b.val ∧ b.val ≤ 126) ∧
    code128_checksum
        ([104] ++ (List.replicate 6760 (126 : Fin 256)).map (fun b => (b.val : Int) - 32))
        ((List.replicate 6760 (126 : Fin 256)).length + 1) = -3 ∧
    code_at (code128_encode_string (some (List.replicate 6760 (126 : Fin 256)))).2 6761
      = -3 := by
  have hne : List.replicate 6760 (126 : Fin 256) ≠ [] :=
    List.ne_nil_of_length_pos (by rw [List.length_replicate]; decide)
  have hb : ∀ b ∈ List.replicate 6760 (126 : Fin 256), 32 ≤ b.val ∧ b.val ≤ 126 := by
    intro b hb
    rw [(List.mem_replicate.1 hb).2]
    decide
  have h94 : (List.replicate 6760 (126 : Fin 256)).map (fun b => (b.val : Int) - 32)
      = List.replicate 6760 94 := by
    rw [List.map_replicate]
    rfl
  have h94i : (List.replicate 6760 (126 : Fin 256)).map
      (fun b => if b.val ≥ 32 ∧ b.val ≤ 126 then (b.val : Int) - 32 else 0)
      = List.replicate 6760 94 := by
    rw [List.map_replicate]
    rfl
  have hentry := code128_encode_checksum_entry _ hne
  rw [h94i, List.length_replicate] at hentry
  refine ⟨hne, hb, ?_, ?_⟩
  · rw [h94, List.length_replicate]
    exact checksum_overflow_6760
  · rw [show (6761 : Nat) = 6760 + 1 from rfl, hentry]
    exact checksum_overflow_6760

/-- C4: encoding the Code128 text "AB12" gives the seven symbols
104, 33, 34, 17, 18, 19, 106, with checksum 19. -/
theorem code128_encode_AB12 :
    code128_encode_string (some (cstr "AB12")) = (7, [104, 33, 34, 17, 18, 19, 106]) ∧
    code128_checksum [104, 33, 34, 17, 18] 5 = 19 := by
  constructor <;> decide

/-! ## Drawing -/

theorem rectangles_append (a b : List PageOp) :
    rectangles (a ++ b) = rectangles a ++ rectangles b := by
  induction a with
  | nil => rfl
  | cons op a ih => cases op <;> simp [rectangles, ih]

/-- A glyph loop appends to the operations issued so far and advances the cursor by a
fixed amount per glyph. -/
theorem fold_glyphs (g : ℚ → Nat → List PageOp) (d : ℚ) (l : List Nat) (ops : List PageOp)
    (cx : ℚ) :
    l.foldl (fun (st : List PageOp × ℚ) i => (st.1 ++ g st.2 i, st.2 + d)) (ops, cx)
      = (ops ++ (l.foldl (fun (st : List PageOp × ℚ) i => (st.1 ++ g st.2 i, st.2 + d))
          ([], cx)).1, cx + (l.length : ℚ) * d) := by
  induction l generalizing ops cx with
  | nil => simp
  | cons a l ih =>
    simp only [List.foldl_cons, List.nil_append, List.length_cons]
    rw [ih (ops ++ g cx a) (cx + d), ih (g cx a) (cx + d)]
    simp only [List.append_assoc, Prod.mk.injEq, true_and]
    push_cast
    ring

/-- The operations `draw_ean13` issues for an accepted text: left guard, six left
glyphs, center guard, six right glyphs, right guard, at the cursor positions the
function computes. -/
theorem draw_ean13_valid (x y width height : ℚ) (data : CString)
    (hv : validate_barcode_data BARCODE_EAN13 (some data) = true) :
    draw_ean13 x y width height (some data)
      = [PageOp.Rectangle x y (width / 95) height, PageOp.Fill,
          PageOp.Rectangle (x + width / 95) y (width / 95) height, PageOp.Fill]
        ++ ((List.range' 1 6).foldl
            (fun (st : List PageOp × ℚ) i =>
              (st.1 ++ draw_runs
                (if char_at (table_at ean_first_digit_patterns (char_at data 0 - 48)) (i - 1) = 65
                  then left_pattern_at (char_at data i - 48) 0
                  else left_pattern_at (char_at data i - 48) 1)
                7 st.2 y (width / 95) height 7 0,
              st.2 + 7 * (width / 95))) ([], x + 3 * (width / 95))).1
        ++ [PageOp.Rectangle (x + 46 * (width / 95)) y (width / 95) height, PageOp.Fill,
          PageOp.Rectangle (x + 48 * (width / 95)) y (width / 95) height, PageOp.Fill]
        ++ ((List.range' 7 6).foldl
            (fun (st : List PageOp × ℚ) i =>
              (st.1 ++ draw_runs (table_at ean_right_patterns (char_at data i - 48))
                7 st.2 y (width / 95) height 7 0,
              st.2 + 7 * (width / 95))) ([], x + 50 * (width / 95))).1
        ++ [PageOp.Rectangle (x + 93 * (width / 95)) y (width / 95) height, PageOp.Fill,
          PageOp.Rectangle (x + 95 * (width / 95)) y (width / 95) height, PageOp.Fill] := by
  unfold draw_ean13
  simp only [hv, Bool.not_true, Bool.false_eq_true, if_false]
  rw [fold_glyphs (fun cx i => draw_runs
        (if char_at (table_at ean_first_digit_patterns (char_at data 0 - 48)) (i - 1) = 65
          then left_pattern_at (char_at data i - 48) 0
          else left_pattern_at (char_at data i - 48) 1)
        7 cx y (width / 95) height 7 0) (7 * (width / 95))]
  simp only []
  rw [fold_glyphs (fun cx i => draw_runs (table_at ean_right_patterns (char_at data i - 48))
        7 cx y (width / 95) height 7 0) (7 * (width / 95))]
  simp only [List.length_range']
  generalize width / 95 = m
  have h3 : x + m + m + m = x + 3 * m := by ring
  have h46 : x + 3 * m + ((6 : ℕ) : ℚ) * (7 * m) + m = x + 46 * m := by push_cast; ring
  have h48 : x + 46 * m + m + m = x + 48 * m := by ring
  have h50 : x + 48 * m + m + m = x + 50 * m := by ring
  have h93 : x + 50 * m + ((6 : ℕ) : ℚ) * (7 * m) + m = x + 93 * m := by push_cast; ring
  have h95 : x + 93 * m + m + m = x + 95 * m := by ring
  simp only [h3, h46, h48, h50, h93, h95, List.append_assoc, List.cons_append, List.nil_append]


/-- The frame of an accepted EAN-13 drawing: the guard rectangles are fixed, only the
two glyph groups depend on the digits. -/
theorem draw_ean13_frame (x y width height : ℚ) (data : CString)
    (hv : validate_barcode_data BARCODE_EAN13 (some data) = true) :
    ∃ left right : List PageOp,
      draw_ean13 x y width height (some data)
        = [PageOp.Rectangle x y (width / 95) height, PageOp.Fill,
            PageOp.Rectangle (x + width / 95) y (width / 95) height, PageOp.Fill]
          ++ left
          ++ [PageOp.Rectangle (x + 46 * (width / 95)) y (width / 95) height, PageOp.Fill,
            PageOp.Rectangle (x + 48 * (width / 95)) y (width / 95) height, PageOp.Fill]
          ++ right
          ++ [PageOp.Rectangle (x + 93 * (width / 95)) y (width / 95) height, PageOp.Fill,
            PageOp.Rectangle (x + 95 * (width / 95)) y (width / 95) height, PageOp.Fill] :=
  ⟨_, _, draw_ean13_valid x y width height data hv⟩

theorem rectangles_guard (a b y m h : ℚ) :
    rectangles [PageOp.Rectangle a y m h, PageOp.Fill, PageOp.Rectangle b y m h, PageOp.Fill]
      = [(a, y, m, h), (b, y, m, h)] := rfl

theorem getLast?_append_pair {α : Type} (l : List α) (p q : α) :
    (l ++ [p, q]).getLast? = some q := by
  simp [List.getLast?_append]

/-! ### Loop fuel -/

theorem skip_ones_fuel_irrel (pattern : CString) (pattern_len : Nat) (f1 f2 j : Nat)
    (h1 : pattern_len - j ≤ f1) (h2 : pattern_len - j ≤ f2) :
    skip_ones pattern pattern_len f1 j = skip_ones pattern pattern_len f2 j := by
  induction f1 generalizing j f2 with
  | zero =>
    cases f2 with
    | zero => rfl
    | succ f2 =>
      have : ¬ (j < pattern_len ∧ char_at pattern j = 49) := by omega
      simp [skip_ones, this]
  | succ f1 ih =>
    cases f2 with
    | zero =>
      have : ¬ (j < pattern_len ∧ char_at pattern j = 49) := by omega
      simp [skip_ones, this]
    | succ f2 =>
      simp only [skip_ones]
      split_ifs with hc
      · exact ih f2 (j + 1) (by omega) (by omega)
      · rfl

/-- The inner loop stops after the cell it started on, whenever that cell is a bar. -/
theorem skip_ones_gt (pattern : CString) (pattern_len j : Nat) (hj : j < pattern_len)
    (hc : char_at pattern j = 49) :
    j < skip_ones pattern pattern_len (pattern_len - j) j := by
  have hmono : ∀ fuel k, k ≤ skip_ones pattern pattern_len fuel k := by
    intro fuel
    induction fuel with
    | zero => intro k; exact Nat.le_refl k
    | succ fuel ih =>
      intro k
      simp only [skip_ones]
      split_ifs
      · exact Nat.le_trans (Nat.le_succ k) (ih (k + 1))
      · exact Nat.le_refl k
  obtain ⟨f, hf⟩ : ∃ f, pattern_len - j = f + 1 := ⟨pattern_len - j - 1, by omega⟩
  rw [hf]
  simp only [skip_ones, hj, hc, and_self, if_true]
  exact hmono f (j + 1)

/-- The run-grouping loop gives the same operations for every fuel of at least
`pattern_len - j`: the fuel `pattern_len` passed by the drawing routines is enough. -/
theorem draw_runs_fuel_irrel (pattern : CString) (pattern_len : Nat)
    (current_x y module_width height : ℚ) (f1 f2 j : Nat)
    (h1 : pattern_len - j ≤ f1) (h2 : pattern_len - j ≤ f2) :
    draw_runs pattern pattern_len current_x y module_width height f1 j
      = draw_runs pattern pattern_len current_x y module_width height f2 j := by
  induction f1 generalizing j f2 with
  | zero =>
    cases f2 with
    | zero => rfl
    | succ f2 =>
      have : ¬ (j < pattern_len) := by omega
      simp [draw_runs, this]
  | succ f1 ih =>
    cases f2 with
    | zero =>
      have : ¬ (j < pattern_len) := by omega
      simp [draw_runs, this]
    | succ f2 =>
      simp only [draw_runs]
      split_ifs with hj hc
      · have := skip_ones_gt pattern pattern_len j hj hc
        rw [ih f2 _ (by omega) (by omega)]
      · exact ih f2 (j + 1) (by omega) (by omega)
      · rfl

/-! ### UPC-A delegation -/

theorem snprintf_0s_of_length (u : CString) (h : u.length = 12) :
    snprintf_0s 14 u = (48 : Fin 256) :: u := by
  unfold snprintf_0s
  apply List.take_of_length_le
  simp [h]

theorem draw_upca_eq (x y width height : ℚ) (u : CString) :
    draw_upca x y width height (some u)
      = draw_ean13 x y width height (some ((48 : Fin 256) :: u)) := by
  by_cases hv : validate_barcode_data BARCODE_UPCA (some u) = true
  · have hlen := ((validate_upca_spec u).1 hv).1
    simp only [draw_upca, hv, Bool.not_true, Bool.false_eq_true, if_false]
    rw [snprintf_0s_of_length u hlen]
  · have hv' : validate_barcode_data BARCODE_UPCA (some u) = false := by simpa using hv
    have he : validate_barcode_data BARCODE_EAN13 (some ((48 : Fin 256) :: u)) = false := by
      rw [← validate_upca_eq_ean13]; exact hv'
    simp [draw_upca, draw_ean13, hv', he]

/-- C8: for every string `u` and every box, `draw_upca(u)` emits the same rectangles, in
the same order, as `draw_ean13` of "0" followed by `u`; when `u` is an accepted UPC-A
string the list is not empty and the 14-byte buffer holds "0" followed by `u` whole. -/
theorem draw_upca_delegates :
    (∀ (u : CString) (x y width height : ℚ),
      rectangles (draw_upca x y width height (some u))
        = rectangles (draw_ean13 x y width height (some (cstr "0" ++ u)))) ∧
    (∀ (u : CString) (x y width height : ℚ),
      validate_barcode_data BARCODE_UPCA (some u) = true →
        rectangles (draw_upca x y width height (some u)) ≠ [] ∧
        snprintf_0s 14 u = cstr "0" ++ u) := by
  constructor
  · intro u x y width height
    exact congrArg rectangles (draw_upca_eq x y width height u)
  · intro u x y width height hv
    have hlen := ((validate_upca_spec u).1 hv).1
    refine ⟨?_, snprintf_0s_of_length u hlen⟩
    have he : validate_barcode_data BARCODE_EAN13 (some ((48 : Fin 256) :: u)) = true := by
      rw [← validate_upca_eq_ean13]; exact hv
    obtain ⟨left, right, hframe⟩ := draw_ean13_frame x y width height _ he
    rw [draw_upca_eq, hframe]
    simp only [rectangles_append, rectangles_guard, List.cons_append, List.append_assoc]
    exact List.cons_ne_nil _ _

/-- The accepted UPC-A string "036000291452" in the box at the origin of width 95 and
height 10: rectangles are emitted and the buffer holds "0036000291452". -/
theorem draw_upca_delegates_witness :
    rectangles (draw_upca 0 0 95 10 (some (cstr "036000291452"))) ≠ [] ∧
      snprintf_0s 14 (cstr "036000291452") = cstr "0" ++ cstr "036000291452" :=
  draw_upca_delegates.2 (cstr "036000291452") 0 0 95 10 (by decide)

/-! ### EAN-13 extent -/

/-- C9: for an accepted EAN-13 text and a box of positive width, the last rectangle
`draw_ean13` emits starts at `x + 95 * module_width` and is one module wide, so its right
edge is at `x + 96 * module_width`, beyond the right edge `x + width` of the box: the
drawn symbol spans 96 modules, not 95. -/
theorem draw_ean13_last_rectangle (x y width height : ℚ) (data : CString)
    (hv : validate_barcode_data BARCODE_EAN13 (some data) = true) (hw : 0 < width) :
    (rectangles (draw_ean13 x y width height (some data))).getLast?
      = some (x + 95 * (width / 95), y, width / 95, height) ∧
    x + 95 * (width / 95) + width / 95 = x + 96 * (width / 95) ∧
    x + width < x + 96 * (width / 95) := by
  refine ⟨?_, by ring, by linarith⟩
  obtain ⟨left, right, hframe⟩ := draw_ean13_frame x y width height data hv
  rw [hframe]
  simp only [rectangles_append, rectangles_guard]
  exact getLast?_append_pair _ _ _

/-- In the box at the origin of width 95 and height 10, "4006381333931" has its last
rectangle at x = 95 with width 1. -/
theorem draw_ean13_last_rectangle_witness :
    (rectangles (draw_ean13 0 0 95 10 (some (cstr "4006381333931")))).getLast?
      = some (95, 0, 1, 10) := by
  have h := (draw_ean13_last_rectangle 0 0 95 10 (cstr "4006381333931") (by decide)
    (by norm_num)).1
  norm_num at h
  exact h

/-! ### Degenerate boxes -/

/-- C10: when `width <= 0` or `height <= 0`, `draw_barcode` issues no page operation at
all, whatever the page, type, text and position; in particular the EAN-13 text
"4006381333931" in a box of width 0 and height 10 emits no rectangle. -/
theorem draw_barcode_degenerate :
    (∀ (page : Option HPDF_Page) (x y width height : ℚ) (type : BarcodeType)
        (data : Option CString),
      width ≤ 0 ∨ height ≤ 0 → draw_barcode page x y width height type data = some []) ∧
    (∀ page : Option HPDF_Page,
      (draw_barcode page 0 0 0 10 BARCODE_EAN13 (some (cstr "4006381333931"))).map rectangles
        = some []) := by
  have key : ∀ (page : Option HPDF_Page) (x y width height : ℚ) (type : BarcodeType)
      (data : Option CString),
      width ≤ 0 ∨ height ≤ 0 → draw_barcode page x y width height type data = some [] := by
    intro page x y width height type data h
    unfold draw_barcode
    rw [if_pos]
    rcases h with h | h
    · exact Or.inr (Or.inr (Or.inl h))
    · exact Or.inr (Or.inr (Or.inr h))
  refine ⟨key, ?_⟩
  intro page
  rw [key page 0 0 0 10 BARCODE_EAN13 _ (Or.inl (le_refl 0))]
  rfl

/-- A page and the box of width 0 and height 10 at the origin: nothing is issued. -/
theorem draw_barcode_degenerate_witness :
    draw_barcode (some ⟨0⟩) 0 0 0 10 BARCODE_EAN13 (some (cstr "4006381333931")) = some [] :=
  draw_barcode_degenerate.1 (some ⟨0⟩) 0 0 0 10 BARCODE_EAN13 (some (cstr "4006381333931"))
    (Or.inl (le_refl 0))
/-! ## The run-grouping loop -/

/-- Where the inner loop stops: it runs over bars only, stays within the pattern, and
stops at the end of the pattern or on a cell that is not a bar. -/
theorem skip_ones_spec (pattern : CString) (pattern_len : Nat) (fuel j : Nat)
    (hf : pattern_len - j ≤ fuel) (hj : j ≤ pattern_len) :
    j ≤ skip_ones pattern pattern_len fuel j ∧
    skip_ones pattern pattern_len fuel j ≤ pattern_len ∧
    (∀ i, j ≤ i → i < skip_ones pattern pattern_len fuel j → char_at pattern i = 49) ∧
    (skip_ones pattern pattern_len fuel j < pattern_len →
      char_at pattern (skip_ones pattern pattern_len fuel j) ≠ 49) := by
  induction fuel generalizing j with
  | zero =>
    have : j = pattern_len := by omega
    subst this
    simp only [skip_ones]
    exact ⟨Nat.le_refl _, Nat.le_refl _, fun i hi hlt => absurd hlt (by omega),
      fun h => absurd h (Nat.lt_irrefl _)⟩
  | succ fuel ih =>
    simp only [skip_ones]
    split_ifs with hc
    · obtain ⟨h1, h2, h3, h4⟩ := ih (j + 1) (by omega) (by omega)
      refine ⟨by omega, h2, ?_, h4⟩
      intro i hi hlt
      by_cases hij : i = j
      · subst hij; exact hc.2
      · exact h3 i (by omega) hlt
    · refine ⟨Nat.le_refl j, hj, fun i hi hlt => absurd hlt (by omega), ?_⟩
      intro hlt h49
      exact hc ⟨hlt, h49⟩

/-- The rectangles of `draw_runs` are the bars of `run_list`, placed from the cursor. -/
theorem rectangles_draw_runs (pattern : CString) (pattern_len : Nat)
    (current_x y module_width height : ℚ) (fuel j : Nat) :
    rectangles (draw_runs pattern pattern_len current_x y module_width height fuel j)
      = (run_list pattern pattern_len fuel j).map (to_rect current_x y module_width height) := by
  induction fuel generalizing j with
  | zero => rfl
  | succ fuel ih =>
    simp only [draw_runs, run_list]
    split_ifs with hj hc
    · simp only [rectangles, List.map_cons, ih, to_rect]
    · exact ih (j + 1)
    · rfl

/-- A module is under a bar of the loop exactly when its pattern cell is '1'. -/
theorem run_list_covers (pattern : CString) (pattern_len : Nat) (fuel j : Nat)
    (hf : pattern_len - j ≤ fuel) (m : Nat) :
    covers (run_list pattern pattern_len fuel j) m
      ↔ (j ≤ m ∧ m < pattern_len ∧ char_at pattern m = 49) := by
  induction fuel generalizing j with
  | zero =>
    simp only [run_list, covers, List.not_mem_nil, false_and, exists_false, false_iff]
    omega
  | succ fuel ih =>
    simp only [run_list]
    split_ifs with hj hc
    · obtain ⟨h1, h2, h3, h4⟩ :=
        skip_ones_spec pattern pattern_len (pattern_len - j) j (Nat.le_refl _) (Nat.le_of_lt hj)
      have hgt := skip_ones_gt pattern pattern_len j hj hc
      have hrec := ih (skip_ones pattern pattern_len (pattern_len - j) j) (by omega)
      simp only [covers, List.mem_cons, exists_eq_or_imp] at hrec ⊢
      rw [hrec]
      constructor
      · rintro (⟨ha, hb⟩ | ⟨ha, hb, hc'⟩)
        · exact ⟨ha, by omega, h3 m ha (by omega)⟩
        · exact ⟨by omega, hb, hc'⟩
      · rintro ⟨ha, hb, hc'⟩
        by_cases hm : m < skip_ones pattern pattern_len (pattern_len - j) j
        · exact Or.inl ⟨ha, by omega⟩
        · exact Or.inr ⟨by omega, hb, hc'⟩
    · rw [ih (j + 1) (by omega)]
      constructor
      · rintro ⟨ha, hb, hc'⟩
        exact ⟨by omega, hb, hc'⟩
      · rintro ⟨ha, hb, hc'⟩
        refine ⟨?_, hb, hc'⟩
        by_contra hne
        have : m = j := by omega
        subst this
        exact hc hc'
    · simp only [covers, List.not_mem_nil, false_and, exists_false, false_iff]
      omega

/-- Every bar of the loop starts at or after `j`, is at least one module wide and ends
within the pattern. -/
theorem run_list_bounds (pattern : CString) (pattern_len : Nat) (fuel j : Nat) :
    ∀ r ∈ run_list pattern pattern_len fuel j,
      j ≤ r.1 ∧ 0 < r.2 ∧ r.1 + r.2 ≤ pattern_len := by
  induction fuel generalizing j with
  | zero => intro r hr; simp [run_list] at hr
  | succ fuel ih =>
    intro r hr
    simp only [run_list] at hr
    split_ifs at hr with hj hc
    · obtain ⟨h1, h2, h3, h4⟩ :=
        skip_ones_spec pattern pattern_len (pattern_len - j) j (Nat.le_refl _) (Nat.le_of_lt hj)
      have hgt := skip_ones_gt pattern pattern_len j hj hc
      rcases List.mem_cons.1 hr with h | h
      · subst h
        exact ⟨Nat.le_refl _, by simp only; omega, by simp only; omega⟩
      · have := ih _ r h
        omega
    · have := ih _ r hr
      omega
    · simp at hr

/-- The bars of the loop, started on a cell that does not continue a run, are exactly
the maximal runs of '1' that start at or after that cell. -/
theorem run_list_mem (pattern : CString) (pattern_len : Nat) (fuel j : Nat)
    (hf : pattern_len - j ≤ fuel)
    (hinv : pattern_len ≤ j ∨ char_at pattern j ≠ 49 ∨ j = 0 ∨ char_at pattern (j - 1) ≠ 49)
    (s n : Nat) :
    (s, n) ∈ run_list pattern pattern_len fuel j
      ↔ (j ≤ s ∧ is_maximal_run pattern pattern_len s n) := by
  induction fuel generalizing j with
  | zero =>
    simp only [run_list, List.not_mem_nil, false_iff, is_maximal_run]
    rintro ⟨h1, h2, h3, _⟩
    omega
  | succ fuel ih =>
    simp only [run_list]
    split_ifs with hj hc
    · obtain ⟨h1, h2, h3, h4⟩ :=
        skip_ones_spec pattern pattern_len (pattern_len - j) j (Nat.le_refl _) (Nat.le_of_lt hj)
      have hgt := skip_ones_gt pattern pattern_len j hj hc
      have hstart : j = 0 ∨ char_at pattern (j - 1) ≠ 49 := by
        rcases hinv with h | h | h | h
        · omega
        · exact absurd hc h
        · exact Or.inl h
        · exact Or.inr h
      generalize he : skip_ones pattern pattern_len (pattern_len - j) j = e at h1 h2 h3 h4 hgt
      have hend : e = pattern_len ∨ char_at pattern e ≠ 49 := by
        by_cases hlt : e < pattern_len
        · exact Or.inr (h4 hlt)
        · exact Or.inl (by omega)
      have hrec := ih e (by omega)
        (by rcases hend with h | h
            · exact Or.inl (by omega)
            · exact Or.inr (Or.inl h))
      rw [List.mem_cons, hrec]
      constructor
      · rintro (h | ⟨ha, hb⟩)
        · obtain ⟨rfl, rfl⟩ := Prod.mk.inj h
          refine ⟨Nat.le_refl _, by omega, by omega, ?_, hstart, ?_⟩
          · intro i hi hlt
            exact h3 i hi (by omega)
          · have : s + (e - s) = e := by omega
            rw [this]; exact hend
        · exact ⟨by omega, hb⟩
      · rintro ⟨ha, hb⟩
        obtain ⟨m1, m2, m3, m4, m5⟩ := hb
        by_cases hs : e ≤ s
        · exact Or.inr ⟨hs, m1, m2, m3, m4, m5⟩
        · left
          by_cases hsj : s = j
          · subst hsj
            have hsn : s + n = e := by
              by_contra hne
              rcases Nat.lt_or_gt_of_ne hne with hlt | hgt'
              · have hb1 := h3 (s + n) (by omega) hlt
                rcases m5 with h | h
                · omega
                · exact h hb1
              · have hb1 := m3 e (by omega) hgt'
                exact h4 (by omega) hb1
            exact Prod.ext rfl (by simp only; omega)
          · exfalso
            have hb1 := h3 (s - 1) (by omega) (by omega)
            rcases m4 with h | h
            · omega
            · exact h hb1
    · have hrec := ih (j + 1) (by omega) (Or.inr (Or.inr (Or.inr (by simpa using hc))))
      rw [hrec]
      constructor
      · rintro ⟨ha, hb⟩
        exact ⟨by omega, hb⟩
      · rintro ⟨ha, hb⟩
        refine ⟨?_, hb⟩
        by_contra hne
        have : s = j := by omega
        subst this
        obtain ⟨m1, _, m3, _, _⟩ := hb
        exact hc (m3 s (Nat.le_refl _) (by omega))
    · simp only [List.not_mem_nil, false_iff, is_maximal_run]
      rintro ⟨h1, h2, h3, _⟩
      omega

/-- The bars of the loop come left to right, with at least one module between two of
them. -/
theorem run_list_pairwise (pattern : CString) (pattern_len : Nat) (fuel j : Nat)
    (hf : pattern_len - j ≤ fuel) :
    (run_list pattern pattern_len fuel j).Pairwise (fun a b => a.1 + a.2 < b.1) := by
  induction fuel generalizing j with
  | zero => simp [run_list]
  | succ fuel ih =>
    simp only [run_list]
    split_ifs with hj hc
    · obtain ⟨h1, h2, h3, h4⟩ :=
        skip_ones_spec pattern pattern_len (pattern_len - j) j (Nat.le_refl _) (Nat.le_of_lt hj)
      have hgt := skip_ones_gt pattern pattern_len j hj hc
      generalize he : skip_ones pattern pattern_len (pattern_len - j) j = e at h1 h2 h3 h4 hgt
      have hinv : pattern_len ≤ e ∨ char_at pattern e ≠ 49 ∨ e = 0
          ∨ char_at pattern (e - 1) ≠ 49 := by
        by_cases hlt : e < pattern_len
        · exact Or.inr (Or.inl (h4 hlt))
        · exact Or.inl (by omega)
      rw [List.pairwise_cons]
      refine ⟨?_, ih e (by omega)⟩
      rintro ⟨s, n⟩ hb
      obtain ⟨ha, m1, m2, m3, _, _⟩ := (run_list_mem pattern pattern_len fuel e (by omega) hinv s n).1 hb
      have hbs := m3 s (Nat.le_refl _) (by omega)
      have hne : s ≠ e := by
        rintro rfl
        exact h4 (by omega) hbs
      simp only
      omega
    · exact ih (j + 1) (by omega)
    · exact List.Pairwise.nil

/-! ## Glyph sequences in modules -/

/-- The first glyph of a glyph loop is drawn at the cursor, the others after it. -/
theorem fold_glyphs_cons (g : ℚ → Nat → List PageOp) (d : ℚ) (i : Nat) (l : List Nat) (cx : ℚ) :
    ((i :: l).foldl (fun (st : List PageOp × ℚ) i => (st.1 ++ g st.2 i, st.2 + d)) ([], cx)).1
      = g cx i
        ++ (l.foldl (fun (st : List PageOp × ℚ) i => (st.1 ++ g st.2 i, st.2 + d))
            ([], cx + d)).1 := by
  rw [List.foldl_cons, fold_glyphs g d l ([] ++ g cx i) (cx + d)]
  rfl

/-- The rectangles of a glyph loop that starts `c` modules after `x` are the bars of
`glyph_modules`. -/
theorem rectangles_fold_glyphs (pattern_of : Nat → CString) (glyph_len : Nat)
    (x y module_width height : ℚ) (l : List Nat) (c : Nat) :
    rectangles ((l.foldl
        (fun (st : List PageOp × ℚ) i =>
          (st.1 ++ draw_runs (pattern_of i) glyph_len st.2 y module_width height glyph_len 0,
            st.2 + (glyph_len : ℚ) * module_width))
        ([], x + (c : ℚ) * module_width)).1)
      = (glyph_modules pattern_of glyph_len l c).map (to_rect x y module_width height) := by
  induction l generalizing c with
  | nil => rfl
  | cons i l ih =>
    rw [fold_glyphs_cons
      (fun cx i => draw_runs (pattern_of i) glyph_len cx y module_width height glyph_len 0)
      ((glyph_len : ℚ) * module_width) i l]
    have hc : x + (c : ℚ) * module_width + (glyph_len : ℚ) * module_width
        = x + ((c + glyph_len : Nat) : ℚ) * module_width := by push_cast; ring
    rw [rectangles_append, rectangles_draw_runs, hc, ih (c + glyph_len)]
    simp only [glyph_modules, List.map_append, List.map_map]
    congr 1
    apply List.map_congr_left
    intro r _
    simp only [Function.comp, to_rect]
    refine Prod.ext ?_ rfl
    simp only
    push_cast
    ring

theorem rectangles_guard_modules (x y m h : ℚ) (a b : Nat) :
    rectangles [PageOp.Rectangle (x + (a : ℚ) * m) y m h, PageOp.Fill,
        PageOp.Rectangle (x + (b : ℚ) * m) y m h, PageOp.Fill]
      = [(a, 1), (b, 1)].map (to_rect x y m h) := by
  simp [rectangles, to_rect]

/-- The rectangles of an accepted EAN-13 drawing are the bars of `ean13_modules`, each
module `width / 95` wide. -/
theorem draw_ean13_modules (x y width height : ℚ) (data : CString)
    (hv : validate_barcode_data BARCODE_EAN13 (some data) = true) :
    rectangles (draw_ean13 x y width height (some data))
      = (ean13_modules data).map (to_rect x y (width / 95) height) := by
  rw [draw_ean13_valid x y width height data hv]
  have hl := rectangles_fold_glyphs (ean13_left_pattern data) 7 x y (width / 95) height
    (List.range' 1 6) 3
  have hr := rectangles_fold_glyphs (ean13_right_pattern data) 7 x y (width / 95) height
    (List.range' 7 6) 50
  have g0 := rectangles_guard_modules x y (width / 95) height 0 1
  have g1 := rectangles_guard_modules x y (width / 95) height 46 48
  have g2 := rectangles_guard_modules x y (width / 95) height 93 95
  simp only [Nat.cast_ofNat, Nat.cast_zero, Nat.cast_one, zero_mul, add_zero, one_mul]
    at hl hr g0 g1 g2
  simp only [ean13_left_pattern] at hl
  simp only [ean13_right_pattern] at hr
  rw [rectangles_append, rectangles_append, rectangles_append, rectangles_append, hl, hr,
    g0, g1, g2]
  simp only [ean13_modules, List.map_append]

/-! ## Coverage -/

theorem covers_append (a b : List (Nat × Nat)) (m : Nat) :
    covers (a ++ b) m ↔ covers a m ∨ covers b m := by
  simp only [covers, List.mem_append]
  constructor
  · rintro ⟨r, hr | hr, h⟩
    · exact Or.inl ⟨r, hr, h⟩
    · exact Or.inr ⟨r, hr, h⟩
  · rintro (⟨r, hr, h⟩ | ⟨r, hr, h⟩)
    · exact ⟨r, Or.inl hr, h⟩
    · exact ⟨r, Or.inr hr, h⟩

theorem covers_shift (runs : List (Nat × Nat)) (c m : Nat) :
    covers (runs.map (fun r => (c + r.1, r.2))) m ↔ (c ≤ m ∧ covers runs (m - c)) := by
  simp only [covers, List.mem_map]
  constructor
  · rintro ⟨r, ⟨q, hq, rfl⟩, h1, h2⟩
    simp only at h1 h2
    exact ⟨by omega, q, hq, by omega, by omega⟩
  · rintro ⟨hc, q, hq, h1, h2⟩
    exact ⟨(c + q.1, q.2), ⟨q, hq, rfl⟩, by simp only; omega, by simp only; omega⟩

/-- In a glyph sequence a module is under a bar exactly when it falls in the cell of
some glyph whose pattern has '1' there. -/
theorem covers_glyph_modules (pattern_of : Nat → CString) (glyph_len : Nat) (l : List Nat)
    (c m : Nat) :
    covers (glyph_modules pattern_of glyph_len l c) m
      ↔ ∃ k, k < l.length ∧ c + glyph_len * k ≤ m ∧ m < c + glyph_len * (k + 1) ∧
          char_at (pattern_of (l.getD k 0)) (m - (c + glyph_len * k)) = 49 := by
  induction l generalizing c with
  | nil =>
    simp only [glyph_modules, covers, List.not_mem_nil, false_and, exists_false,
      List.length_nil, Nat.not_lt_zero]
  | cons i l ih =>
    simp only [glyph_modules]
    rw [covers_append, covers_shift, run_list_covers _ _ _ _ (by omega), ih (c + glyph_len)]
    constructor
    · rintro (⟨h1, _, h3, h4⟩ | ⟨k, hk, h1, h2, h3⟩)
      · refine ⟨0, by simp, by omega, by omega, ?_⟩
        simpa using h4
      · refine ⟨k + 1, by simpa using hk, ?_, ?_, ?_⟩
        · rw [Nat.mul_add]; omega
        · rw [Nat.mul_add, Nat.mul_add] at *; omega
        · have : m - (c + glyph_len * (k + 1)) = m - (c + glyph_len + glyph_len * k) := by
            rw [Nat.mul_add]; omega
          rw [this]
          simpa using h3
    · rintro ⟨k, hk, h1, h2, h3⟩
      cases k with
      | zero =>
        left
        refine ⟨by omega, Nat.zero_le _, by omega, ?_⟩
        simpa using h3
      | succ k =>
        right
        refine ⟨k, by simpa using hk, ?_, ?_, ?_⟩
        · rw [Nat.mul_add] at h1; omega
        · rw [Nat.mul_add, Nat.mul_add] at *; omega
        · have : m - (c + glyph_len * (k + 1)) = m - (c + glyph_len + glyph_len * k) := by
            rw [Nat.mul_add]; omega
          rw [this] at h3
          simpa using h3

/-- Every bar of a glyph sequence lies in the cell of its glyph. -/
theorem glyph_modules_bounds (pattern_of : Nat → CString) (glyph_len : Nat) (l : List Nat)
    (c : Nat) :
    ∀ r ∈ glyph_modules pattern_of glyph_len l c,
      c ≤ r.1 ∧ 0 < r.2 ∧ r.1 + r.2 ≤ c + glyph_len * l.length := by
  induction l generalizing c with
  | nil => intro r hr; simp [glyph_modules] at hr
  | cons i l ih =>
    intro r hr
    simp only [glyph_modules, List.mem_append, List.mem_map] at hr
    simp only [List.length_cons, Nat.mul_add, Nat.mul_one]
    rcases hr with ⟨q, hq, rfl⟩ | hr
    · have := run_list_bounds _ _ _ _ q hq
      have hnn : 0 ≤ glyph_len * l.length := Nat.zero_le _
      simp only
      omega
    · have := ih (c + glyph_len) r hr
      omega

/-- With a positive module width, a module is under a rectangle exactly when it is
under the bar the rectangle was placed from. -/
theorem module_covered_map (x y module_width height : ℚ) (hm : 0 < module_width)
    (runs : List (Nat × Nat)) (m : Nat) :
    module_covered x module_width (runs.map (to_rect x y module_width height)) m
      ↔ covers runs m := by
  simp only [module_covered, covers, List.mem_map]
  constructor
  · rintro ⟨r, ⟨q, hq, rfl⟩, h1, h2⟩
    simp only [to_rect] at h1 h2
    refine ⟨q, hq, ?_, ?_⟩
    · have : (q.1 : ℚ) ≤ (m : ℚ) := by
        by_contra hlt
        push_neg at hlt
        nlinarith
      exact_mod_cast this
    · have : (m : ℚ) + 1 ≤ (q.1 : ℚ) + (q.2 : ℚ) := by
        by_contra hlt
        push_neg at hlt
        nlinarith
      have h3 : ((m + 1 : Nat) : ℚ) ≤ ((q.1 + q.2 : Nat) : ℚ) := by push_cast; exact this
      have h4 : m + 1 ≤ q.1 + q.2 := by exact_mod_cast h3
      omega
  · rintro ⟨q, hq, h1, h2⟩
    refine ⟨to_rect x y module_width height q, ⟨q, hq, rfl⟩, ?_, ?_⟩
    · simp only [to_rect]
      have : (q.1 : ℚ) ≤ (m : ℚ) := by exact_mod_cast h1
      nlinarith
    · simp only [to_rect]
      have h3 : ((m + 1 : Nat) : ℚ) ≤ ((q.1 + q.2 : Nat) : ℚ) := by exact_mod_cast h2
      push_cast at h3
      nlinarith

/-! ## Invalid input -/

theorem draw_code128_invalid (x y width height : ℚ) (data : Option CString)
    (h : validate_barcode_data BARCODE_CODE128 data = false) :
    draw_code128 x y width height data = some [] := by
  simp [draw_code128, h]

theorem draw_ean13_invalid (x y width height : ℚ) (data : Option CString)
    (h : validate_barcode_data BARCODE_EAN13 data = false) :
    draw_ean13 x y width height data = [] := by
  simp [draw_ean13, h]

theorem draw_upca_invalid (x y width height : ℚ) (data : Option CString)
    (h : validate_barcode_data BARCODE_UPCA data = false) :
    draw_upca x y width height data = [] := by
  simp [draw_upca, h]

/-- What `draw_barcode` issues on an invalid text: nothing, or the save/restore pair
with nothing in between. -/
theorem draw_barcode_invalid (page : Option HPDF_Page) (x y width height : ℚ)
    (type : BarcodeType) (data : Option CString)
    (h : validate_barcode_data type data = false) :
    draw_barcode page x y width height type data = some [] ∨
    draw_barcode page x y width height type data
      = some [PageOp.GSave, PageOp.GRestore] := by
  unfold draw_barcode
  split_ifs with hg h0 h1 h2
  · exact Or.inl rfl
  · subst h0; rw [draw_code128_invalid x y width height data h]; exact Or.inr rfl
  · subst h1; rw [draw_ean13_invalid x y width height data h]; exact Or.inr rfl
  · subst h2; rw [draw_upca_invalid x y width height data h]; exact Or.inr rfl
  · exact Or.inr rfl

/-- C11: fail-silent on invalid input: when `validate_barcode_data(type, text)` is false,
`draw_barcode` emits no rectangle, in any box and for any type; likewise `draw_code128`,
`draw_ean13` and `draw_upca` emit none on a text their own type rejects. -/
theorem no_rectangles_on_invalid :
    (∀ (page : Option HPDF_Page) (x y width height : ℚ) (type : BarcodeType)
        (data : Option CString),
      validate_barcode_data type data = false →
        (draw_barcode page x y width height type data).map rectangles = some []) ∧
    (∀ (x y width height : ℚ) (data : Option CString),
      validate_barcode_data BARCODE_CODE128 data = false →
        (draw_code128 x y width height data).map rectangles = some []) ∧
    (∀ (x y width height : ℚ) (data : Option CString),
      validate_barcode_data BARCODE_EAN13 data = false →
        rectangles (draw_ean13 x y width height data) = []) ∧
    (∀ (x y width height : ℚ) (data : Option CString),
      validate_barcode_data BARCODE_UPCA data = false →
        rectangles (draw_upca x y width height data) = []) := by
  refine ⟨?_, ?_, ?_, ?_⟩
  · intro page x y width height type data h
    rcases draw_barcode_invalid page x y width height type data h with h' | h' <;>
      rw [h'] <;> rfl
  · intro x y width height data h
    rw [draw_code128_invalid x y width height data h]; rfl
  · intro x y width height data h
    rw [draw_ean13_invalid x y width height data h]; rfl
  · intro x y width height data h
    rw [draw_upca_invalid x y width height data h]; rfl

/-- The rejected EAN-13 text "4006381333932" in a box of width 95 and height 10. -/
theorem no_rectangles_on_invalid_witness :
    (draw_barcode (some ⟨0⟩) 0 0 95 10 BARCODE_EAN13
        (some (cstr "4006381333932"))).map rectangles = some [] ∧
    (draw_code128 0 0 95 10 (some (cstr ""))).map rectangles = some [] ∧
    rectangles (draw_ean13 0 0 95 10 (some (cstr "4006381333932"))) = [] ∧
    rectangles (draw_upca 0 0 95 10 (some (cstr "036000291450"))) = [] :=
  ⟨no_rectangles_on_invalid.1 (some ⟨0⟩) 0 0 95 10 BARCODE_EAN13 _ (by decide),
    no_rectangles_on_invalid.2.1 0 0 95 10 _ (by decide),
    no_rectangles_on_invalid.2.2.1 0 0 95 10 _ (by decide),
    no_rectangles_on_invalid.2.2.2 0 0 95 10 _ (by decide)⟩

/-- C14: `validate_barcode_data(BARCODE_CODE128, text)` is true exactly when the text is
present and has at least one byte, whatever the bytes; an absent text is invalid for
every barcode type. -/
theorem code128_validate_iff :
    (∀ data : Option CString,
      validate_barcode_data BARCODE_CODE128 data = true ↔ ∃ t, data = some t ∧ 1 ≤ t.length) ∧
    (∀ type : BarcodeType, validate_barcode_data type none = false) := by
  constructor
  · intro data
    cases data with
    | none => simp [validate_barcode_data]
    | some t =>
      simp [validate_barcode_data, BARCODE_CODE128, strlen]
      omega
  · intro type
    rfl

/-! ## Code128 substitution -/

/-- Every entry of the Code128 table is 11 characters long. -/
theorem code128_pattern_length (c : Int) (h0 : 0 ≤ c) (h1 : c ≤ 106) :
    strlen (table_at code128_encoding c) = 11 := by
  have key : ∀ k, k < 107 → (code128_encoding.getD k []).length = 11 := by decide
  unfold table_at strlen
  rw [if_pos h0]
  exact key c.toNat (by omega)

/-- The bars of the Code128 pattern at index 0. -/
theorem run_list_pattern0 :
    run_list (table_at code128_encoding 0) 11 11 0 = [(0, 2), (3, 2), (7, 2)] := by
  decide

/-- C12, as the code has it: the pattern at table index 0, "11011001100", is drawn by
the glyph scan of `draw_code128` as exactly three rectangles, each `2 * module_width`
wide, at module offsets 0, 3 and 7 within the glyph, and not as eleven one-module
rectangles. -/
theorem code128_pattern0_three_rectangles (current_x y module_width height : ℚ) :
    table_at code128_encoding 0 = cstr "11011001100" ∧
    rectangles (draw_runs (table_at code128_encoding 0) (strlen (table_at code128_encoding 0))
        current_x y module_width height (strlen (table_at code128_encoding 0)) 0)
      = [(current_x + 0 * module_width, y, 2 * module_width, height),
         (current_x + 3 * module_width, y, 2 * module_width, height),
         (current_x + 7 * module_width, y, 2 * module_width, height)] := by
  refine ⟨by decide, ?_⟩
  rw [code128_pattern_length 0 (by decide) (by decide), rectangles_draw_runs,
    run_list_pattern0]
  simp [to_rect]

/-- C12, as stated, fails: with the glyph at the origin and modules of width 1 the scan
of pattern 0 gives three rectangles, not the two rectangles at offsets 0 and 5. -/
theorem code128_pattern0_not_two_rectangles :
    (rectangles (draw_runs (table_at code128_encoding 0)
        (strlen (table_at code128_encoding 0)) 0 0 1 10
        (strlen (table_at code128_encoding 0)) 0)).length = 3 ∧
    rectangles (draw_runs (table_at code128_encoding 0)
        (strlen (table_at code128_encoding 0)) 0 0 1 10
        (strlen (table_at code128_encoding 0)) 0)
      ≠ [(0, 0, 2, 10), (5, 0, 2, 10)] := by
  rw [code128_pattern_length 0 (by decide) (by decide), rectangles_draw_runs,
    run_list_pattern0]
  constructor
  · rfl
  · intro h
    have := congrArg List.length h
    simp at this

/-- C15: for every Code128 table index `k` in 0..106 the glyph scan of `draw_code128`
emits, left to right, one rectangle per maximal run of '1' in `code128_encoding[k]`,
starting at the run's first module offset from the glyph origin and as wide as the
run; the modules under rectangles are exactly the '1' positions of the pattern. -/
theorem code128_glyph_rectangles_are_runs (k : Nat) (hk : k ≤ 106)
    (current_x y module_width height : ℚ) :
    strlen (table_at code128_encoding (k : Int)) = 11 ∧
    ∃ runs : List (Nat × Nat),
      rectangles (draw_runs (table_at code128_encoding (k : Int))
          (strlen (table_at code128_encoding (k : Int))) current_x y module_width height
          (strlen (table_at code128_encoding (k : Int))) 0)
        = runs.map (fun r =>
            (current_x + (r.1 : ℚ) * module_width, y, (r.2 : ℚ) * module_width, height)) ∧
      runs.Pairwise (fun a b => a.1 + a.2 < b.1) ∧
      (∀ s n, (s, n) ∈ runs ↔
        is_maximal_run (table_at code128_encoding (k : Int))
          (strlen (table_at code128_encoding (k : Int))) s n) ∧
      (∀ m, m < strlen (table_at code128_encoding (k : Int)) →
        (covers runs m ↔ char_at (table_at code128_encoding (k : Int)) m = 49)) := by
  refine ⟨code128_pattern_length k (by omega) (by omega), ?_⟩
  generalize table_at code128_encoding (k : Int) = pattern
  refine ⟨run_list pattern (strlen pattern) (strlen pattern) 0,
    rectangles_draw_runs _ _ _ _ _ _ _ _, run_list_pairwise _ _ _ _ (by omega), ?_, ?_⟩
  · intro s n
    rw [run_list_mem pattern (strlen pattern) (strlen pattern) 0 (by omega)
      (Or.inr (Or.inr (Or.inl rfl)))]
    simp
  · intro m hm
    rw [run_list_covers pattern (strlen pattern) (strlen pattern) 0 (by omega)]
    simp [hm]

/-- Table index 0, "11011001100": its runs are the bars at 0, 3 and 7, two wide each. -/
theorem code128_glyph_rectangles_are_runs_witness :
    ∃ runs : List (Nat × Nat),
      rectangles (draw_runs (table_at code128_encoding ((0 : Nat) : Int))
          (strlen (table_at code128_encoding ((0 : Nat) : Int))) 0 0 1 10
          (strlen (table_at code128_encoding ((0 : Nat) : Int))) 0)
        = runs.map (fun r => ((0 : ℚ) + (r.1 : ℚ) * 1, (0 : ℚ), (r.2 : ℚ) * 1, (10 : ℚ))) ∧
      runs.Pairwise (fun a b => a.1 + a.2 < b.1) ∧
      (∀ s n, (s, n) ∈ runs ↔
        is_maximal_run (table_at code128_encoding ((0 : Nat) : Int))
          (strlen (table_at code128_encoding ((0 : Nat) : Int))) s n) ∧
      (∀ m, m < strlen (table_at code128_encoding ((0 : Nat) : Int)) →
        (covers runs m ↔ char_at (table_at code128_encoding ((0 : Nat) : Int)) m = 49)) :=
  (code128_glyph_rectangles_are_runs 0 (by decide) 0 0 1 10).2

/-! ## EAN-13 layout -/

/-- An accepted EAN-13 text has 13 bytes, all ASCII digits. -/
theorem ean13_valid_digits (data : CString)
    (hv : validate_barcode_data BARCODE_EAN13 (some data) = true) :
    data.length = 13 ∧ ∀ i, i < 13 → 48 ≤ byte_at data i ∧ byte_at data i ≤ 57 := by
  obtain ⟨hlen, hd, _⟩ := (validate_ean13_spec data).1 hv
  refine ⟨hlen, ?_⟩
  have := (all_bytes_iff data (fun b => 48 ≤ b ∧ b ≤ 57)).2 hd
  rw [hlen] at this
  exact this

/-- The digit `data[i] - '0'` of an accepted EAN-13 text is a table index 0..9. -/
theorem ean13_valid_digit_value (data : CString)
    (hv : validate_barcode_data BARCODE_EAN13 (some data) = true) (i : Nat) (hi : i < 13) :
    char_at data i - 48 = (digit_value data i : Int) ∧ digit_value data i ≤ 9 := by
  have hd := (ean13_valid_digits data hv).2 i hi
  refine ⟨char_at_of_digit data i hd, ?_⟩
  unfold digit_value
  omega

theorem covers_pair (a b m : Nat) : covers [(a, 1), (b, 1)] m ↔ (m = a ∨ m = b) := by
  simp only [covers, List.mem_cons, List.mem_singleton, List.not_mem_nil, or_false]
  constructor
  · rintro ⟨r, rfl | rfl, h1, h2⟩
    · left; simp only at h1 h2; omega
    · right; simp only at h1 h2; omega
  · rintro (rfl | rfl)
    · exact ⟨(m, 1), Or.inl rfl, Nat.le_refl _, by simp⟩
    · exact ⟨(m, 1), Or.inr rfl, Nat.le_refl _, by simp⟩

theorem getD_range' (s n k : Nat) (hk : k < n) : (List.range' s n).getD k 0 = s + k := by
  rw [List.getD_eq_getElem?_getD, List.getElem?_eq_getElem (by simpa using hk)]
  simp

/-- The modules under a bar of an EAN-13 drawing: the guard bars at 0, 1, 46, 48, 93 and
95, and the '1' cells of the twelve digit glyphs in modules 3..44 and 50..91. -/
theorem covers_ean13_modules (data : CString) (m : Nat) :
    covers (ean13_modules data) m ↔
      (m = 0 ∨ m = 1) ∨
      (∃ k, k < 6 ∧ 3 + 7 * k ≤ m ∧ m < 3 + 7 * (k + 1) ∧
        char_at (ean13_left_pattern data (1 + k)) (m - (3 + 7 * k)) = 49) ∨
      (m = 46 ∨ m = 48) ∨
      (∃ k, k < 6 ∧ 50 + 7 * k ≤ m ∧ m < 50 + 7 * (k + 1) ∧
        char_at (ean13_right_pattern data (7 + k)) (m - (50 + 7 * k)) = 49) ∨
      (m = 93 ∨ m = 95) := by
  have hL := covers_glyph_modules (ean13_left_pattern data) 7 (List.range' 1 6) 3 m
  have hR := covers_glyph_modules (ean13_right_pattern data) 7 (List.range' 7 6) 50 m
  simp only [List.length_range'] at hL hR
  unfold ean13_modules
  generalize glyph_modules (ean13_left_pattern data) 7 (List.range' 1 6) 3 = L at hL ⊢
  generalize glyph_modules (ean13_right_pattern data) 7 (List.range' 7 6) 50 = R at hR ⊢
  rw [covers_append, covers_append, covers_append, covers_append, covers_pair, covers_pair,
    covers_pair, hL, hR]
  have hl : (∃ k, k < 6 ∧ 3 + 7 * k ≤ m ∧ m < 3 + 7 * (k + 1) ∧
        char_at (ean13_left_pattern data ((List.range' 1 6).getD k 0)) (m - (3 + 7 * k)) = 49)
      ↔ (∃ k, k < 6 ∧ 3 + 7 * k ≤ m ∧ m < 3 + 7 * (k + 1) ∧
        char_at (ean13_left_pattern data (1 + k)) (m - (3 + 7 * k)) = 49) := by
    constructor
    · rintro ⟨k, hk, h⟩
      rw [getD_range' 1 6 k hk] at h
      exact ⟨k, hk, h⟩
    · rintro ⟨k, hk, h⟩
      refine ⟨k, hk, ?_⟩
      rw [getD_range' 1 6 k hk]
      exact h
  have hr : (∃ k, k < 6 ∧ 50 + 7 * k ≤ m ∧ m < 50 + 7 * (k + 1) ∧
        char_at (ean13_right_pattern data ((List.range' 7 6).getD k 0)) (m - (50 + 7 * k)) = 49)
      ↔ (∃ k, k < 6 ∧ 50 + 7 * k ≤ m ∧ m < 50 + 7 * (k + 1) ∧
        char_at (ean13_right_pattern data (7 + k)) (m - (50 + 7 * k)) = 49) := by
    constructor
    · rintro ⟨k, hk, h⟩
      rw [getD_range' 7 6 k hk] at h
      exact ⟨k, hk, h⟩
    · rintro ⟨k, hk, h⟩
      refine ⟨k, hk, ?_⟩
      rw [getD_range' 7 6 k hk]
      exact h
  rw [hl, hr]
  simp only [or_assoc]

/-- Where the bars of an EAN-13 drawing lie: left of module 45, the two center bars,
or from module 50 on. -/
theorem ean13_modules_regions (data : CString) :
    ∀ r ∈ ean13_modules data,
      r.1 + r.2 ≤ 45 ∨ r = (46, 1) ∨ r = (48, 1) ∨ 50 ≤ r.1 := by
  intro r hr
  simp only [ean13_modules, List.mem_append] at hr
  rcases hr with (((hr | hr) | hr) | hr) | hr
  · simp only [List.mem_cons, List.mem_singleton, List.not_mem_nil, or_false] at hr
    rcases hr with rfl | rfl <;> simp
  · have := glyph_modules_bounds _ _ _ _ r hr
    simp only [List.length_range'] at this
    left; omega
  · simp only [List.mem_cons, List.mem_singleton, List.not_mem_nil, or_false] at hr
    rcases hr with rfl | rfl <;> simp
  · have := glyph_modules_bounds _ _ _ _ r hr
    right; right; right; omega
  · simp only [List.mem_cons, List.mem_singleton, List.not_mem_nil, or_false] at hr
    rcases hr with rfl | rfl <;> simp

/-- Every right-hand pattern has a bar in its first cell. -/
theorem right_pattern_first_cell (d : Nat) (hd : d ≤ 9) :
    char_at (table_at ean_right_patterns (d : Int)) 0 = 49 := by
  have key : ∀ k : Nat, k < 10 → char_at (table_at ean_right_patterns (k : Int)) 0 = 49 := by
    decide
  exact key d (by omega)

/-- The first right-hand glyph of an accepted text has a bar that starts at module 50. -/
theorem ean13_modules_bar_at_50 (data : CString)
    (hv : validate_barcode_data BARCODE_EAN13 (some data) = true) :
    ∃ n, (50, n) ∈ ean13_modules data := by
  obtain ⟨hd, hle⟩ := ean13_valid_digit_value data hv 7 (by omega)
  have hbar : char_at (ean13_right_pattern data 7) 0 = 49 := by
    unfold ean13_right_pattern
    rw [hd]
    exact right_pattern_first_cell _ hle
  refine ⟨skip_ones (ean13_right_pattern data 7) 7 (7 - 0) 0 - 0, ?_⟩
  have hrange : List.range' 7 6 = 7 :: List.range' 8 5 := rfl
  simp only [ean13_modules, hrange, glyph_modules, List.mem_append, List.mem_map]
  left; right; left
  refine ⟨(0, skip_ones (ean13_right_pattern data 7) 7 (7 - 0) 0 - 0), ?_, rfl⟩
  simp [run_list, hbar]

/-- For an accepted text in a box of positive width, the modules under rectangles of
`draw_ean13` are the modules under bars of `ean13_modules`. -/
theorem ean13_module_covered_iff (x y width height : ℚ) (data : CString)
    (hv : validate_barcode_data BARCODE_EAN13 (some data) = true) (hw : 0 < width) (m : Nat) :
    module_covered x (width / 95) (rectangles (draw_ean13 x y width height (some data))) m
      ↔ covers (ean13_modules data) m := by
  rw [draw_ean13_modules x y width height data hv]
  exact module_covered_map x y (width / 95) height (by positivity) _ m

theorem covers_ean13_left_cell (data : CString) (k j : Nat) (hk : k < 6) (hj : j < 7) :
    covers (ean13_modules data) (3 + 7 * k + j)
      ↔ char_at (ean13_left_pattern data (1 + k)) j = 49 := by
  rw [covers_ean13_modules]
  constructor
  · rintro (h | ⟨k', hk', h1, h2, h3⟩ | h | ⟨k', hk', h1, h2, h3⟩ | h)
    · omega
    · have hkk : k' = k := by omega
      subst hkk
      have hsub : 3 + 7 * k' + j - (3 + 7 * k') = j := by omega
      rw [hsub] at h3
      exact h3
    · omega
    · omega
    · omega
  · intro h
    refine Or.inr (Or.inl ⟨k, hk, by omega, by omega, ?_⟩)
    have hsub : 3 + 7 * k + j - (3 + 7 * k) = j := by omega
    rw [hsub]
    exact h

theorem covers_ean13_right_cell (data : CString) (k j : Nat) (hk : k < 6) (hj : j < 7) :
    covers (ean13_modules data) (50 + 7 * k + j)
      ↔ char_at (ean13_right_pattern data (7 + k)) j = 49 := by
  rw [covers_ean13_modules]
  constructor
  · rintro (h | ⟨k', hk', h1, h2, h3⟩ | h | ⟨k', hk', h1, h2, h3⟩ | h)
    · omega
    · omega
    · omega
    · have hkk : k' = k := by omega
      subst hkk
      have hsub : 50 + 7 * k' + j - (50 + 7 * k') = j := by omega
      rw [hsub] at h3
      exact h3
    · omega
  · intro h
    refine Or.inr (Or.inr (Or.inr (Or.inl ⟨k, hk, by omega, by omega, ?_⟩)))
    have hsub : 50 + 7 * k + j - (50 + 7 * k) = j := by omega
    rw [hsub]
    exact h

theorem covers_ean13_guard_cells (data : CString) :
    covers (ean13_modules data) 0 ∧ covers (ean13_modules data) 1 ∧
    ¬ covers (ean13_modules data) 2 ∧
    ¬ covers (ean13_modules data) 45 ∧ covers (ean13_modules data) 46 ∧
    ¬ covers (ean13_modules data) 47 ∧ covers (ean13_modules data) 48 ∧
    ¬ covers (ean13_modules data) 49 ∧
    ¬ covers (ean13_modules data) 92 ∧ covers (ean13_modules data) 93 ∧
    ¬ covers (ean13_modules data) 94 ∧ covers (ean13_modules data) 95 := by
  have neg : ∀ m, (m = 2 ∨ m = 45 ∨ m = 47 ∨ m = 49 ∨ m = 92 ∨ m = 94) →
      ¬ covers (ean13_modules data) m := by
    intro m hm h
    rcases (covers_ean13_modules data m).1 h with
      h | ⟨k, hk, h1, h2, _⟩ | h | ⟨k, hk, h1, h2, _⟩ | h <;> omega
  refine ⟨(covers_ean13_modules data 0).2 (Or.inl (Or.inl rfl)),
    (covers_ean13_modules data 1).2 (Or.inl (Or.inr rfl)),
    neg 2 (by omega), neg 45 (by omega),
    (covers_ean13_modules data 46).2 (Or.inr (Or.inr (Or.inl (Or.inl rfl)))),
    neg 47 (by omega),
    (covers_ean13_modules data 48).2 (Or.inr (Or.inr (Or.inl (Or.inr rfl)))),
    neg 49 (by omega), neg 92 (by omega),
    (covers_ean13_modules data 93).2 (Or.inr (Or.inr (Or.inr (Or.inr (Or.inl rfl))))),
    neg 94 (by omega),
    (covers_ean13_modules data 95).2 (Or.inr (Or.inr (Or.inr (Or.inr (Or.inr rfl)))))⟩

/-! ## EAN-13 guards -/

/-- C16: for an accepted EAN-13 text in a box of positive width, `draw_ean13` draws the
left guard as two one-module rectangles at module offsets 0 and 1, side by side, and
leaves module 2 blank: the layout is bar, bar, space, not "101". The first left digit
glyph begins at module offset 3. -/
theorem ean13_left_guard_bars (x y width height : ℚ) (data : CString)
    (hv : validate_barcode_data BARCODE_EAN13 (some data) = true) (hw : 0 < width) :
    (∃ rest, rectangles (draw_ean13 x y width height (some data))
      = (x, y, width / 95, height) :: (x + width / 95, y, width / 95, height) :: rest) ∧
    module_covered x (width / 95) (rectangles (draw_ean13 x y width height (some data))) 0 ∧
    module_covered x (width / 95) (rectangles (draw_ean13 x y width height (some data))) 1 ∧
    ¬ module_covered x (width / 95) (rectangles (draw_ean13 x y width height (some data))) 2 ∧
    (∀ j, j < 7 →
      (module_covered x (width / 95) (rectangles (draw_ean13 x y width height (some data)))
          (3 + j)
        ↔ char_at (ean13_left_pattern data 1) j = 49)) := by
  have hc := covers_ean13_guard_cells data
  refine ⟨?_, ?_, ?_, ?_, ?_⟩
  · obtain ⟨left, right, hframe⟩ := draw_ean13_frame x y width height data hv
    rw [hframe]
    simp only [rectangles_append, rectangles_guard, List.cons_append, List.append_assoc,
      List.nil_append]
    exact ⟨_, rfl⟩
  · rw [ean13_module_covered_iff x y width height data hv hw]; exact hc.1
  · rw [ean13_module_covered_iff x y width height data hv hw]; exact hc.2.1
  · rw [ean13_module_covered_iff x y width height data hv hw]; exact hc.2.2.1
  · intro j hj
    rw [ean13_module_covered_iff x y width height data hv hw]
    have := covers_ean13_left_cell data 0 j (by omega) hj
    simpa using this

/-- In the box at the origin of width 95 and height 10, "4006381333931" has its first
two rectangles at x = 0 and x = 1, one module wide each. -/
theorem ean13_left_guard_bars_witness :
    ∃ rest, rectangles (draw_ean13 0 0 95 10 (some (cstr "4006381333931")))
      = (0, 0, 1, 10) :: (1, 0, 1, 10) :: rest := by
  have h := (ean13_left_guard_bars 0 0 95 10 (cstr "4006381333931") (by decide)
    (by norm_num)).1
  norm_num at h
  exact h

/-- C17: for an accepted EAN-13 text in a box of positive width, `draw_ean13` draws the
right guard as the last two rectangles, one module wide, at module offsets 93 and 95;
modules 92 and 94 are blank, so a rectangle is emitted at module offset 95. -/
theorem ean13_right_guard_bars (x y width height : ℚ) (data : CString)
    (hv : validate_barcode_data BARCODE_EAN13 (some data) = true) (hw : 0 < width) :
    (∃ init, rectangles (draw_ean13 x y width height (some data))
      = init ++ [(x + 93 * (width / 95), y, width / 95, height),
          (x + 95 * (width / 95), y, width / 95, height)]) ∧
    ¬ module_covered x (width / 95) (rectangles (draw_ean13 x y width height (some data))) 92 ∧
    module_covered x (width / 95) (rectangles (draw_ean13 x y width height (some data))) 93 ∧
    ¬ module_covered x (width / 95) (rectangles (draw_ean13 x y width height (some data))) 94 ∧
    module_covered x (width / 95) (rectangles (draw_ean13 x y width height (some data))) 95 := by
  have hc := covers_ean13_guard_cells data
  refine ⟨?_, ?_, ?_, ?_, ?_⟩
  · obtain ⟨left, right, hframe⟩ := draw_ean13_frame x y width height data hv
    rw [hframe]
    simp only [rectangles_append, rectangles_guard]
    exact ⟨_, rfl⟩
  · rw [ean13_module_covered_iff x y width height data hv hw]; exact hc.2.2.2.2.2.2.2.2.1
  · rw [ean13_module_covered_iff x y width height data hv hw]; exact hc.2.2.2.2.2.2.2.2.2.1
  · rw [ean13_module_covered_iff x y width height data hv hw]; exact hc.2.2.2.2.2.2.2.2.2.2.1
  · rw [ean13_module_covered_iff x y width height data hv hw]; exact hc.2.2.2.2.2.2.2.2.2.2.2

/-- In the box at the origin of width 95 and height 10, "4006381333931" has its last two
rectangles at x = 93 and x = 95. -/
theorem ean13_right_guard_bars_witness :
    ∃ init, rectangles (draw_ean13 0 0 95 10 (some (cstr "4006381333931")))
      = init ++ [(93, 0, 1, 10), (95, 0, 1, 10)] := by
  have h := (ean13_right_guard_bars 0 0 95 10 (cstr "4006381333931") (by decide)
    (by norm_num)).1
  norm_num at h
  exact h

/-- C18: for an accepted EAN-13 text in a box of positive width the center guard takes
the five modules 45..49: module 45 blank, a one-module bar at 46, module 47 blank, a
one-module bar at 48, module 49 blank; every other rectangle ends by module 45 or
starts at module 50 or later, and the first right digit glyph begins at module offset
50, where a rectangle starts. -/
theorem ean13_center_guard (x y width height : ℚ) (data : CString)
    (hv : validate_barcode_data BARCODE_EAN13 (some data) = true) (hw : 0 < width) :
    (¬ module_covered x (width / 95) (rectangles (draw_ean13 x y width height (some data))) 45 ∧
      module_covered x (width / 95) (rectangles (draw_ean13 x y width height (some data))) 46 ∧
      ¬ module_covered x (width / 95) (rectangles (draw_ean13 x y width height (some data))) 47 ∧
      module_covered x (width / 95) (rectangles (draw_ean13 x y width height (some data))) 48 ∧
      ¬ module_covered x (width / 95) (rectangles (draw_ean13 x y width height (some data))) 49) ∧
    (x + 46 * (width / 95), y, width / 95, height)
      ∈ rectangles (draw_ean13 x y width height (some data)) ∧
    (x + 48 * (width / 95), y, width / 95, height)
      ∈ rectangles (draw_ean13 x y width height (some data)) ∧
    (∀ r ∈ rectangles (draw_ean13 x y width height (some data)),
      r.1 + r.2.2.1 ≤ x + 45 * (width / 95) ∨
      r = (x + 46 * (width / 95), y, width / 95, height) ∨
      r = (x + 48 * (width / 95), y, width / 95, height) ∨
      x + 50 * (width / 95) ≤ r.1) ∧
    (∃ r ∈ rectangles (draw_ean13 x y width height (some data)),
      r.1 = x + 50 * (width / 95)) ∧
    (∀ j, j < 7 →
      (module_covered x (width / 95) (rectangles (draw_ean13 x y width height (some data)))
          (50 + j)
        ↔ char_at (ean13_right_pattern data 7) j = 49)) := by
  have hc := covers_ean13_guard_cells data
  have hm : (0 : ℚ) < width / 95 := by positivity
  have hcov := ean13_module_covered_iff x y width height data hv hw
  have hframe := draw_ean13_frame x y width height data hv
  refine ⟨⟨?_, ?_, ?_, ?_, ?_⟩, ?_, ?_, ?_, ?_, ?_⟩
  · rw [hcov]; exact hc.2.2.2.1
  · rw [hcov]; exact hc.2.2.2.2.1
  · rw [hcov]; exact hc.2.2.2.2.2.1
  · rw [hcov]; exact hc.2.2.2.2.2.2.1
  · rw [hcov]; exact hc.2.2.2.2.2.2.2.1
  · obtain ⟨left, right, hf⟩ := hframe
    rw [hf]
    simp only [rectangles_append, rectangles_guard, List.mem_append, List.mem_cons,
      List.mem_singleton, true_or, or_true]
  · obtain ⟨left, right, hf⟩ := hframe
    rw [hf]
    simp only [rectangles_append, rectangles_guard, List.mem_append, List.mem_cons,
      List.mem_singleton, true_or, or_true]
  · intro r hr
    rw [draw_ean13_modules x y width height data hv] at hr
    obtain ⟨q, hq, rfl⟩ := List.mem_map.1 hr
    rcases ean13_modules_regions data q hq with h | h | h | h
    · left
      simp only [to_rect]
      have h' : ((q.1 + q.2 : Nat) : ℚ) ≤ ((45 : Nat) : ℚ) := by exact_mod_cast h
      push_cast at h'
      nlinarith
    · right; left
      subst h
      simp [to_rect]
    · right; right; left
      subst h
      simp [to_rect]
    · right; right; right
      simp only [to_rect]
      have h' : ((50 : Nat) : ℚ) ≤ (q.1 : ℚ) := by exact_mod_cast h
      push_cast at h'
      nlinarith
  · obtain ⟨n, hn⟩ := ean13_modules_bar_at_50 data hv
    rw [draw_ean13_modules x y width height data hv]
    refine ⟨to_rect x y (width / 95) height (50, n), List.mem_map.2 ⟨_, hn, rfl⟩, ?_⟩
    simp [to_rect]
  · intro j hj
    rw [hcov]
    have := covers_ean13_right_cell data 0 j (by omega) hj
    simpa using this

/-- In the box at the origin of width 95 and height 10, "4006381333931" has the center
bars at x = 46 and x = 48. -/
theorem ean13_center_guard_witness :
    ((46 : ℚ), (0 : ℚ), (1 : ℚ), (10 : ℚ))
        ∈ rectangles (draw_ean13 0 0 95 10 (some (cstr "4006381333931"))) ∧
    ((48 : ℚ), (0 : ℚ), (1 : ℚ), (10 : ℚ))
        ∈ rectangles (draw_ean13 0 0 95 10 (some (cstr "4006381333931"))) := by
  have h := ean13_center_guard 0 0 95 10 (cstr "4006381333931") (by decide) (by norm_num)
  have h1 := h.2.1
  have h2 := h.2.2.1
  norm_num at h1 h2
  exact ⟨h1, h2⟩

/-! ## EAN-13 digit glyphs -/

/-- The parity letters of the first-digit table are 'A' or 'B'. -/
theorem first_digit_letters (d k : Nat) (hd : d ≤ 9) (hk : k < 6) :
    char_at (table_at ean_first_digit_patterns (d : Int)) k = 65 ∨
    char_at (table_at ean_first_digit_patterns (d : Int)) k = 66 := by
  have key : ∀ d : Nat, d < 10 → ∀ k : Nat, k < 6 →
      (char_at (table_at ean_first_digit_patterns (d : Int)) k = 65 ∨
       char_at (table_at ean_first_digit_patterns (d : Int)) k = 66) := by decide
  exact key d (by omega) k hk

/-- C19: for an accepted EAN-13 text `d_0 .. d_12` in a box of positive width, the
modules `3 + 7(i-1) .. 3 + 7i - 1` of left digit `i` (1..6) are under a bar exactly at
the '1' positions of `ean_left_patterns[d_i][0]` when letter `i-1` of
`ean_first_digit_patterns[d_0]` is 'A', and of `ean_left_patterns[d_i][1]` when it is
'B' (it is one of the two); the modules `50 + 7(i-7) .. 50 + 7(i-6) - 1` of right digit
`i` (7..12) are under a bar exactly at the '1' positions of `ean_right_patterns[d_i]`. -/
theorem ean13_digit_glyphs (x y width height : ℚ) (data : CString)
    (hv : validate_barcode_data BARCODE_EAN13 (some data) = true) (hw : 0 < width) :
    (∀ i j, 1 ≤ i → i ≤ 6 → j < 7 →
      (char_at (table_at ean_first_digit_patterns (digit_value data 0 : Int)) (i - 1) = 65 →
        (module_covered x (width / 95) (rectangles (draw_ean13 x y width height (some data)))
            (3 + 7 * (i - 1) + j)
          ↔ char_at (left_pattern_at (digit_value data i : Int) 0) j = 49)) ∧
      (char_at (table_at ean_first_digit_patterns (digit_value data 0 : Int)) (i - 1) = 66 →
        (module_covered x (width / 95) (rectangles (draw_ean13 x y width height (some data)))
            (3 + 7 * (i - 1) + j)
          ↔ char_at (left_pattern_at (digit_value data i : Int) 1) j = 49)) ∧
      (char_at (table_at ean_first_digit_patterns (digit_value data 0 : Int)) (i - 1) = 65 ∨
        char_at (table_at ean_first_digit_patterns (digit_value data 0 : Int)) (i - 1) = 66)) ∧
    (∀ i j, 7 ≤ i → i ≤ 12 → j < 7 →
      (module_covered x (width / 95) (rectangles (draw_ean13 x y width height (some data)))
          (50 + 7 * (i - 7) + j)
        ↔ char_at (table_at ean_right_patterns (digit_value data i : Int)) j = 49)) := by
  have hcov := ean13_module_covered_iff x y width height data hv hw
  constructor
  · intro i j h1 h6 hj
    obtain ⟨hd0, hle0⟩ := ean13_valid_digit_value data hv 0 (by omega)
    obtain ⟨hdi, _⟩ := ean13_valid_digit_value data hv i (by omega)
    have hcell := covers_ean13_left_cell data (i - 1) j (by omega) hj
    have hi : 1 + (i - 1) = i := by omega
    rw [hi] at hcell
    unfold ean13_left_pattern at hcell
    rw [hd0, hdi] at hcell
    refine ⟨?_, ?_, first_digit_letters _ _ hle0 (by omega)⟩
    · intro hA
      rw [hcov, hcell, if_pos hA]
    · intro hB
      rw [hcov, hcell, if_neg (by rw [hB]; decide)]
  · intro i j h7 h12 hj
    obtain ⟨hdi, _⟩ := ean13_valid_digit_value data hv i (by omega)
    have hcell := covers_ean13_right_cell data (i - 7) j (by omega) hj
    have hi : 7 + (i - 7) = i := by omega
    rw [hi] at hcell
    unfold ean13_right_pattern at hcell
    rw [hdi] at hcell
    rw [hcov, hcell]

/-- For "4006381333931" in the box at the origin of width 95 and height 10: the first
digit 4 gives the letters "ABAABB", so digit 1 (a 0) uses its A pattern "0001101", and
cell 3 of it, module 6 of the symbol, is compared. -/
theorem ean13_digit_glyphs_witness :
    module_covered 0 (95 / 95) (rectangles (draw_ean13 0 0 95 10
        (some (cstr "4006381333931")))) (3 + 7 * (1 - 1) + 3)
      ↔ char_at (left_pattern_at (digit_value (cstr "4006381333931") 1 : Int) 0) 3 = 49 :=
  ((ean13_digit_glyphs 0 0 95 10 (cstr "4006381333931") (by decide) (by norm_num)).1
    1 3 (by decide) (by decide) (by decide)).1 (by decide)

/-! ## Code128 module budget -/

theorem encode_writes_loop (text : CString) (n : Nat) (writes : List Nat) (k : Nat) :
    (List.range n).foldl
        (fun (st : List Nat × Nat) i =>
          let c := byte_at text i
          if c ≥ 32 ∧ c ≤ 126 then (st.1 ++ [st.2], st.2 + 1)
          else (st.1 ++ [st.2], st.2 + 1)) (writes, k)
      = (writes ++ List.range' k n, k + n) := by
  induction n with
  | zero => simp
  | succ n ih =>
    rw [List.range_succ, List.foldl_append, ih]
    simp only [List.foldl_cons, List.foldl_nil, ite_self, List.range'_1_concat,
      List.append_assoc, Nat.add_assoc]

/-- For a non-empty text of `n` bytes the encoder assigns `codes[0] .. codes[n + 2]`. -/
theorem code128_encode_writes_eq (text : CString) (hne : text ≠ []) :
    code128_encode_writes (some text) = List.range (text.length + 3) := by
  have hlen : text.length ≠ 0 := by simpa using hne
  unfold code128_encode_writes
  simp only [strlen, hlen, if_false]
  rw [encode_writes_loop]
  simp only []
  rw [List.range_eq_range', show text.length + 3 = (text.length + 2) + 1 from rfl,
    List.range'_1_concat 0 (text.length + 2),
    show text.length + 2 = (text.length + 1) + 1 from rfl,
    List.range'_1_concat 0 (text.length + 1), List.range'_succ 0 text.length]
  have e1 : 1 + text.length = 0 + (text.length + 1) := by omega
  rw [e1]
  rfl

/-- The encoder stays inside `codes[256]` for a non-empty text of at most 253 bytes. -/
theorem encode_writes_fit (text : CString) (hne : text ≠ []) (hlen : text.length ≤ 253) :
    (code128_encode_writes (some text)).any (fun k => decide (CODES_SIZE ≤ k)) = false := by
  rw [code128_encode_writes_eq text hne, List.any_eq_false]
  intro k hk
  have := List.mem_range.1 hk
  simp only [CODES_SIZE, decide_eq_true_eq]
  omega

/-- The encoder writes `codes[256]` for a text of 254 bytes or more. -/
theorem encode_writes_overrun (text : CString) (hlen : 254 ≤ text.length) :
    (code128_encode_writes (some text)).any (fun k => decide (CODES_SIZE ≤ k)) = true := by
  have hne : text ≠ [] := List.ne_nil_of_length_pos (by omega)
  rw [code128_encode_writes_eq text hne, List.any_eq_true]
  exact ⟨256, List.mem_range.2 (by omega), by decide⟩

/-- A text of 254 bytes or more is accepted by the validator, and `draw_code128`
overruns its array `codes[256]` on it. -/
theorem draw_code128_overrun (x y width height : ℚ) (text : CString)
    (hlen : 254 ≤ text.length) :
    validate_barcode_data BARCODE_CODE128 (some text) = true ∧
    draw_code128 x y width height (some text) = none := by
  have hv : validate_barcode_data BARCODE_CODE128 (some text) = true := by
    have : 0 < text.length := by omega
    simp [validate_barcode_data, BARCODE_CODE128, strlen, this]
  refine ⟨hv, ?_⟩
  unfold draw_code128
  rw [hv, encode_writes_overrun text hlen]
  rfl

/-- The codes written for a non-empty text of at most 6759 bytes: `n + 3` entries, each
a table index. -/
theorem code128_encode_codes (text : CString) (hne : text ≠ []) (hlen : text.length ≤ 6759) :
    ∃ codes : List Int,
      code128_encode_string (some text) = (text.length + 3, codes) ∧
      codes.length = text.length + 3 ∧ ∀ c ∈ codes, 0 ≤ c ∧ c ≤ 106 := by
  have hdata : ∀ c ∈ text.map (fun b : Fin 256 =>
      if b.val ≥ 32 ∧ b.val ≤ 126 then (b.val : Int) - 32 else 0), 0 ≤ c ∧ c ≤ 94 := by
    intro c hc
    obtain ⟨b, _, rfl⟩ := List.mem_map.1 hc
    have := b.isLt
    split_ifs <;> omega
  refine ⟨_, code128_encode_string_eq text hne, by simp, ?_⟩
  intro c hc
  rcases List.mem_append.1 hc with h | h
  · rcases List.mem_append.1 h with h | h
    · have : c = 104 := by simpa using h
      omega
    · have := hdata c h
      omega
  · have hcs := encoded_checksum_range _ hdata (by rw [List.length_map]; exact hlen)
    rw [List.length_map] at hcs
    simp only [List.mem_cons, List.mem_singleton, List.not_mem_nil, or_false] at h
    rcases h with rfl | rfl
    · exact ⟨hcs.1, by omega⟩
    · omega

theorem code_at_range (codes : List Int) (hr : ∀ c ∈ codes, 0 ≤ c ∧ c ≤ 106) (i : Nat) :
    0 ≤ code_at codes i ∧ code_at codes i ≤ 106 := by
  unfold code_at
  rw [List.getD_eq_getElem?_getD]
  by_cases h : i < codes.length
  · rw [List.getElem?_eq_getElem h]
    exact hr _ (List.getElem_mem h)
  · rw [List.getElem?_eq_none (by omega)]
    simp

/-- The module count of `n` glyphs of table indices is `11 * n`. -/
theorem total_modules_eq (codes : List Int) (hr : ∀ c ∈ codes, 0 ≤ c ∧ c ≤ 106) (n : Nat) :
    (List.range n).foldl
        (fun total_modules i =>
          total_modules + strlen (table_at code128_encoding (code_at codes i))) 0
      = 11 * n := by
  induction n with
  | zero => rfl
  | succ n ih =>
    rw [List.range_succ, List.foldl_append, ih]
    simp only [List.foldl_cons, List.foldl_nil]
    rw [code128_pattern_length _ (code_at_range codes hr n).1 (code_at_range codes hr n).2]
    omega

/-- The glyph loop of `draw_code128` over table indices: every glyph is 11 modules. -/
theorem code128_glyph_loop_eq (codes : List Int) (hr : ∀ c ∈ codes, 0 ≤ c ∧ c ≤ 106)
    (y module_width height : ℚ) (l : List Nat) (st0 : List PageOp × ℚ) :
    l.foldl
        (fun (st : List PageOp × ℚ) i =>
          let pattern := table_at code128_encoding (code_at codes i)
          let pattern_len := strlen pattern
          (st.1 ++ draw_runs pattern pattern_len st.2 y module_width height pattern_len 0,
            st.2 + (pattern_len : ℚ) * module_width)) st0
      = l.foldl
        (fun (st : List PageOp × ℚ) i =>
          (st.1 ++ draw_runs (table_at code128_encoding (code_at codes i)) 11 st.2 y
              module_width height 11 0,
            st.2 + ((11 : Nat) : ℚ) * module_width)) st0 := by
  apply List.foldl_ext
  intro st i _
  simp only []
  rw [code128_pattern_length _ (code_at_range codes hr i).1 (code_at_range codes hr i).2]

/-- What `draw_code128` issues for a non-empty text of at most 253 bytes, with the
values of its locals: `total_modules = 11 (n + 3) + 11`, and the glyph loop started 10
modules after `x`. -/
theorem draw_code128_valid (x y width height : ℚ) (text : CString) (hne : text ≠ [])
    (hlen : text.length ≤ 253) (codes : List Int)
    (hc : code128_encode_string (some text) = (text.length + 3, codes))
    (hr : ∀ c ∈ codes, 0 ≤ c ∧ c ≤ 106) :
    draw_code128 x y width height (some text)
      = some ((List.range (text.length + 3)).foldl
        (fun (st : List PageOp × ℚ) i =>
          let pattern := table_at code128_encoding (code_at codes i)
          let pattern_len := strlen pattern
          (st.1 ++ draw_runs pattern pattern_len st.2 y
              (width / ((11 * (text.length + 3) + 11 : Nat) : ℚ)) height pattern_len 0,
            st.2 + (pattern_len : ℚ) * (width / ((11 * (text.length + 3) + 11 : Nat) : ℚ))))
        ([], x + width / ((11 * (text.length + 3) + 11 : Nat) : ℚ) * 10)).1 := by
  have hv : validate_barcode_data BARCODE_CODE128 (some text) = true := by
    have : 0 < text.length := List.length_pos.2 hne
    simp [validate_barcode_data, BARCODE_CODE128, strlen, this]
  unfold draw_code128
  rw [hc, encode_writes_fit text hne hlen]
  simp only [hv, Bool.not_true, Bool.false_eq_true, if_false, Nat.add_eq_zero, OfNat.ofNat_ne_zero,
    and_false]
  rw [total_modules_eq codes hr]

/-- The rectangles of `draw_code128` for a non-empty text of at most 253 bytes are the
bars of its `n + 3` glyphs, 11 modules each, the first glyph starting at module 10. -/
theorem draw_code128_modules (x y width height : ℚ) (text : CString) (hne : text ≠ [])
    (hlen : text.length ≤ 253) (codes : List Int)
    (hc : code128_encode_string (some text) = (text.length + 3, codes))
    (hr : ∀ c ∈ codes, 0 ≤ c ∧ c ≤ 106) :
    ∃ ops, draw_code128 x y width height (some text) = some ops ∧
      rectangles ops
        = (glyph_modules (fun i => table_at code128_encoding (code_at codes i)) 11
            (List.range (text.length + 3)) 10).map
            (to_rect x y (width / ((11 * (text.length + 3) + 11 : Nat) : ℚ)) height) := by
  refine ⟨_, draw_code128_valid x y width height text hne hlen codes hc hr, ?_⟩
  rw [code128_glyph_loop_eq codes hr]
  have h10 : x + width / ((11 * (text.length + 3) + 11 : Nat) : ℚ) * 10
      = x + ((10 : Nat) : ℚ) * (width / ((11 * (text.length + 3) + 11 : Nat) : ℚ)) := by
    push_cast; ring
  rw [h10]
  exact rectangles_fold_glyphs (fun i => table_at code128_encoding (code_at codes i)) 11 x y
    (width / ((11 * (text.length + 3) + 11 : Nat) : ℚ)) height (List.range (text.length + 3)) 10

/-- C20, as the code has it: for a non-empty text of `n <= 253` bytes `draw_code128` has
`total_modules = 11 (n + 3) + 11` and `module_width = width / total_modules`; its glyph
loop starts with the cursor 10 modules after `x` and ends with the cursor
`total_modules - 1` modules after `x`, one module short of the right edge; every
rectangle spans whole modules from offset 10 or more to offset `total_modules - 1` or
less, so when the width is not negative it lies inside
`[x + 10 * module_width, x + width - module_width]`. -/
theorem code128_module_budget (x y width height : ℚ) (text : CString) (hne : text ≠ [])
    (hlen : text.length ≤ 253) :
    (List.range (code128_encode_string (some text)).1).foldl
        (fun total_modules i => total_modules
          + strlen (table_at code128_encoding (code_at (code128_encode_string (some text)).2 i)))
        0 + 11
      = 11 * (text.length + 3) + 11 ∧
    (∃ (ops : List PageOp) (final_x : ℚ),
      draw_code128 x y width height (some text) = some ops ∧
      (List.range (code128_encode_string (some text)).1).foldl
          (fun (st : List PageOp × ℚ) i =>
            let pattern :=
              table_at code128_encoding (code_at (code128_encode_string (some text)).2 i)
            let pattern_len := strlen pattern
            (st.1 ++ draw_runs pattern pattern_len st.2 y
                (width / ((11 * (text.length + 3) + 11 : Nat) : ℚ)) height pattern_len 0,
              st.2 + (pattern_len : ℚ) * (width / ((11 * (text.length + 3) + 11 : Nat) : ℚ))))
          ([], x + width / ((11 * (text.length + 3) + 11 : Nat) : ℚ) * 10)
        = (ops, final_x) ∧
      final_x = x + ((11 * (text.length + 3) + 11 - 1 : Nat) : ℚ)
          * (width / ((11 * (text.length + 3) + 11 : Nat) : ℚ)) ∧
      (∀ r ∈ rectangles ops, ∃ s n : Nat,
        10 ≤ s ∧ 0 < n ∧ s + n ≤ 11 * (text.length + 3) + 11 - 1 ∧
        r = to_rect x y (width / ((11 * (text.length + 3) + 11 : Nat) : ℚ)) height (s, n)) ∧
      (0 ≤ width →
        ∀ r ∈ rectangles ops,
          x + 10 * (width / ((11 * (text.length + 3) + 11 : Nat) : ℚ)) ≤ r.1 ∧
          r.1 + r.2.2.1
            ≤ x + width - width / ((11 * (text.length + 3) + 11 : Nat) : ℚ))) := by
  obtain ⟨codes, hc, _, hr⟩ := code128_encode_codes text hne (by omega)
  have h1 : (code128_encode_string (some text)).1 = text.length + 3 := by rw [hc]
  have h2 : (code128_encode_string (some text)).2 = codes := by rw [hc]
  rw [h1, h2]
  have htot : (0 : ℚ) < ((11 * (text.length + 3) + 11 : Nat) : ℚ) := by
    exact_mod_cast Nat.succ_pos _
  obtain ⟨ops, hops, hrect⟩ := draw_code128_modules x y width height text hne hlen codes hc hr
  have hval := draw_code128_valid x y width height text hne hlen codes hc hr
  rw [hops] at hval
  have hops1 := Option.some.inj hval
  refine ⟨by rw [total_modules_eq codes hr], ops, _, hops, Prod.ext hops1.symm rfl, ?_, ?_, ?_⟩
  · rw [code128_glyph_loop_eq codes hr, fold_glyphs
      (fun cx i => draw_runs (table_at code128_encoding (code_at codes i)) 11 cx y
        (width / ((11 * (text.length + 3) + 11 : Nat) : ℚ)) height 11 0)
      (((11 : Nat) : ℚ) * (width / ((11 * (text.length + 3) + 11 : Nat) : ℚ)))]
    simp only [List.length_range]
    have hsub : 11 * (text.length + 3) + 11 - 1 = 11 * (text.length + 3) + 10 := by omega
    rw [hsub]
    push_cast
    ring
  · intro r hrm
    rw [hrect] at hrm
    obtain ⟨q, hq, rfl⟩ := List.mem_map.1 hrm
    have hb := glyph_modules_bounds _ _ _ _ q hq
    simp only [List.length_range] at hb
    exact ⟨q.1, q.2, hb.1, hb.2.1, by omega, rfl⟩
  · intro hw r hrm
    rw [hrect] at hrm
    obtain ⟨q, hq, rfl⟩ := List.mem_map.1 hrm
    have hb := glyph_modules_bounds _ _ _ _ q hq
    simp only [List.length_range] at hb
    have hm : (0 : ℚ) ≤ width / ((11 * (text.length + 3) + 11 : Nat) : ℚ) :=
      div_nonneg hw (le_of_lt htot)
    have hwid : width = ((11 * (text.length + 3) + 11 : Nat) : ℚ)
        * (width / ((11 * (text.length + 3) + 11 : Nat) : ℚ)) := by
      field_simp
    generalize width / ((11 * (text.length + 3) + 11 : Nat) : ℚ) = m at hm hwid ⊢
    have q1 : ((10 : Nat) : ℚ) ≤ (q.1 : ℚ) := by exact_mod_cast hb.1
    have q2 : ((q.1 + q.2 : Nat) : ℚ) ≤ ((10 + 11 * (text.length + 3) : Nat) : ℚ) := by
      exact_mod_cast hb.2.2
    push_cast at q1 q2
    simp only [to_rect]
    constructor
    · nlinarith
    · have e : x + width - m = x + (10 + 11 * ((text.length : ℚ) + 3)) * m := by
        rw [hwid]; push_cast; ring
      rw [e]
      nlinarith

/-- The text "AB12" in a box of width 88 at the origin: 88 modules of width 1, and the
drawing has every rectangle between x = 10 and x = 87. -/
theorem code128_module_budget_witness :
    (List.range (code128_encode_string (some (cstr "AB12"))).1).foldl
        (fun total_modules i => total_modules
          + strlen (table_at code128_encoding
              (code_at (code128_encode_string (some (cstr "AB12"))).2 i)))
        0 + 11
      = 11 * ((cstr "AB12").length + 3) + 11 ∧
    ∃ ops, draw_code128 0 0 88 10 (some (cstr "AB12")) = some ops ∧
      ∀ r ∈ rectangles ops,
        (0 : ℚ) + 10 * (88 / ((11 * ((cstr "AB12").length + 3) + 11 : Nat) : ℚ)) ≤ r.1 ∧
        r.1 + r.2.2.1
          ≤ (0 : ℚ) + 88 - 88 / ((11 * ((cstr "AB12").length + 3) + 11 : Nat) : ℚ) :=
  ⟨(code128_module_budget 0 0 88 10 (cstr "AB12") (by decide) (by decide)).1,
    (code128_module_budget 0 0 88 10 (cstr "AB12") (by decide) (by decide)).2.elim
      (fun ops h => h.elim (fun _ h => ⟨ops, h.1, h.2.2.2.2 (by norm_num)⟩))⟩

/-- The bars of the text "A", in modules: start B, 'A', checksum 34, stop. -/
theorem code128_modules_A :
    code128_encode_string (some (cstr "A")) = ((cstr "A").length + 3, [104, 33, 34, 106]) ∧
    glyph_modules (fun i => table_at code128_encoding (code_at [104, 33, 34, 106] i)) 11
        (List.range ((cstr "A").length + 3)) 10
      = [(10, 2), (13, 1), (16, 1), (21, 1), (23, 1), (27, 2), (32, 1), (36, 1), (38, 2),
          (43, 2), (48, 3), (52, 1)] := by
  constructor <;> decide

/-- C20, as stated, fails. In a box of width -55 the text "A" has `module_width = -1`
and its first rectangle starts at x = -10 with width -2, outside
`[x + 10 * module_width, x + width - module_width] = [-10, -54]`. And the text of 254
bytes 'A' is accepted, but `draw_code128` writes past the end of `codes[256]` on it, so
there are no locals and no rectangles to speak of. -/
theorem code128_module_budget_fails :
    (∃ ops, draw_code128 0 0 (-55) 10 (some (cstr "A")) = some ops ∧
      ∃ r ∈ rectangles ops,
        ¬ ((0 : ℚ) + 10 * (-55 / ((11 * ((cstr "A").length + 3) + 11 : Nat) : ℚ)) ≤ r.1 ∧
          r.1 + r.2.2.1
            ≤ (0 : ℚ) + (-55) - (-55) / ((11 * ((cstr "A").length + 3) + 11 : Nat) : ℚ))) ∧
    (List.replicate 254 (65 : Fin 256) ≠ [] ∧
      validate_barcode_data BARCODE_CODE128 (some (List.replicate 254 65)) = true ∧
      draw_code128 0 0 88 10 (some (List.replicate 254 65)) = none) := by
  have h254 : 254 ≤ (List.replicate 254 (65 : Fin 256)).length := by
    rw [List.length_replicate]
  refine ⟨?_, List.ne_nil_of_length_pos (by rw [List.length_replicate]; decide),
    draw_code128_overrun 0 0 88 10 _ h254⟩
  obtain ⟨ops, hops, hrect⟩ := draw_code128_modules 0 0 (-55) 10 (cstr "A") (by decide)
    (by decide) [104, 33, 34, 106] code128_modules_A.1 (by decide)
  refine ⟨ops, hops, to_rect 0 0 (-55 / ((11 * ((cstr "A").length + 3) + 11 : Nat) : ℚ)) 10
    (10, 2), ?_, ?_⟩
  · rw [hrect, code128_modules_A.2]
    exact List.mem_map.2 ⟨(10, 2), by decide, rfl⟩
  · have hl : (cstr "A").length = 1 := rfl
    rw [hl]
    simp only [to_rect]
    norm_num

/-! ## Pattern tables -/

/-- The entries of the Code128 table, by index: 11 characters, each '0' or '1'. -/
theorem code128_table_cells :
    ∀ k : Nat, k < 107 → (code128_encoding.getD k []).length = 11 ∧
      ∀ j : Nat, j < 11 → (byte_at (code128_encoding.getD k []) j = 48 ∨
        byte_at (code128_encoding.getD k []) j = 49) := by
  decide

theorem mem_getD_index {α : Type} (l : List α) (d : α) (p : α) (hp : p ∈ l) :
    ∃ k, k < l.length ∧ l.getD k d = p := by
  obtain ⟨k, hk, rfl⟩ := List.getElem_of_mem hp
  exact ⟨k, hk, by simp [List.getD_eq_getElem?_getD, List.getElem?_eq_getElem hk]⟩

theorem mem_byte_index (p : CString) (b : Fin 256) (hb : b ∈ p) :
    ∃ j, j < p.length ∧ byte_at p j = b.val := by
  obtain ⟨j, hj, h⟩ := mem_getD_index p 0 b hb
  exact ⟨j, hj, by unfold byte_at; rw [h]⟩

/-- C22: the Code128 pattern table has exactly 107 entries (indices 0..106; the start
codes are 103, 104, 105 and the stop code is 106) and every entry is a string of
exactly 11 characters, each '0' or '1'. -/
theorem code128_table_shape :
    code128_encoding.length = 107 ∧
    (CODE128_START_A = 103 ∧ CODE128_START_B = 104 ∧ CODE128_START_C = 105 ∧
      CODE128_STOP = 106) ∧
    (∀ p ∈ code128_encoding, p.length = 11 ∧ ∀ b ∈ p, b.val = 48 ∨ b.val = 49) := by
  refine ⟨by decide, ⟨rfl, rfl, rfl, rfl⟩, ?_⟩
  intro p hp
  obtain ⟨k, hk, rfl⟩ := mem_getD_index code128_encoding [] p hp
  have hlen : code128_encoding.length = 107 := by decide
  obtain ⟨h11, hcells⟩ := code128_table_cells k (by omega)
  refine ⟨h11, ?_⟩
  intro b hb
  obtain ⟨j, hj, hbj⟩ := mem_byte_index _ b hb
  rw [← hbj]
  exact hcells j (by omega)

/-- The stop pattern "11000111010" is an entry: 11 characters, each '0' or '1'. -/
theorem code128_table_shape_witness :
    (cstr "11000111010").length = 11 ∧
      ∀ b ∈ cstr "11000111010", b.val = 48 ∨ b.val = 49 :=
  code128_table_shape.2.2 (cstr "11000111010") (by decide)

/-- C29: the EAN pattern tables are consistent: for every digit `d` in 0..9 the right
pattern is the bitwise complement of the A pattern, the B pattern is the right pattern
read in reverse, every left pattern begins with '0' and ends with '1', and every right
pattern begins with '1' and ends with '0'. -/
theorem ean_tables_consistent :
    ∀ d : Nat, d < 10 →
      table_at ean_right_patterns (d : Int) = (left_pattern_at (d : Int) 0).map flip_bit ∧
      left_pattern_at (d : Int) 1 = (table_at ean_right_patterns (d : Int)).reverse ∧
      (byte_at (left_pattern_at (d : Int) 0) 0 = 48 ∧
        byte_at (left_pattern_at (d : Int) 0) 6 = 49) ∧
      (byte_at (left_pattern_at (d : Int) 1) 0 = 48 ∧
        byte_at (left_pattern_at (d : Int) 1) 6 = 49) ∧
      (byte_at (table_at ean_right_patterns (d : Int)) 0 = 49 ∧
        byte_at (table_at ean_right_patterns (d : Int)) 6 = 48) ∧
      (left_pattern_at (d : Int) 0).length = 7 ∧ (left_pattern_at (d : Int) 1).length = 7 ∧
      (table_at ean_right_patterns (d : Int)).length = 7 := by
  decide

/-- The digit 0: A "0001101", B "0100111", right "1110010". -/
theorem ean_tables_consistent_witness :
    table_at ean_right_patterns ((0 : Nat) : Int)
        = (left_pattern_at ((0 : Nat) : Int) 0).map flip_bit ∧
      left_pattern_at ((0 : Nat) : Int) 1
        = (table_at ean_right_patterns ((0 : Nat) : Int)).reverse :=
  ⟨(ean_tables_consistent 0 (by decide)).1, (ean_tables_consistent 0 (by decide)).2.1⟩

/-- C30: the glyph tables are injective: the 107 Code128 patterns are pairwise distinct,
the 20 EAN left patterns (10 digits, parity A and B) are pairwise distinct, the 10 EAN
right patterns are pairwise distinct, and the 10 first-digit parity strings are pairwise
distinct strings of 6 letters, each 'A' or 'B'. -/
theorem glyph_tables_injective :
    (code128_encoding.length = 107 ∧ code128_encoding.Nodup) ∧
    (ean_left_patterns.length = 10 ∧ (∀ pair ∈ ean_left_patterns, pair.length = 2) ∧
      ean_left_patterns.flatten.length = 20 ∧ ean_left_patterns.flatten.Nodup) ∧
    (ean_right_patterns.length = 10 ∧ ean_right_patterns.Nodup) ∧
    (ean_first_digit_patterns.length = 10 ∧ ean_first_digit_patterns.Nodup ∧
      ∀ k : Nat, k < 10 → (ean_first_digit_patterns.getD k []).length = 6 ∧
        ∀ j : Nat, j < 6 → (byte_at (ean_first_digit_patterns.getD k []) j = 65 ∨
          byte_at (ean_first_digit_patterns.getD k []) j = 66)) := by
  refine ⟨⟨by decide, by decide⟩, ⟨by decide, by decide, by decide, by decide⟩,
    ⟨by decide, by decide⟩, ⟨by decide, by decide, by decide⟩⟩

/-- The parity string of first digit 9, "ABBABA", and the pair of left patterns of
digit 0. -/
theorem glyph_tables_injective_witness :
    [cstr "0001101", cstr "0100111"].length = 2 ∧
    ((ean_first_digit_patterns.getD 9 []).length = 6 ∧
      ∀ j : Nat, j < 6 → (byte_at (ean_first_digit_patterns.getD 9 []) j = 65 ∨
        byte_at (ean_first_digit_patterns.getD 9 []) j = 66)) :=
  ⟨glyph_tables_injective.2.1.2.1 [cstr "0001101", cstr "0100111"] (by decide),
    glyph_tables_injective.2.2.2.2.2 9 (by decide)⟩

/-! ## Code128 checksum -/

/-- C21, as the code has it: for a non-empty sequence of non-negative codes `c_0 .. c_(m-1)` whose
weighted sum `c_0 + sum over i = 1..m-1 of i * c_i` does not exceed `INT_MAX`,
`code128_checksum` returns that sum mod 103: the start code has weight 1, the code at
position `i >= 1` has weight `i`; the result lies in `[0, 102]`. -/
theorem code128_checksum_formula (codes : List Int) (hne : codes ≠ [])
    (hnn : ∀ c ∈ codes, 0 ≤ c)
    (hfit : code_at codes 0 + ∑ i in Finset.Ico 1 codes.length, (i : Int) * code_at codes i
      ≤ INT_MAX) :
    code128_checksum codes codes.length
      = (code_at codes 0 + ∑ i in Finset.Ico 1 codes.length, (i : Int) * code_at codes i) % 103 ∧
    0 ≤ code128_checksum codes codes.length ∧ code128_checksum codes codes.length ≤ 102 := by
  have hpos : 0 < codes.length := List.length_pos.2 hne
  obtain ⟨n, hn⟩ : ∃ n, codes.length = n + 1 := ⟨codes.length - 1, by omega⟩
  rw [hn] at hfit ⊢
  exact code128_checksum_exact codes hnn n hfit

/-- The codes of "AB12" before the checksum: 104 + 1*33 + 2*34 + 3*17 + 4*18 = 328, and
328 mod 103 = 19. -/
theorem code128_checksum_formula_witness :
    code128_checksum [104, 33, 34, 17, 18] [104, 33, 34, 17, 18].length
      = (code_at [104, 33, 34, 17, 18] 0
          + ∑ i in Finset.Ico 1 [104, 33, 34, 17, 18].length,
              (i : Int) * code_at [104, 33, 34, 17, 18] i) % 103 :=
  (code128_checksum_formula [104, 33, 34, 17, 18] (by decide) (by decide) (by decide)).1

/-- C21, as stated, fails: the two codes 2147483647 and 1 are non-negative, their
weighted sum 2147483648 exceeds `INT_MAX`, the 32-bit accumulator wraps around to
-2147483648, and `code128_checksum` returns -83, which is neither the sum mod 103 (83)
nor in `[0, 102]`. -/
theorem code128_checksum_overflow :
    ([2147483647, 1] : List Int) ≠ [] ∧
    (∀ c ∈ ([2147483647, 1] : List Int), 0 ≤ c) ∧
    code128_checksum [2147483647, 1] ([2147483647, 1] : List Int).length = -83 ∧
    (code_at [2147483647, 1] 0
      + ∑ i in Finset.Ico 1 ([2147483647, 1] : List Int).length,
          (i : Int) * code_at [2147483647, 1] i) % 103 = 83 := by
  refine ⟨by decide, by decide, by decide, by decide⟩

/-! ## The save/restore bracket -/

/-- C23, as the code has it: on a text that `validate_barcode_data` rejects, in a box
of positive width and height, `draw_barcode` issues no rectangle and no fill; with a
page and a text present it issues exactly the save followed by the restore, and with
the page or the text absent it issues nothing. -/
theorem draw_barcode_invalid_bracket (page : Option HPDF_Page) (x y width height : ℚ)
    (type : BarcodeType) (data : Option CString)
    (hv : validate_barcode_data type data = false) (hw : 0 < width) (hh : 0 < height) :
    (draw_barcode page x y width height type data).map rectangles = some [] ∧
    (∃ ops, draw_barcode page x y width height type data = some ops ∧ PageOp.Fill ∉ ops) ∧
    (page ≠ none → data ≠ none →
      draw_barcode page x y width height type data
        = some [PageOp.GSave, PageOp.GRestore]) ∧
    (page = none ∨ data = none →
      draw_barcode page x y width height type data = some []) := by
  have hguard : (page.isNone ∨ data.isNone ∨ width ≤ 0 ∨ height ≤ 0)
      ↔ (page = none ∨ data = none) := by
    constructor
    · rintro (h | h | h | h)
      · exact Or.inl (Option.isNone_iff_eq_none.1 h)
      · exact Or.inr (Option.isNone_iff_eq_none.1 h)
      · exact absurd hw (not_lt.2 h)
      · exact absurd hh (not_lt.2 h)
    · rintro (h | h)
      · exact Or.inl (Option.isNone_iff_eq_none.2 h)
      · exact Or.inr (Or.inl (Option.isNone_iff_eq_none.2 h))
  have hnone : page = none ∨ data = none →
      draw_barcode page x y width height type data = some [] := by
    intro h
    unfold draw_barcode
    rw [if_pos (hguard.2 h)]
  have hsome : page ≠ none → data ≠ none →
      draw_barcode page x y width height type data
        = some [PageOp.GSave, PageOp.GRestore] := by
    intro hp hd
    have hng : ¬ (page.isNone ∨ data.isNone ∨ width ≤ 0 ∨ height ≤ 0) := by
      rw [hguard]; rintro (h | h)
      · exact hp h
      · exact hd h
    unfold draw_barcode
    rw [if_neg hng]
    split_ifs with h0 h1 h2
    · subst h0; rw [draw_code128_invalid x y width height data hv]; rfl
    · subst h1; rw [draw_ean13_invalid x y width height data hv]; rfl
    · subst h2; rw [draw_upca_invalid x y width height data hv]; rfl
    · rfl
  refine ⟨?_, ?_, hsome, hnone⟩
  · rcases draw_barcode_invalid page x y width height type data hv with h | h <;>
      rw [h] <;> rfl
  · rcases draw_barcode_invalid page x y width height type data hv with h | h
    · exact ⟨_, h, by simp⟩
    · exact ⟨_, h, by simp⟩

/-- The rejected EAN-13 text "123" on a page, in a box of width 95 and height 10. -/
theorem draw_barcode_invalid_bracket_witness :
    draw_barcode (some ⟨0⟩) 0 0 95 10 BARCODE_EAN13 (some (cstr "123"))
      = some [PageOp.GSave, PageOp.GRestore] :=
  (draw_barcode_invalid_bracket (some ⟨0⟩) 0 0 95 10 BARCODE_EAN13 (some (cstr "123"))
    (by decide) (by norm_num) (by norm_num)).2.2.1 (by simp) (by simp)

/-- C23, as stated, fails: the EAN-13 text "123" is rejected, the box has positive width
and height, and `draw_barcode` still issues two page operations, the save and the
restore. -/
theorem draw_barcode_invalid_not_untouched :
    validate_barcode_data BARCODE_EAN13 (some (cstr "123")) = false ∧
    (0 : ℚ) < 95 ∧ (0 : ℚ) < 10 ∧
    draw_barcode (some ⟨0⟩) 0 0 95 10 BARCODE_EAN13 (some (cstr "123")) ≠ some [] := by
  refine ⟨by decide, by norm_num, by norm_num, ?_⟩
  have hng : ¬ ((some (⟨0⟩ : HPDF_Page)).isNone ∨ (some (cstr "123")).isNone
      ∨ (95 : ℚ) ≤ 0 ∨ (10 : ℚ) ≤ 0) := by
    rintro (h | h | h | h)
    · simp at h
    · simp at h
    · norm_num at h
    · norm_num at h
  unfold draw_barcode
  rw [if_neg hng]
  simp

/-! ## Array bounds -/

/-- C24: for a non-empty text of `n` bytes `code128_encode_string` writes the entries at
indices `0 .. n + 2` and returns `n + 3`; with the 256-entry array of `draw_code128`
every write, and every later read `codes[i]` with `i < code_count`, is in bounds exactly
when `n <= 253`. The validator accepts every non-empty text, and a caller's buffer
holds up to 1023 characters, so an accepted text of 254 characters is encoded out of
bounds. -/
theorem code128_codes_bound :
    (∀ text : CString, text ≠ [] →
      code128_encode_writes (some text) = List.range (text.length + 3) ∧
      (code128_encode_string (some text)).1 = text.length + 3 ∧
      ((∀ k ∈ code128_encode_writes (some text), k < CODES_SIZE) ↔ text.length ≤ 253) ∧
      ((∀ i, i < (code128_encode_string (some text)).1 → i < CODES_SIZE)
        ↔ text.length ≤ 253)) ∧
    (∀ text : CString, text ≠ [] →
      validate_barcode_data BARCODE_CODE128 (some text) = true) ∧
    (validate_barcode_data BARCODE_CODE128 (some (List.replicate 254 65)) = true ∧
      (List.replicate 254 (65 : Fin 256)).length ≤ MAX_TEXT_LEN - 1 ∧
      ∃ k ∈ code128_encode_writes (some (List.replicate 254 65)), CODES_SIZE ≤ k) := by
  have hval : ∀ text : CString, text ≠ [] →
      validate_barcode_data BARCODE_CODE128 (some text) = true := by
    intro text hne
    have : 0 < text.length := List.length_pos.2 hne
    simp [validate_barcode_data, BARCODE_CODE128, strlen, this]
  have h254 : (List.replicate 254 (65 : Fin 256)) ≠ [] :=
    List.ne_nil_of_length_pos (by rw [List.length_replicate]; decide)
  refine ⟨?_, hval, hval _ h254, by rw [List.length_replicate]; decide, ?_⟩
  · intro text hne
    have hcount : (code128_encode_string (some text)).1 = text.length + 3 := by
      rw [code128_encode_string_eq text hne]
    refine ⟨code128_encode_writes_eq text hne, hcount, ?_, ?_⟩
    · rw [code128_encode_writes_eq text hne]
      simp only [List.mem_range, CODES_SIZE]
      constructor
      · intro h
        have := h (text.length + 2) (by omega)
        omega
      · intro h k hk
        omega
    · rw [hcount]
      simp only [CODES_SIZE]
      constructor
      · intro h
        have := h (text.length + 2) (by omega)
        omega
      · intro h k hk
        omega
  · rw [code128_encode_writes_eq _ h254, List.length_replicate]
    exact ⟨256, List.mem_range.2 (by decide), Nat.le_refl 256⟩

/-- The text "AB12": writes at indices 0..6, all below 256. -/
theorem code128_codes_bound_witness :
    code128_encode_writes (some (cstr "AB12")) = List.range ((cstr "AB12").length + 3) ∧
    validate_barcode_data BARCODE_CODE128 (some (cstr "AB12")) = true :=
  ⟨(code128_codes_bound.1 (cstr "AB12") (by decide)).1,
    code128_codes_bound.2.1 (cstr "AB12") (by decide)⟩

/-! ## Table indices -/

theorem skip_ones_reads_lt (pattern : CString) (pattern_len : Nat) (fuel j : Nat) :
    ∀ i ∈ skip_ones_reads pattern pattern_len fuel j, i < pattern_len := by
  induction fuel generalizing j with
  | zero => intro i hi; simp [skip_ones_reads] at hi
  | succ fuel ih =>
    intro i hi
    simp only [skip_ones_reads] at hi
    split_ifs at hi with hj hc
    · rcases List.mem_cons.1 hi with h | h
      · omega
      · exact ih (j + 1) i h
    · rcases List.mem_cons.1 hi with h | h
      · omega
      · simp at h
    · simp at hi

/-- The run-grouping loop reads `pattern[j]` only for `j < pattern_len`. -/
theorem draw_runs_reads_lt (pattern : CString) (pattern_len : Nat) (fuel j : Nat) :
    ∀ i ∈ draw_runs_reads pattern pattern_len fuel j, i < pattern_len := by
  induction fuel generalizing j with
  | zero => intro i hi; simp [draw_runs_reads] at hi
  | succ fuel ih =>
    intro i hi
    simp only [draw_runs_reads] at hi
    split_ifs at hi with hj hc
    · rcases List.mem_cons.1 hi with h | h
      · omega
      · rcases List.mem_append.1 h with h | h
        · exact skip_ones_reads_lt _ _ _ _ i h
        · exact ih _ i h
    · rcases List.mem_cons.1 hi with h | h
      · omega
      · exact ih _ i h
    · simp at hi

/-- The lengths of the EAN table entries: 7 for the digit patterns, 6 for the parity
strings. -/
theorem ean_pattern_lengths (d : Nat) (hd : d ≤ 9) :
    strlen (left_pattern_at (d : Int) 0) = 7 ∧ strlen (left_pattern_at (d : Int) 1) = 7 ∧
    strlen (table_at ean_right_patterns (d : Int)) = 7 ∧
    strlen (table_at ean_first_digit_patterns (d : Int)) = 6 := by
  have key : ∀ d : Nat, d < 10 →
      strlen (left_pattern_at (d : Int) 0) = 7 ∧ strlen (left_pattern_at (d : Int) 1) = 7 ∧
      strlen (table_at ean_right_patterns (d : Int)) = 7 ∧
      strlen (table_at ean_first_digit_patterns (d : Int)) = 6 := by decide
  exact key d (by omega)

theorem ean13_left_pattern_length (data : CString)
    (hv : validate_barcode_data BARCODE_EAN13 (some data) = true) (i : Nat) (hi : i < 13) :
    strlen (ean13_left_pattern data i) = 7 := by
  obtain ⟨hd, hle⟩ := ean13_valid_digit_value data hv i hi
  unfold ean13_left_pattern
  rw [hd]
  split_ifs
  · exact (ean_pattern_lengths _ hle).1
  · exact (ean_pattern_lengths _ hle).2.1

theorem ean13_right_pattern_length (data : CString)
    (hv : validate_barcode_data BARCODE_EAN13 (some data) = true) (i : Nat) (hi : i < 13) :
    strlen (ean13_right_pattern data i) = 7 := by
  obtain ⟨hd, hle⟩ := ean13_valid_digit_value data hv i hi
  unfold ean13_right_pattern
  rw [hd]
  exact (ean_pattern_lengths _ hle).2.2.1

/-- C25: the table accesses of the drawing routines under validation. For an accepted
Code128 text of at most 253 bytes the encoder stays inside `codes[256]` and each symbol
index (start, data, checksum, stop) lies in `[0, 106]`; a text of 254 bytes or more is
accepted as well, and on it `draw_code128` writes past the end of `codes[256]` before
any table access. For EAN-13 the first-digit value and every digit value lie in
`[0, 9]`, the parity-letter index lies in `[0, 5]` and every pattern character index
lies in `[0, 6]`; an accepted UPC-A text is passed on as an accepted EAN-13 text, so the
same holds for it. -/
theorem table_lookups_in_range :
    (∀ text : CString, validate_barcode_data BARCODE_CODE128 (some text) = true →
      text.length ≤ 253 →
      (∀ k ∈ code128_encode_writes (some text), k < CODES_SIZE) ∧
      ∀ i, i < (code128_encode_string (some text)).1 →
        0 ≤ code_at (code128_encode_string (some text)).2 i ∧
        code_at (code128_encode_string (some text)).2 i ≤ 106) ∧
    (∀ (text : CString) (x y width height : ℚ), 254 ≤ text.length →
      validate_barcode_data BARCODE_CODE128 (some text) = true ∧
      draw_code128 x y width height (some text) = none) ∧
    (∀ data : CString, validate_barcode_data BARCODE_EAN13 (some data) = true →
      (0 ≤ char_at data 0 - 48 ∧ char_at data 0 - 48 ≤ 9) ∧
      (∀ i, 1 ≤ i → i ≤ 12 → 0 ≤ char_at data i - 48 ∧ char_at data i - 48 ≤ 9) ∧
      (∀ i, 1 ≤ i → i ≤ 6 →
        i - 1 ≤ 5 ∧ i - 1 < strlen (table_at ean_first_digit_patterns (char_at data 0 - 48))) ∧
      (∀ i, 1 ≤ i → i ≤ 6 → ∀ j ∈ draw_runs_reads (ean13_left_pattern data i) 7 7 0,
        j ≤ 6 ∧ j < strlen (ean13_left_pattern data i)) ∧
      (∀ i, 7 ≤ i → i ≤ 12 → ∀ j ∈ draw_runs_reads (ean13_right_pattern data i) 7 7 0,
        j ≤ 6 ∧ j < strlen (ean13_right_pattern data i))) ∧
    (∀ u : CString, validate_barcode_data BARCODE_UPCA (some u) = true →
      validate_barcode_data BARCODE_EAN13 (some (snprintf_0s 14 u)) = true) := by
  refine ⟨?_, ?_, ?_, ?_⟩
  · intro text hv hlen
    have hne : text ≠ [] := by
      intro h
      subst h
      simp [validate_barcode_data, BARCODE_CODE128, strlen] at hv
    constructor
    · intro k hk
      rw [code128_encode_writes_eq text hne] at hk
      have := List.mem_range.1 hk
      simp only [CODES_SIZE]
      omega
    · intro i _
      obtain ⟨codes, hc, _, hr⟩ := code128_encode_codes text hne (by omega)
      rw [hc]
      exact code_at_range codes hr i
  · intro text x y width height hlen
    exact draw_code128_overrun x y width height text hlen
  · intro data hv
    have hdig : ∀ i, i < 13 → 0 ≤ char_at data i - 48 ∧ char_at data i - 48 ≤ 9 := by
      intro i hi
      obtain ⟨hd, hle⟩ := ean13_valid_digit_value data hv i hi
      rw [hd]
      omega
    refine ⟨hdig 0 (by omega), fun i h1 h12 => hdig i (by omega), ?_, ?_, ?_⟩
    · intro i h1 h6
      obtain ⟨hd, hle⟩ := ean13_valid_digit_value data hv 0 (by omega)
      rw [hd, (ean_pattern_lengths _ hle).2.2.2]
      omega
    · intro i h1 h6 j hj
      have := draw_runs_reads_lt _ _ _ _ j hj
      rw [ean13_left_pattern_length data hv i (by omega)]
      omega
    · intro i h7 h12 j hj
      have := draw_runs_reads_lt _ _ _ _ j hj
      rw [ean13_right_pattern_length data hv i (by omega)]
      omega
  · intro u hv
    have hlen := ((validate_upca_spec u).1 hv).1
    rw [snprintf_0s_of_length u hlen, ← validate_upca_eq_ean13]
    exact hv

/-- The accepted texts "AB12" (Code128), 254 bytes 'A' (Code128, overrunning the
array), "4006381333931" (EAN-13) and "036000291452" (UPC-A). -/
theorem table_lookups_in_range_witness :
    (0 ≤ code_at (code128_encode_string (some (cstr "AB12"))).2 5 ∧
      code_at (code128_encode_string (some (cstr "AB12"))).2 5 ≤ 106) ∧
    (validate_barcode_data BARCODE_CODE128 (some (List.replicate 254 65)) = true ∧
      draw_code128 0 0 88 10 (some (List.replicate 254 65)) = none) ∧
    (0 ≤ char_at (cstr "4006381333931") 0 - 48 ∧ char_at (cstr "4006381333931") 0 - 48 ≤ 9) ∧
    validate_barcode_data BARCODE_EAN13 (some (snprintf_0s 14 (cstr "036000291452"))) = true :=
  ⟨(table_lookups_in_range.1 (cstr "AB12") (by decide) (by decide)).2 5 (by decide),
    table_lookups_in_range.2.1 (List.replicate 254 65) 0 0 88 10
      (by rw [List.length_replicate]),
    (table_lookups_in_range.2.2.1 (cstr "4006381333931") (by decide)).1,
    table_lookups_in_range.2.2.2 (cstr "036000291452") (by decide)⟩

/-! ## Single-digit errors -/

theorem byte_at_set (s : CString) (i k : Nat) (c : Fin 256) (hi : i < s.length) :
    byte_at (s.set i c) k = if k = i then c.val else byte_at s k := by
  unfold byte_at
  rw [List.getD_eq_getElem?_getD, List.getD_eq_getElem?_getD, List.getElem?_set]
  by_cases h : k = i
  · subst h
    simp [hi]
  · have h' : ¬ i = k := fun e => h e.symm
    simp [h, h']

/-- C26: single-digit error detection: replacing the digit at any position 0..12 of an
accepted EAN-13 string by a different digit gives a string that
`validate_barcode_data(BARCODE_EAN13, .)` rejects. -/
theorem ean13_single_digit_error (s : CString)
    (hv : validate_barcode_data BARCODE_EAN13 (some s) = true)
    (i : Nat) (hi : i ≤ 12) (c : Fin 256) (hc : 48 ≤ c.val ∧ c.val ≤ 57)
    (hne : c.val ≠ byte_at s i) :
    validate_barcode_data BARCODE_EAN13 (some (s.set i c)) = false := by
  rw [← Bool.not_eq_true]
  intro hv'
  obtain ⟨hlen, _, hchk⟩ := (validate_ean13_spec s).1 hv
  obtain ⟨_, _, hchk'⟩ := (validate_ean13_spec (s.set i c)).1 hv'
  have hdi := (ean13_valid_digits s hv).2 i (by omega)
  have hd12 := (ean13_valid_digits s hv).2 12 (by omega)
  have hdv : ∀ k, digit_value (s.set i c) k
      = if k = i then c.val - 48 else digit_value s k := by
    intro k
    unfold digit_value
    rw [byte_at_set s i k c (by omega)]
    split_ifs <;> rfl
  by_cases h12 : i = 12
  · subst h12
    have hsum : (∑ k in Finset.range 12, ean13_weight k * digit_value (s.set 12 c) k)
        = ∑ k in Finset.range 12, ean13_weight k * digit_value s k := by
      apply Finset.sum_congr rfl
      intro k hk
      have hk' : k ≠ 12 := by have := Finset.mem_range.1 hk; omega
      rw [hdv k, if_neg hk']
    rw [hsum, hdv 12, if_pos rfl] at hchk'
    generalize (∑ k in Finset.range 12, ean13_weight k * digit_value s k) = S at hchk hchk'
    unfold digit_value at hchk
    omega
  · have hmem : i ∈ Finset.range 12 := Finset.mem_range.2 (by omega)
    have hrest : (∑ k in (Finset.range 12).erase i,
          ean13_weight k * digit_value (s.set i c) k)
        = ∑ k in (Finset.range 12).erase i, ean13_weight k * digit_value s k := by
      apply Finset.sum_congr rfl
      intro k hk
      rw [hdv k, if_neg (Finset.ne_of_mem_erase hk)]
    rw [← Finset.add_sum_erase _ _ hmem] at hchk hchk'
    rw [hrest, hdv i, if_pos rfl, hdv 12, if_neg (by omega)] at hchk'
    generalize (∑ k in (Finset.range 12).erase i, ean13_weight k * digit_value s k) = R
      at hchk hchk'
    have hw : ean13_weight i = 1 ∨ ean13_weight i = 3 := by
      unfold ean13_weight; split_ifs <;> simp
    unfold digit_value at hchk hchk'
    rcases hw with hw | hw <;> rw [hw] at hchk hchk' <;> omega

/-- The accepted "4006381333931" with its digit at position 3 changed from 6 to 7. -/
theorem ean13_single_digit_error_witness :
    validate_barcode_data BARCODE_EAN13 (some (cstr "4006381333931")) = true ∧
    validate_barcode_data BARCODE_EAN13 (some ((cstr "4006381333931").set 3 55)) = false :=
  ⟨by decide, ean13_single_digit_error (cstr "4006381333931") (by decide) 3 (by decide) 55
    (by decide) (by decide)⟩

/-! ## Rectangle counts -/

theorem glyph_modules_length (pattern_of : Nat → CString) (glyph_len : Nat) (l : List Nat)
    (c n : Nat)
    (h : ∀ i ∈ l, (run_list (pattern_of i) glyph_len glyph_len 0).length = n) :
    (glyph_modules pattern_of glyph_len l c).length = n * l.length := by
  induction l generalizing c with
  | nil => simp [glyph_modules]
  | cons i l ih =>
    simp only [glyph_modules, List.length_append, List.length_map, List.length_cons]
    rw [h i (List.mem_cons_self _ _), ih (c + glyph_len) (fun j hj => h j (List.mem_cons_of_mem _ hj))]
    ring

/-- When no glyph has a bar in its last cell, the bars of a glyph sequence come left
to right with at least one module between two of them, also across glyphs. -/
theorem glyph_modules_pairwise (pattern_of : Nat → CString) (glyph_len : Nat) (l : List Nat)
    (c : Nat)
    (h : ∀ i ∈ l, ∀ r ∈ run_list (pattern_of i) glyph_len glyph_len 0, r.1 + r.2 < glyph_len) :
    (glyph_modules pattern_of glyph_len l c).Pairwise (fun a b => a.1 + a.2 < b.1) := by
  induction l generalizing c with
  | nil => exact List.Pairwise.nil
  | cons i l ih =>
    simp only [glyph_modules]
    rw [List.pairwise_append]
    refine ⟨?_, ih (c + glyph_len) (fun j hj => h j (List.mem_cons_of_mem _ hj)), ?_⟩
    · rw [List.pairwise_map]
      refine List.Pairwise.imp ?_ (run_list_pairwise (pattern_of i) glyph_len glyph_len 0 (by omega))
      intro a b hab
      simp only
      omega
    · intro a ha b hb
      obtain ⟨q, hq, rfl⟩ := List.mem_map.1 ha
      have h1 := h i (List.mem_cons_self _ _) q hq
      have h2 := (glyph_modules_bounds pattern_of glyph_len l (c + glyph_len) b hb).1
      simp only
      omega

/-- A pattern on which the loop finds two bars has exactly two maximal runs of '1'. -/
theorem two_maximal_runs (pattern : CString) (pattern_len : Nat)
    (h : (run_list pattern pattern_len pattern_len 0).length = 2) :
    ∃ a b : Nat × Nat, a.1 + a.2 < b.1 ∧
      ∀ s n, is_maximal_run pattern pattern_len s n ↔ ((s, n) = a ∨ (s, n) = b) := by
  have hp := run_list_pairwise pattern pattern_len pattern_len 0 (by omega)
  have hm := run_list_mem pattern pattern_len pattern_len 0 (by omega)
    (Or.inr (Or.inr (Or.inl rfl)))
  generalize run_list pattern pattern_len pattern_len 0 = runs at h hp hm
  match runs, h with
  | [a, b], _ =>
    refine ⟨a, b, (List.pairwise_cons.1 hp).1 b (by simp), ?_⟩
    intro s n
    have := hm s n
    simp only [List.mem_cons, List.mem_singleton, List.not_mem_nil, or_false, Nat.zero_le,
      true_and] at this
    exact this.symm

/-- A pattern on which the loop finds three bars has exactly three maximal runs of '1'. -/
theorem three_maximal_runs (pattern : CString) (pattern_len : Nat)
    (h : (run_list pattern pattern_len pattern_len 0).length = 3) :
    ∃ a b c : Nat × Nat, a.1 + a.2 < b.1 ∧ b.1 + b.2 < c.1 ∧
      ∀ s n, is_maximal_run pattern pattern_len s n
        ↔ ((s, n) = a ∨ (s, n) = b ∨ (s, n) = c) := by
  have hp := run_list_pairwise pattern pattern_len pattern_len 0 (by omega)
  have hm := run_list_mem pattern pattern_len pattern_len 0 (by omega)
    (Or.inr (Or.inr (Or.inl rfl)))
  generalize run_list pattern pattern_len pattern_len 0 = runs at h hp hm
  match runs, h with
  | [a, b, c], _ =>
    have hp' := List.pairwise_cons.1 hp
    refine ⟨a, b, c, hp'.1 b (by simp), (List.pairwise_cons.1 hp'.2).1 c (by simp), ?_⟩
    intro s n
    have := hm s n
    simp only [List.mem_cons, List.mem_singleton, List.not_mem_nil, or_false, Nat.zero_le,
      true_and] at this
    exact this.symm

/-- The Code128 table, by index: first cell '1', last cell '0', three bars found by the
loop, none reaching the last cell. -/
theorem code128_table_runs :
    ∀ k : Nat, k < 107 →
      byte_at (table_at code128_encoding (k : Int)) 0 = 49 ∧
      byte_at (table_at code128_encoding (k : Int)) 10 = 48 ∧
      (run_list (table_at code128_encoding (k : Int)) 11 11 0).length = 3 ∧
      (run_list (table_at code128_encoding (k : Int)) 11 11 0).all
        (fun r => decide (r.1 + r.2 < 11)) = true := by
  decide

theorem code128_pattern_runs (c : Int) (h0 : 0 ≤ c) (h1 : c ≤ 106) :
    (run_list (table_at code128_encoding c) 11 11 0).length = 3 ∧
    ∀ r ∈ run_list (table_at code128_encoding c) 11 11 0, r.1 + r.2 < 11 := by
  have hk := code128_table_runs c.toNat (by omega)
  have hc : ((c.toNat : Nat) : Int) = c := Int.toNat_of_nonneg h0
  rw [hc] at hk
  refine ⟨hk.2.2.1, ?_⟩
  intro r hr
  have := List.all_eq_true.1 hk.2.2.2 r hr
  simpa using this

/-- C27, as the code has it: every one of the 107 Code128 patterns begins with '1', ends with '0'
and has exactly three maximal runs of '1'; hence for a non-empty text of `n <= 253`
bytes `draw_code128` emits exactly `3 (n + 3)` rectangles, and for a positive width they
have positive width and come in strictly increasing x order, each ending strictly
before the next begins, also across glyph boundaries. -/
theorem code128_rectangle_count :
    (∀ k : Nat, k ≤ 106 →
      byte_at (table_at code128_encoding (k : Int)) 0 = 49 ∧
      byte_at (table_at code128_encoding (k : Int)) 10 = 48 ∧
      ∃ a b c : Nat × Nat, a.1 + a.2 < b.1 ∧ b.1 + b.2 < c.1 ∧
        ∀ s n, is_maximal_run (table_at code128_encoding (k : Int)) 11 s n
          ↔ ((s, n) = a ∨ (s, n) = b ∨ (s, n) = c)) ∧
    (∀ (text : CString) (x y width height : ℚ), text ≠ [] → text.length ≤ 253 →
      ∃ ops, draw_code128 x y width height (some text) = some ops ∧
        (rectangles ops).length = 3 * (text.length + 3) ∧
        (0 < width →
          (rectangles ops).Pairwise (fun r1 r2 => r1.1 < r2.1) ∧
          (rectangles ops).Pairwise (fun r1 r2 => r1.1 + r1.2.2.1 < r2.1) ∧
          ∀ r ∈ rectangles ops, 0 < r.2.2.1)) := by
  constructor
  · intro k hk
    have h := code128_table_runs k (by omega)
    exact ⟨h.1, h.2.1, three_maximal_runs _ 11 h.2.2.1⟩
  · intro text x y width height hne hlen
    obtain ⟨codes, hc, _, hr⟩ := code128_encode_codes text hne (by omega)
    obtain ⟨ops, hops, hrect⟩ :=
      draw_code128_modules x y width height text hne hlen codes hc hr
    refine ⟨ops, hops, ?_⟩
    rw [hrect]
    have hm : 0 < width → (0 : ℚ) < width / ((11 * (text.length + 3) + 11 : Nat) : ℚ) :=
      fun hw => div_pos hw (by exact_mod_cast Nat.succ_pos _)
    generalize width / ((11 * (text.length + 3) + 11 : Nat) : ℚ) = m at hm
    have hruns : ∀ i ∈ List.range (text.length + 3),
        (run_list (table_at code128_encoding (code_at codes i)) 11 11 0).length = 3 :=
      fun i _ => (code128_pattern_runs _ (code_at_range codes hr i).1
        (code_at_range codes hr i).2).1
    have hlast : ∀ i ∈ List.range (text.length + 3),
        ∀ r ∈ run_list (table_at code128_encoding (code_at codes i)) 11 11 0,
          r.1 + r.2 < 11 :=
      fun i _ => (code128_pattern_runs _ (code_at_range codes hr i).1
        (code_at_range codes hr i).2).2
    have hlen := glyph_modules_length
      (fun i => table_at code128_encoding (code_at codes i)) 11
      (List.range (text.length + 3)) 10 3 hruns
    have hpw := glyph_modules_pairwise
      (fun i => table_at code128_encoding (code_at codes i)) 11
      (List.range (text.length + 3)) 10 hlast
    have hb := glyph_modules_bounds
      (fun i => table_at code128_encoding (code_at codes i)) 11
      (List.range (text.length + 3)) 10
    generalize glyph_modules (fun i => table_at code128_encoding (code_at codes i)) 11
      (List.range (text.length + 3)) 10 = runs at hlen hpw hb
    refine ⟨by rw [List.length_map, hlen, List.length_range], ?_⟩
    intro hw
    have hm := hm hw
    refine ⟨?_, ?_, ?_⟩
    · rw [List.pairwise_map]
      refine List.Pairwise.imp ?_ hpw
      intro a b hab
      simp only [to_rect]
      have : ((a.1 : Nat) : ℚ) < ((b.1 : Nat) : ℚ) := by
        have : a.1 < b.1 := by omega
        exact_mod_cast this
      nlinarith
    · rw [List.pairwise_map]
      refine List.Pairwise.imp ?_ hpw
      intro a b hab
      simp only [to_rect]
      have : ((a.1 + a.2 : Nat) : ℚ) < ((b.1 : Nat) : ℚ) := by exact_mod_cast hab
      push_cast at this
      nlinarith
    · intro r hrm
      obtain ⟨q, hq, rfl⟩ := List.mem_map.1 hrm
      have hq2 : (0 : ℚ) < ((q.2 : Nat) : ℚ) := by exact_mod_cast (hb q hq).2.1
      simp only [to_rect]
      positivity

/-- Table index 0 and the text "AB12" in a box of width 88: 21 rectangles, left to
right. -/
theorem code128_rectangle_count_witness :
    byte_at (table_at code128_encoding ((0 : Nat) : Int)) 0 = 49 ∧
    ∃ ops, draw_code128 0 0 88 10 (some (cstr "AB12")) = some ops ∧
      (rectangles ops).length = 3 * ((cstr "AB12").length + 3) ∧
      (rectangles ops).Pairwise (fun r1 r2 => r1.1 < r2.1) :=
  ⟨(code128_rectangle_count.1 0 (by decide)).1,
    (code128_rectangle_count.2 (cstr "AB12") 0 0 88 10 (by decide) (by decide)).elim
      (fun ops h => ⟨ops, h.1, h.2.1, (h.2.2 (by norm_num)).1⟩)⟩

/-- C27, as stated, fails. In a box of width 0 the text "A" has `module_width = 0` and
all its rectangles start at the same x, so they are not in strictly increasing x order.
And the text of 254 bytes 'A' is accepted, but `draw_code128` writes past the end of
`codes[256]` on it, so it has no list of rectangles. -/
theorem code128_rectangle_order_fails :
    (∃ ops, draw_code128 0 0 0 10 (some (cstr "A")) = some ops ∧
      ¬ (rectangles ops).Pairwise (fun r1 r2 => r1.1 < r2.1)) ∧
    (List.replicate 254 (65 : Fin 256) ≠ [] ∧
      validate_barcode_data BARCODE_CODE128 (some (List.replicate 254 65)) = true ∧
      draw_code128 0 0 88 10 (some (List.replicate 254 65)) = none) := by
  have h254 : 254 ≤ (List.replicate 254 (65 : Fin 256)).length := by
    rw [List.length_replicate]
  refine ⟨?_, List.ne_nil_of_length_pos (by rw [List.length_replicate]; decide),
    draw_code128_overrun 0 0 88 10 _ h254⟩
  obtain ⟨ops, hops, hrect⟩ := draw_code128_modules 0 0 0 10 (cstr "A") (by decide)
    (by decide) [104, 33, 34, 106] code128_modules_A.1 (by decide)
  refine ⟨ops, hops, ?_⟩
  rw [hrect, code128_modules_A.2]
  intro hp
  have h := List.rel_of_pairwise_cons hp (List.mem_cons_self _ _)
  simp only [to_rect] at h
  norm_num at h

/-- The EAN digit patterns, by digit: 7 characters and two bars found by the loop. -/
theorem ean_table_runs :
    ∀ d : Nat, d < 10 →
      ((left_pattern_at (d : Int) 0).length = 7 ∧
        (run_list (left_pattern_at (d : Int) 0) 7 7 0).length = 2) ∧
      ((left_pattern_at (d : Int) 1).length = 7 ∧
        (run_list (left_pattern_at (d : Int) 1) 7 7 0).length = 2) ∧
      ((table_at ean_right_patterns (d : Int)).length = 7 ∧
        (run_list (table_at ean_right_patterns (d : Int)) 7 7 0).length = 2) := by
  decide

theorem ean13_left_pattern_runs (data : CString)
    (hv : validate_barcode_data BARCODE_EAN13 (some data) = true) (i : Nat) (hi : i < 13) :
    (run_list (ean13_left_pattern data i) 7 7 0).length = 2 := by
  obtain ⟨hd, hle⟩ := ean13_valid_digit_value data hv i hi
  have h := ean_table_runs (digit_value data i) (by omega)
  unfold ean13_left_pattern
  rw [hd]
  split_ifs
  · exact h.1.2
  · exact h.2.1.2

theorem ean13_right_pattern_runs (data : CString)
    (hv : validate_barcode_data BARCODE_EAN13 (some data) = true) (i : Nat) (hi : i < 13) :
    (run_list (ean13_right_pattern data i) 7 7 0).length = 2 := by
  obtain ⟨hd, hle⟩ := ean13_valid_digit_value data hv i hi
  have h := ean_table_runs (digit_value data i) (by omega)
  unfold ean13_right_pattern
  rw [hd]
  exact h.2.2.2

/-- The rectangles of an accepted EAN-13 drawing, by group: 2 for the left guard, 12
for the left digits, 2 for the center guard, 12 for the right digits, 2 for the right
guard. -/
theorem draw_ean13_groups (x y width height : ℚ) (data : CString)
    (hv : validate_barcode_data BARCODE_EAN13 (some data) = true) :
    ∃ g1 l g2 r g3 : List (ℚ × ℚ × ℚ × ℚ),
      rectangles (draw_ean13 x y width height (some data)) = g1 ++ l ++ g2 ++ r ++ g3 ∧
      g1.length = 2 ∧ l.length = 12 ∧ g2.length = 2 ∧ r.length = 12 ∧ g3.length = 2 := by
  have hl := glyph_modules_length (ean13_left_pattern data) 7 (List.range' 1 6) 3 2
    (fun i hi => ean13_left_pattern_runs data hv i (by
      have := List.mem_range'_1.1 hi; omega))
  have hr := glyph_modules_length (ean13_right_pattern data) 7 (List.range' 7 6) 50 2
    (fun i hi => ean13_right_pattern_runs data hv i (by
      have := List.mem_range'_1.1 hi; omega))
  simp only [List.length_range'] at hl hr
  rw [draw_ean13_modules x y width height data hv]
  unfold ean13_modules
  generalize glyph_modules (ean13_left_pattern data) 7 (List.range' 1 6) 3 = L at hl
  generalize glyph_modules (ean13_right_pattern data) 7 (List.range' 7 6) 50 = R at hr
  refine ⟨[(0, 1), (1, 1)].map (to_rect x y (width / 95) height),
    L.map (to_rect x y (width / 95) height),
    [(46, 1), (48, 1)].map (to_rect x y (width / 95) height),
    R.map (to_rect x y (width / 95) height),
    [(93, 1), (95, 1)].map (to_rect x y (width / 95) height), ?_, rfl, ?_, rfl, ?_, rfl⟩
  · simp only [List.map_append]
  · rw [List.length_map, hl]
  · rw [List.length_map, hr]

/-- C28: each of the 30 EAN digit patterns (left A, left B and right, for the digits
0..9) has exactly 7 characters and exactly two maximal runs of '1'; hence for every
accepted EAN-13 text, and every accepted UPC-A text, exactly 30 rectangles are emitted:
2 for the left guard, 12 for the left digits, 2 for the center guard, 12 for the right
digits and 2 for the right guard. -/
theorem ean13_rectangle_count :
    (∀ d : Nat, d ≤ 9 → ∀ p : CString,
      (p = left_pattern_at (d : Int) 0 ∨ p = left_pattern_at (d : Int) 1 ∨
        p = table_at ean_right_patterns (d : Int)) →
      p.length = 7 ∧
      ∃ a b : Nat × Nat, a.1 + a.2 < b.1 ∧
        ∀ s n, is_maximal_run p 7 s n ↔ ((s, n) = a ∨ (s, n) = b)) ∧
    (∀ (data : CString) (x y width height : ℚ),
      validate_barcode_data BARCODE_EAN13 (some data) = true →
      (rectangles (draw_ean13 x y width height (some data))).length = 30 ∧
      ∃ g1 l g2 r g3 : List (ℚ × ℚ × ℚ × ℚ),
        rectangles (draw_ean13 x y width height (some data)) = g1 ++ l ++ g2 ++ r ++ g3 ∧
        g1.length = 2 ∧ l.length = 12 ∧ g2.length = 2 ∧ r.length = 12 ∧ g3.length = 2) ∧
    (∀ (u : CString) (x y width height : ℚ),
      validate_barcode_data BARCODE_UPCA (some u) = true →
      (rectangles (draw_upca x y width height (some u))).length = 30) := by
  have hcount : ∀ (data : CString) (x y width height : ℚ),
      validate_barcode_data BARCODE_EAN13 (some data) = true →
      (rectangles (draw_ean13 x y width height (some data))).length = 30 := by
    intro data x y width height hv
    obtain ⟨g1, l, g2, r, g3, he, h1, h2, h3, h4, h5⟩ :=
      draw_ean13_groups x y width height data hv
    rw [he]
    simp only [List.length_append, h1, h2, h3, h4, h5]
  refine ⟨?_, ?_, ?_⟩
  · intro d hd p hp
    have h := ean_table_runs d (by omega)
    rcases hp with rfl | rfl | rfl
    · exact ⟨h.1.1, two_maximal_runs _ 7 h.1.2⟩
    · exact ⟨h.2.1.1, two_maximal_runs _ 7 h.2.1.2⟩
    · exact ⟨h.2.2.1, two_maximal_runs _ 7 h.2.2.2⟩
  · intro data x y width height hv
    exact ⟨hcount data x y width height hv, draw_ean13_groups x y width height data hv⟩
  · intro u x y width height hv
    have he : validate_barcode_data BARCODE_EAN13 (some ((48 : Fin 256) :: u)) = true := by
      rw [← validate_upca_eq_ean13]; exact hv
    rw [draw_upca_eq]
    exact hcount _ x y width height he

/-- The accepted "4006381333931" and "036000291452" in a box of width 95 and height 10,
and the A pattern of digit 0. -/
theorem ean13_rectangle_count_witness :
    (left_pattern_at ((0 : Nat) : Int) 0).length = 7 ∧
    (rectangles (draw_ean13 0 0 95 10 (some (cstr "4006381333931")))).length = 30 ∧
    (rectangles (draw_upca 0 0 95 10 (some (cstr "036000291452")))).length = 30 :=
  ⟨(ean13_rectangle_count.1 0 (by decide) _ (Or.inl rfl)).1,
    (ean13_rectangle_count.2.1 (cstr "4006381333931") 0 0 95 10 (by decide)).1,
    ean13_rectangle_count.2.2 (cstr "036000291452") 0 0 95 10 (by decide)⟩

end FDCLabel
